import Mathlib

/-!
# The libp2p websocket relay (`libp2p-websocket.go`, `libp2p-connection.go`)

A shallow embedding of the relay's session state machine: the per-client maps
(`listeners`, `listenerConnections`, `forwarders`), the listeners they point to,
the closures posted to the client's and the relay's loops, the NAT-status gate,
and the API methods `Listen`, `Stop`, `Close`, `Data`, `Connect`.

Pointers to listeners are addresses into a heap (`State.heap`); closures are
defunctionalised (`Task`, `RelayTask`, `Cont`, `Action`); everything the code does
to the outside (messages written to the control channel, overlay calls, stream
writes) is appended to one chronological `trace`.

The discovery functions of `libp2p-connection.go` (`direct`, `indirect`,
`DiscoveryListen`, `DiscoveryConnect`, `attemptDiscoveryConnect`) act on a trace of
their own (`DiscoveryEvent`); `versionNumbers` and the address predicates
(`isPrivateIPv4`, `isPrivateIPv6`, `isPrivate`) are pure functions in which a Go panic
is `none`.
-/

namespace P2PRelay

/-! ## Go maps -/

/-- A Go `map[κ]α` as an association list; `set` keeps at most one entry per key.
The order of the list stands for one of the iteration orders Go may choose. -/
abbrev GoMap (κ : Type) (α : Type) := List (κ × α)

namespace GoMap

variable {κ α : Type} [DecidableEq κ]

/-- The entry stored under `x`, if the key is present: `v, ok := m[x]`. -/
def get? : GoMap κ α → κ → Option α
  | [], _ => none
  | (k, v) :: m, x => if k = x then some v else get? m x

/-- The Go builtin `delete(m, x)`. -/
def del (m : GoMap κ α) (x : κ) : GoMap κ α :=
  m.filter (fun e => decide (e.1 ≠ x))

/-- The assignment `m[x] = v`. -/
def set (m : GoMap κ α) (x : κ) (v : α) : GoMap κ α :=
  del m x ++ [(x, v)]

/-- The keys of the map. -/
def keys (m : GoMap κ α) : List κ :=
  m.map Prod.fst

/-- The values of the map. -/
def vals (m : GoMap κ α) : List α :=
  m.map Prod.snd

/-- The expression `m[x]` on a map of pointers that may hold nil: nil (`none`) when the
key is absent and also when the key is present with a nil value. -/
def idx (m : GoMap κ (Option α)) (x : κ) : Option α :=
  match get? m x with
  | some v => v
  | none => none

end GoMap

/-! ## Data model -/

/-- The type `network.Reachability`. -/
inductive Reachability where
  | Unknown
  | Public
  | Private
deriving DecidableEq, Repr

/-- An overlay stream (`network.Stream`): a handle and the remote peer of its
connection, the peer id written in its `Pretty()` form. -/
structure Stream where
  handle : Nat
  remotePeer : String
deriving DecidableEq, Repr

/-- The struct `libp2pConnection` with the fields of the embedded `connection` that
`connection.init` receives. -/
structure libp2pConnection where
  id : Nat
  protocol : String
  frames : Bool
  stream : Stream
  peerID : String
deriving DecidableEq, Repr

/-- The struct `listener`. The back pointer `client` is the one session of the state;
`managementChan` is never used by the code. -/
structure listener where
  connections : GoMap Nat libp2pConnection
  protocol : String
  frames : Bool
  closed : Bool
deriving DecidableEq, Repr

instance : Inhabited listener := ⟨⟨[], "", false, false⟩⟩

/-- The messages the relay writes to the client's control channel. -/
inductive Msg where
  | listening (prot : String)
  | listenRefused (prot : String) (reason : String)
  | listenerClosed (prot : String)
  | listenerConnection (id : String) (peer : String) (prot : String)
  | peerConnection (id : String) (peer : String) (prot : String)
  | connectionRefused (peer : String) (prot : String) (reason : String)
  | connectionClosed (id : String) (reason : String)
deriving DecidableEq, Repr

/-- What the code does to the outside, in the order it does it. -/
inductive Event where
  | emit (m : Msg)
  | setStreamHandler (prot : String)
  | removeStreamHandler (prot : String)
  | hostConnect (pid : String) (addrs : List String)
  | newStream (pid : String) (prot : String)
  | protect (peer : String)
  | writeData (con : libp2pConnection) (data : List Nat)
  | closeStream (con : libp2pConnection)
  | read (con : libp2pConnection)
  | initCalled (callback : Nat) (isPublic : Bool) (hasNat : Bool)
  | called (tag : Nat)
  | controlClose
  | clientClose
deriving DecidableEq, Repr

/-- The continuations the code hands to `connection.close`. -/
inductive Cont where
  | unlistLater (id : Nat)
  | delForwarder (id : Nat)
  | nop
deriving DecidableEq, Repr

/-- The closures the code posts to the client's loop with `svc(c, ...)`. -/
inductive Task where
  | accept (lis : Nat) (prot : String) (stream : Stream) (frames : Bool)
  | retain (lis : Nat) (id : Nat)
  | cont (k : Cont)
  | unlist (id : Nat)
  | newConnection (prot : String) (peer : String) (stream : Stream) (frames : Bool)
  | closeSession
deriving DecidableEq, Repr

/-- The closures handed to `whenNatKnown`: the one `StartClient` builds around its
`init` callback, and any other closure, known by a tag. -/
inductive Action where
  | startClient (callback : Nat)
  | other (tag : Nat)
deriving DecidableEq, Repr

/-- The closures the code posts to the relay's loop with `svc(r, ...)`. -/
inductive RelayTask where
  | whenNat (f : Action)
  | connected (peer : String) (con : libp2pConnection)
deriving DecidableEq, Repr

/-- A stream handler registered in the overlay's multiplexer: one installed by `Listen`
(the closure captures `lis`, `prot` and `frames`), or one that belongs to some other
part of the process. -/
inductive Handler where
  | foreign
  | listen (lis : Nat) (prot : String) (frames : Bool)
deriving DecidableEq, Repr

/-- The relay (`libp2pRelay`), the overlay's handler registry, and one client session
(`libp2pClient`). -/
structure State where
  /-- The field `libp2pRelay.natStatus`. -/
  natStatus : Reachability
  /-- The field `libp2pRelay.natActions`. -/
  natActions : List Action
  /-- The field `libp2pRelay.connectedPeers`. -/
  connectedPeers : GoMap String libp2pConnection
  /-- The global `hasNat`. -/
  hasNat : Bool
  /-- Closures waiting on the relay's loop. -/
  relayQueue : List RelayTask
  /-- The overlay's protocol multiplexer: `r.host.Mux()`. -/
  handlers : GoMap String Handler
  /-- The listeners allocated so far; a `*listener` is an index into this list. -/
  heap : List listener
  /-- The field `libp2pClient.listeners`. -/
  listeners : GoMap String Nat
  /-- The field `libp2pClient.listenerConnections`. -/
  listenerConnections : GoMap Nat Nat
  /-- The field `libp2pClient.forwarders`; the only map in which the code stores nil. -/
  forwarders : GoMap Nat (Option libp2pConnection)
  /-- The connection-id counter of the session. -/
  nextID : Nat
  /-- Every id `newConnectionID` has returned so far. -/
  issued : List Nat
  /-- Connections on which `close` has already run. -/
  closed : List libp2pConnection
  /-- Whether `c.control` is non-nil. -/
  control : Bool
  /-- Whether the session is in the relay's `clients` registry. -/
  registered : Bool
  /-- Closures waiting on the client's loop. -/
  queue : List Task
  /-- Everything done to the outside so far. -/
  trace : List Event
deriving DecidableEq, Repr

/-- The state right after `CreateClient`: the three maps are empty. The first
connection id, the NAT status and the handlers other parts of the process have
registered are whatever they are at that moment. -/
def CreateClient (firstID : Nat) (status : Reachability) (foreign : List String)
    (hasNat : Bool) : State :=
  { natStatus := status, natActions := [], connectedPeers := [], hasNat := hasNat,
    relayQueue := [], handlers := foreign.map (fun p => (p, Handler.foreign)),
    heap := [], listeners := [], listenerConnections := [], forwarders := [],
    nextID := firstID, issued := [], closed := [], control := true, registered := true,
    queue := [], trace := [] }

/-- The listener a pointer refers to. -/
def State.deref (s : State) (l : Nat) : listener :=
  s.heap.getD l default

/-- The messages among the events of a trace, in order. -/
def emitted (tr : List Event) : List Msg :=
  tr.filterMap (fun e => match e with
    | Event.emit m => some m
    | _ => none)

/-- The result of `strconv.FormatUint(n, base)`. -/
def formatUint (n : Nat) (base : Nat) : String :=
  String.mk (Nat.toDigits base n)

/-! ## Helpers of the base `client` and `connection` types -/

/-- Modelled from the spec: `client.writeMsgpack`, which is not in the two source files;
it writes one message to the local control channel. -/
def writeMsgpack (m : Msg) (s : State) : State :=
  { s with trace := s.trace ++ [Event.emit m] }

/-- Modelled from the spec: `svc(c, code)`, which is not in the two source files; it
posts the closure to the client's loop, which runs it later. -/
def svc (t : Task) (s : State) : State :=
  { s with queue := s.queue ++ [t] }

/-- Modelled from the spec: `svc(r, code)` on the relay's own loop. -/
def svcRelay (t : RelayTask) (s : State) : State :=
  { s with relayQueue := s.relayQueue ++ [t] }

/-- Modelled from the spec: `client.newConnectionID`, which is not in the two source
files; a monotone 64-bit counter. -/
def newConnectionID (s : State) : Nat × State :=
  (s.nextID, { s with nextID := (s.nextID + 1) % 2 ^ 64, issued := s.issued ++ [s.nextID] })

/-- Modelled from the spec: `client.connectionRefused(err, peerid, prot)`, which is not in
the two source files; it emits `connection-refused(peer, protocol, reason)`. -/
def connectionRefused (err : String) (peerid : String) (prot : String) (s : State) : State :=
  writeMsgpack (Msg.connectionRefused peerid prot err) s

/-- Modelled from the spec: `connection.writeData(relay, data)`, which is not in the two
source files; it writes the bytes to the connection's stream. -/
def writeData (con : libp2pConnection) (data : List Nat) (s : State) : State :=
  { s with trace := s.trace ++ [Event.writeData con data] }

/-- Modelled from the spec: `client.read(con)`, which is not in the two source files; it
spawns the read pump of the connection. -/
def read (con : libp2pConnection) (s : State) : State :=
  { s with trace := s.trace ++ [Event.read con] }

/-- Modelled from the spec: `connection.close(then)`, which is not in the two source
files. The first call closes the stream and has the continuation invoked on the actor
loop; later calls are no-ops. The removal from the owner's maps is what the
continuations of the callers do (`CleanupClosed` of this relay is empty). A nil
receiver is a nil dereference (`none`). -/
def connection.close (con : Option libp2pConnection) (k : Cont) (s : State) : Option State :=
  match con with
  | none => none
  | some c =>
    if c ∈ s.closed then some s
    else some (svc (Task.cont k)
      { s with closed := s.closed ++ [c], trace := s.trace ++ [Event.closeStream c] })

/-! ## Listeners and connections (`libp2p-websocket.go`) -/

/-- The function `createListener` followed by the body of `libp2pClient.createListener`:
a fresh listener with no connections is allocated and stored at `c.listeners[prot]`. -/
def createListener (prot : String) (frames : Bool) (s : State) : Nat × State :=
  (s.heap.length,
    { s with
      heap := s.heap ++ [{ connections := [], protocol := prot, frames := frames, closed := false }],
      listeners := s.listeners.set prot s.heap.length })

/-- The method `libp2pClient.createConnection`: the connection is built, its peer is
protected in the connection manager, and the update of `connectedPeers` is posted to
the relay's loop. -/
def createConnection (conID : Nat) (prot : String) (stream : Stream) (frames : Bool)
    (s : State) : libp2pConnection × State :=
  let con : libp2pConnection :=
    { id := conID, protocol := prot, frames := frames, stream := stream,
      peerID := stream.remotePeer }
  (con, svcRelay (RelayTask.connected con.peerID con)
    { s with trace := s.trace ++ [Event.protect con.peerID] })

/-- The update of the listener behind a pointer. -/
def State.store (s : State) (l : Nat) (lis : listener) : State :=
  { s with heap := s.heap.set l lis }

/-- The statement `delete(l.connections, id)`. -/
def deleteConnection (l : Nat) (id : Nat) (s : State) : State :=
  s.store l { s.deref l with connections := (s.deref l).connections.del id }

/-- The method `listener.removeConnection`. With `retainConnections` it posts the
closure that moves the connection to the forwarders; without, it closes the connection
with a continuation that posts the removal from `listenerConnections`. In both cases it
then deletes the id from `l.connections`. -/
def removeConnection (l : Nat) (id : Nat) (retainConnections : Bool) (s : State) :
    Option State :=
  if retainConnections then
    some (deleteConnection l id (svc (Task.retain l id) s))
  else
    match connection.close ((s.deref l).connections.get? id) (Cont.unlistLater id) s with
    | none => none
    | some s1 => some (deleteConnection l id s1)

/-- The loop `for id := range l.connections { l.removeConnection(id, retainConnections) }`
over the keys the map had when the loop began; a key deleted before the loop reaches it
is not produced. -/
def closeLoop (l : Nat) (retainConnections : Bool) : List Nat → State → Option State
  | [], s => some s
  | id :: ids, s =>
    match (s.deref l).connections.get? id with
    | none => closeLoop l retainConnections ids s
    | some _ =>
      match removeConnection l id retainConnections s with
      | none => none
      | some s1 => closeLoop l retainConnections ids s1

/-- The method `listener.closePrim`. -/
def closePrim (l : Nat) (s : State) : State :=
  let prot := (s.deref l).protocol
  let s1 : State :=
    { s with
      handlers := s.handlers.del prot,
      trace := s.trace ++ [Event.removeStreamHandler prot],
      listeners := s.listeners.del prot }
  let s2 : State :=
    { s1 with
      listenerConnections :=
        (s1.deref l).connections.keys.foldl (fun m conID => m.del conID) s1.listenerConnections }
  s2.store l { s2.deref l with closed := true }

/-- The method `listener.close`. -/
def listener.close (l : Nat) (retainConnections : Bool) (s : State) : Option State :=
  match closeLoop l retainConnections (s.deref l).connections.keys s with
  | none => none
  | some s1 => some (closePrim l (writeMsgpack (Msg.listenerClosed (s1.deref l).protocol) s1))

/-! ## The API methods -/

/-- The method `libp2pRelay.Listen`. -/
def Listen (prot : String) (frames : Bool) (s : State) : State :=
  let (lis, s1) := createListener prot frames s
  if s1.handlers.keys.any (fun currentProt => decide (currentProt = prot)) then
    writeMsgpack (Msg.listenRefused prot ("already listening to " ++ prot)) s1
  else
    writeMsgpack (Msg.listening prot)
      { s1 with
        handlers := s1.handlers.set prot (Handler.listen lis prot frames),
        trace := s1.trace ++ [Event.setStreamHandler prot] }

/-- The overlay delivers an inbound stream for `prot`: the handler registered for the
protocol runs; the one `Listen` installs posts its closure to the client's loop. -/
def inboundStream (prot : String) (stream : Stream) (s : State) : State :=
  match s.handlers.get? prot with
  | some (Handler.listen lis p frames) => svc (Task.accept lis p stream frames) s
  | _ => s

/-- The method `libp2pRelay.Stop`. -/
def Stop (protocol : String) (retainConnections : Bool) (s : State) : Option State :=
  match s.listeners.get? protocol with
  | some l => listener.close l retainConnections s
  | none => some s

/-- The method `libp2pRelay.Close`. -/
def Close (id : Nat) (s : State) : Option State :=
  let afterListener : Option State :=
    match s.listenerConnections.get? id with
    | some lis => removeConnection lis id false s
    | none => some s
  match afterListener with
  | none => none
  | some s1 =>
    match s1.forwarders.idx id with
    | some fwd => connection.close (some fwd) (Cont.delForwarder id) s1
    | none => some s1

/-- The connection `Data` finds for an id: `forwarders` first, then the listener that
`listenerConnections` names. -/
def findConnection (s : State) (id : Nat) : Option libp2pConnection :=
  match s.forwarders.idx id with
  | some con => some con
  | none =>
    match s.listenerConnections.get? id with
    | some lis => (s.deref lis).connections.get? id
    | none => none

/-- The method `libp2pRelay.Data`. -/
def Data (id : Nat) (data : List Nat) (s : State) : State :=
  match findConnection s id with
  | some con => writeData con data s
  | none => writeMsgpack (Msg.connectionClosed (formatUint id 10) "unknown connection") s

/-- The outcomes of the library and overlay calls `Connect` makes: `ascii85.Decode`,
`json.Unmarshal` into `{PeerID, Addrs}`, `ma.NewMultiaddr`, `peer.Decode` (the error
text on failure), `host.Connect` (the error text on failure) and `host.NewStream`. A
decoded peer id is written in its `Pretty()` form, a multiaddress as its text. -/
structure Env where
  ascii85Decode : String → Option String
  jsonUnmarshal : String → Option (String × List String)
  newMultiaddr : String → Option String
  peerDecode : String → Except String String
  hostConnect : String → List String → Option String
  newStream : String → String → Except String Stream

/-- The loop of `Connect` over `encodedAddrs.Addrs`: the decoded addresses in order, or
the first address that does not decode. -/
def decodeAddrs (env : Env) : List String → Except String (List String)
  | [] => Except.ok []
  | addr :: rest =>
    match env.newMultiaddr addr with
    | none => Except.error addr
    | some m =>
      match decodeAddrs env rest with
      | Except.error bad => Except.error bad
      | Except.ok ms => Except.ok (m :: ms)

/-- The result of `strings.HasPrefix(str, pre)`. -/
def hasPrefixStr (str : String) (pre : String) : Bool :=
  pre.data.isPrefixOf str.data

/-- The result of `strings.TrimPrefix(str, pre)`. -/
def trimPrefixStr (str : String) (pre : String) : String :=
  if hasPrefixStr str pre then String.mk (str.data.drop pre.data.length) else str

/-- The first part of `Connect`, the `/addrs/` specifier: the result is the peer id
string to decode, `encodedAddrs.PeerID` and `addrInfo.Addrs`; on failure, the error text
and the peer string that `connectionRefused` is called with. -/
def connectSpecifier (env : Env) (peerid : String) :
    Except (String × String) (String × String × List String) :=
  if hasPrefixStr peerid "/addrs/" then
    let enc := trimPrefixStr peerid "/addrs/"
    match env.ascii85Decode enc with
    | none => Except.error ("could not decode addrs: " ++ peerid, peerid)
    | some dst =>
      match env.jsonUnmarshal dst with
      | none => Except.error ("could not decode addrs: " ++ dst, peerid)
      | some (encodedPeerID, encodedAddrs) =>
        match decodeAddrs env encodedAddrs with
        | Except.error addr => Except.error ("could not decode peer addr: " ++ addr, encodedPeerID)
        | Except.ok addrs => Except.ok (encodedPeerID, encodedPeerID, addrs)
  else
    Except.ok (peerid, "", [])

/-- The address list `Connect` hands to `host.Connect`: the decoded list of the
specifier, or, when `encodedAddrs.PeerID` is empty, the single address `/p2p/<peerid>`;
`none` when that address does not parse. -/
def connectAddrs (env : Env) (peerid : String) (encodedPeerID : String)
    (encodedAddrs : List String) : Option (List String) :=
  if encodedPeerID = "" then
    match env.newMultiaddr ("/p2p/" ++ peerid) with
    | none => none
    | some maddr => some [maddr]
  else some encodedAddrs

/-- Modelled from the spec: `client.newConnection(prot, peer, create)`, which is not in
the two source files; on the client's loop it allocates the connection id, has `create`
build the connection and emits `peer-connection`. Here it posts that closure. -/
def newConnection (prot : String) (peer : String) (stream : Stream) (frames : Bool)
    (s : State) : State :=
  svc (Task.newConnection prot peer stream frames) s

/-- The method `libp2pRelay.Connect` of `libp2p-websocket.go`. -/
def Connect (env : Env) (prot : String) (peerid0 : String) (frames : Bool) (relay : Bool)
    (s : State) : State :=
  match connectSpecifier env peerid0 with
  | Except.error (err, peer) => connectionRefused err peer prot s
  | Except.ok (peerid, encodedPeerID, encodedAddrs) =>
    match env.peerDecode peerid with
    | Except.error err =>
      connectionRefused ("Error parsing peer id " ++ peerid ++ ": " ++ err) peerid prot s
    | Except.ok pid =>
      match connectAddrs env peerid encodedPeerID encodedAddrs with
      | none =>
        connectionRefused ("could not parse multiaddr " ++ ("/p2p/" ++ peerid)) pid prot s
      | some addrs =>
        let s1 : State := { s with trace := s.trace ++ [Event.hostConnect pid addrs] }
        match env.hostConnect pid addrs with
        | some err =>
          connectionRefused ("could not connect to peer " ++ pid ++ ": " ++ err) pid prot s1
        | none =>
          if relay then s1
          else
            let s2 : State := { s1 with trace := s1.trace ++ [Event.newStream pid prot] }
            match env.newStream pid prot with
            | Except.error err => connectionRefused err peerid prot s2
            | Except.ok stream => newConnection prot stream.remotePeer stream frames s2

/-! ## The closures run by the client's loop -/

/-- The closure the stream handler of `Listen` posts for an inbound stream. -/
def acceptClosure (lis : Nat) (prot : String) (stream : Stream) (frames : Bool)
    (s : State) : State :=
  let (conID, s1) := newConnectionID s
  let (con, s2) := createConnection conID prot stream frames s1
  let s3 := s2.store lis { s2.deref lis with connections := (s2.deref lis).connections.set con.id con }
  let s4 : State := { s3 with listenerConnections := s3.listenerConnections.set con.id lis }
  let s5 := writeMsgpack (Msg.listenerConnection (formatUint con.id 10) stream.remotePeer prot) s4
  read con s5

/-- The closure `removeConnection` posts when the connections are retained:
`l.client.forwarders[id] = l.connections[id]; delete(l.client.listenerConnections, id)`. -/
def retainClosure (l : Nat) (id : Nat) (s : State) : State :=
  { s with
    forwarders := s.forwarders.set id ((s.deref l).connections.get? id),
    listenerConnections := s.listenerConnections.del id }

/-- The closure `newConnection` runs on the client's loop, with the `create` function
`Connect` gives it: `lc.createConnection(conID, prot, stream, frames)` stored at
`lc.forwarders[conID]`. -/
def newConnectionClosure (prot : String) (peer : String) (stream : Stream) (frames : Bool)
    (s : State) : State :=
  let (conID, s1) := newConnectionID s
  let (con, s2) := createConnection conID prot stream frames s1
  let s3 : State := { s2 with forwarders := s2.forwarders.set conID (some con) }
  let s4 := writeMsgpack (Msg.peerConnection (formatUint conID 10) peer prot) s3
  read con s4

/-- The continuations of `connection.close`, run on the client's loop. -/
def runCont (k : Cont) (s : State) : State :=
  match k with
  | Cont.unlistLater id => svc (Task.unlist id) s
  | Cont.delForwarder id => { s with forwarders := s.forwarders.del id }
  | Cont.nop => s

/-- The loop `for _, l := range c.listeners { l.close(false) }` over the keys the map had
when the loop began; a key deleted before the loop reaches it is not produced. -/
def closeListeners : List String → State → Option State
  | [], s => some s
  | k :: ks, s =>
    match s.listeners.get? k with
    | none => closeListeners ks s
    | some l =>
      match listener.close l false s with
      | none => none
      | some s1 => closeListeners ks s1

/-- The loop `for _, con := range c.forwarders { con.close(func() {}) }`. -/
def closeForwarders : List (Option libp2pConnection) → State → Option State
  | [], s => some s
  | con :: cons, s =>
    match connection.close con Cont.nop s with
    | none => none
    | some s1 => closeForwarders cons s1

/-- The closure `libp2pClient.Close` posts. -/
def closeSessionClosure (s : State) : Option State :=
  match closeListeners s.listeners.keys s with
  | none => none
  | some s1 =>
    match closeForwarders s1.forwarders.vals s1 with
    | none => none
    | some s2 =>
      let s3 : State :=
        if s2.control then { s2 with control := false, trace := s2.trace ++ [Event.controlClose] }
        else s2
      some { s3 with trace := s3.trace ++ [Event.clientClose] }

/-- One closure of the client's loop is run; `none` is a Go panic. -/
def runTask (t : Task) (s : State) : Option State :=
  match t with
  | Task.accept lis prot stream frames => some (acceptClosure lis prot stream frames s)
  | Task.retain l id => some (retainClosure l id s)
  | Task.cont k => some (runCont k s)
  | Task.unlist id => some { s with listenerConnections := s.listenerConnections.del id }
  | Task.newConnection prot peer stream frames =>
    some (newConnectionClosure prot peer stream frames s)
  | Task.closeSession => closeSessionClosure s

/-- Whether the closure calls `newConnectionID`. -/
def Task.allocates : Task → Bool
  | Task.accept _ _ _ _ => true
  | Task.newConnection _ _ _ _ => true
  | _ => false

/-- The client's loop runs the closures of the list, in order, on the state. -/
def runTasks : List Task → State → Option State
  | [], s => some s
  | t :: ts, s =>
    match runTask t s with
    | none => none
    | some s1 => runTasks ts s1

/-- The method `libp2pRelay.CloseClient`: the session leaves the registry when its
control channel is set, and `libp2pClient.Close` posts its closure. -/
def CloseClient (s : State) : State :=
  svc Task.closeSession (if s.control then { s with registered := false } else s)

/-! ## The NAT gate -/

/-- A deferred action is invoked. The closure of `StartClient` reads the status and calls
`init(public, hasNat)`. -/
def runAction (f : Action) (s : State) : State :=
  match f with
  | Action.startClient callback =>
    let isPublic : Bool :=
      match s.natStatus with
      | Reachability.Unknown => true
      | Reachability.Public => true
      | Reachability.Private => false
    { s with trace := s.trace ++ [Event.initCalled callback isPublic s.hasNat] }
  | Action.other tag => { s with trace := s.trace ++ [Event.called tag] }

/-- The closure `whenNatKnown(f)` posts to the relay's loop. -/
def whenNatKnownClosure (f : Action) (s : State) : State :=
  if s.natStatus ≠ Reachability.Unknown then runAction f s
  else { s with natActions := s.natActions ++ [f] }

/-- The method `libp2pRelay.whenNatKnown`. -/
def whenNatKnown (f : Action) (s : State) : State :=
  svcRelay (RelayTask.whenNat f) s

/-- The method `libp2pRelay.StartClient`. -/
def StartClient (callback : Nat) (s : State) : State :=
  whenNatKnown (Action.startClient callback) s

/-- The method `libp2pRelay.setNATStatus`. -/
def setNATStatus (status : Reachability) (s : State) : State :=
  let s1 : State := { s with natStatus := status }
  let s2 := s1.natActions.foldl (fun acc f => runAction f acc) s1
  { s2 with natActions := [] }

/-- One closure of the relay's loop is run. -/
def runRelayTask (t : RelayTask) (s : State) : State :=
  match t with
  | RelayTask.whenNat f => whenNatKnownClosure f s
  | RelayTask.connected peer con => { s with connectedPeers := s.connectedPeers.set peer con }

/-! ## Reachable states -/

/-- One step of the session: an API call, an inbound stream, a change of the NAT status,
or one pending closure run by its loop. A closure that calls `newConnectionID` runs
under the assumption that the id it gets was not issued before. -/
inductive Step : State → State → Prop where
  | listen (prot : String) (frames : Bool) (s : State) : Step s (Listen prot frames s)
  | inbound (prot : String) (stream : Stream) (s : State) : Step s (inboundStream prot stream s)
  | stop (protocol : String) (retainConnections : Bool) (s s1 : State)
      (h : Stop protocol retainConnections s = some s1) : Step s s1
  | close (id : Nat) (s s1 : State) (h : Close id s = some s1) : Step s s1
  | data (id : Nat) (bytes : List Nat) (s : State) : Step s (Data id bytes s)
  | connect (env : Env) (prot peerid : String) (frames relay : Bool) (s : State) :
      Step s (Connect env prot peerid frames relay s)
  | closeClient (s : State) : Step s (CloseClient s)
  | startClient (callback : Nat) (s : State) : Step s (StartClient callback s)
  | natStatus (status : Reachability) (s : State) : Step s (setNATStatus status s)
  | run (t : Task) (before after : List Task) (s s1 : State)
      (hq : s.queue = before ++ t :: after)
      (hfresh : t.allocates = true → s.nextID ∉ s.issued)
      (h : runTask t { s with queue := before ++ after } = some s1) : Step s s1
  | runRelay (t : RelayTask) (before after : List RelayTask) (s : State)
      (hq : s.relayQueue = before ++ t :: after) :
      Step s (runRelayTask t { s with relayQueue := before ++ after })

/-- The states a session can reach from its creation. -/
inductive Reachable : State → Prop where
  | create (firstID : Nat) (status : Reachability) (foreign : List String) (hasNat : Bool) :
      Reachable (CreateClient firstID status foreign hasNat)
  | step (s s1 : State) (hs : Reachable s) (h : Step s s1) : Reachable s1

/-! ## Scenarios -/

/-- An inbound stream from the remote peer `QmRemote`. -/
def demoStream : Stream := ⟨7, "QmRemote"⟩

/-- A new session, NAT status public, whose client has issued `listen("p", true)`. -/
def demoListening : State :=
  Listen "p" true (CreateClient 1 Reachability.Public [] true)

/-- The session of `demoListening` after an inbound stream on `p` was delivered and the
closure of the stream handler has run: the listener owns connection 1. -/
def demoAccepted : State :=
  acceptClosure 0 "p" demoStream true { inboundStream "p" demoStream demoListening with queue := [] }

/-- The connection the listener of `demoAccepted` owns. -/
def demoConnection : libp2pConnection :=
  { id := 1, protocol := "p", frames := true, stream := demoStream, peerID := "QmRemote" }

/-- The session of `demoAccepted` right after `stop("p", retain = true)`: the closure
`removeConnection` posted is still in the queue. -/
def demoStopped : State :=
  closePrim 0 (writeMsgpack (Msg.listenerClosed "p")
    (deleteConnection 0 1 (svc (Task.retain 0 1) demoAccepted)))

/-- The session of `demoStopped` after the client's loop has run the posted closure. -/
def demoRetained : State :=
  retainClosure 0 1 { demoStopped with queue := [] }

/-- Library and overlay calls that all succeed: the peer id decodes to itself, every
address is valid, the overlay connects and opens a stream to the peer. -/
def demoEnv : Env :=
  { ascii85Decode := fun enc => some enc,
    jsonUnmarshal := fun _ => some ("QmRemote", ["/ip4/10.0.0.1/tcp/4005"]),
    newMultiaddr := fun a => some a,
    peerDecode := fun p => Except.ok p,
    hostConnect := fun _ _ => none,
    newStream := fun pid _ => Except.ok ⟨9, pid⟩ }

/-- A session in which another part of the process held the handler for `p` when the
client issued `listen("p", true)`, and has removed its handler since: `c.listeners`
has an entry for `p`, the overlay has no handler for it. -/
def demoOrphanListener : State :=
  { Listen "p" true (CreateClient 1 Reachability.Public ["p"] true) with handlers := [] }

/-- The event the trace records when a deferred action is invoked under the given
status. -/
def actionEvent (status : Reachability) (hasNat : Bool) (f : Action) : Event :=
  match f with
  | Action.startClient callback =>
    Event.initCalled callback (decide (status ≠ Reachability.Private)) hasNat
  | Action.other tag => Event.called tag

/-- Modelled from the spec: the client's actor loop, which is not in the two source
files; a single consumer that runs the posted closures oldest first. Here it runs the
closures posted after the first `n` of the queue, and the closures these post, until none
is left; `fuel` bounds the number of closures run, and `none` is a Go panic or a lack of
fuel. -/
def settle (n : Nat) : Nat → State → Option State
  | 0, s => if s.queue.length ≤ n then some s else none
  | fuel + 1, s =>
    match s.queue.drop n with
    | [] => some s
    | t :: rest =>
      match runTask t { s with queue := s.queue.take n ++ rest } with
      | none => none
      | some s1 => settle n fuel s1

/-- The session of `demoListening` with an inbound stream delivered on `p`: the closure of
the stream handler is posted and has not run yet. -/
def demoPendingAccept : State :=
  inboundStream "p" demoStream demoListening

/-- The session of `demoPendingAccept` right after `stop("p", retain = false)`: the
listener is closed, the closure of the stream handler is still in the queue. -/
def demoClosedPending : State :=
  closePrim 0 (writeMsgpack (Msg.listenerClosed "p") demoPendingAccept)

/-- The session of `demoClosedPending` after the client's loop has run the closure of the
stream handler. -/
def demoLateAccept : State :=
  acceptClosure 0 "p" demoStream true { demoClosedPending with queue := [] }

/-- The session of `demoAccepted` right after a first `close(1)`: the connection is
closed and deleted from the listener, the continuation is posted, and
`listenerConnections[1]` still names the listener. -/
def demoClosedOnce : State :=
  deleteConnection 0 1 (svc (Task.cont (Cont.unlistLater 1))
    { demoAccepted with
      closed := [demoConnection],
      trace := demoAccepted.trace ++ [Event.closeStream demoConnection] })

/-- The stream the overlay of `demoEnv` opens to `QmRemote`. -/
def demoOutStream : Stream := ⟨9, "QmRemote"⟩

/-- A new session after a successful `connect("p", "QmRemote", frames)` whose posted
closure has run: `forwarders` holds connection 1. -/
def demoForwarder : State :=
  newConnectionClosure "p" "QmRemote" demoOutStream true
    { Connect demoEnv "p" "QmRemote" true false (CreateClient 1 Reachability.Public [] true) with
      queue := [] }

/-- The connection `forwarders` of `demoForwarder` holds. -/
def demoOutConnection : libp2pConnection :=
  { id := 1, protocol := "p", frames := true, stream := demoOutStream, peerID := "QmRemote" }

/-! ## The invariant of the session maps -/

/-- No id is a key of both `listenerConnections` and `forwarders`, and every id the
session holds (in the two maps, in a listener, in a pending retain closure) was issued
by `newConnectionID`. -/
structure Inv (s : State) : Prop where
  disjoint : ∀ id, id ∈ s.listenerConnections.keys → id ∉ s.forwarders.keys
  lcIssued : ∀ id, id ∈ s.listenerConnections.keys → id ∈ s.issued
  fwdIssued : ∀ id, id ∈ s.forwarders.keys → id ∈ s.issued
  retainIssued : ∀ l id, Task.retain l id ∈ s.queue → id ∈ s.issued
  heapIssued : ∀ lis, lis ∈ s.heap → ∀ id, id ∈ lis.connections.keys → id ∈ s.issued

/-- The state `t` holds no id that `s` does not hold: no id was issued, no key was added
to the two maps or to a listener, and a new retain closure names an id of a listener. -/
structure Shrink (s t : State) : Prop where
  issued : t.issued = s.issued
  lc : ∀ id, id ∈ t.listenerConnections.keys → id ∈ s.listenerConnections.keys
  fwd : ∀ id, id ∈ t.forwarders.keys → id ∈ s.forwarders.keys
  retain : ∀ l id, Task.retain l id ∈ t.queue →
    Task.retain l id ∈ s.queue ∨ ∃ lis, lis ∈ s.heap ∧ id ∈ lis.connections.keys
  heap : ∀ lis, lis ∈ t.heap → ∀ id, id ∈ lis.connections.keys →
    ∃ lis0, lis0 ∈ s.heap ∧ id ∈ lis0.connections.keys

/-- The state `t` differs from `s` in nothing a session close looks at: the same
`listeners` and `forwarders`, the same control channel, no connection reopened, and
listeners with the protocol and `closed` flag they had. -/
structure Quiet (s t : State) : Prop where
  listeners : t.listeners = s.listeners
  forwarders : t.forwarders = s.forwarders
  control : t.control = s.control
  closed : ∀ c, c ∈ s.closed → c ∈ t.closed
  length : t.heap.length = s.heap.length
  protocol : ∀ l, (t.deref l).protocol = (s.deref l).protocol
  flag : ∀ l, (t.deref l).closed = (s.deref l).closed

/-- The session of `demoForwarder` after the closure of the session's `Close` has run. -/
def demoSessionClosed : State :=
  { demoForwarder with
    closed := [demoOutConnection],
    queue := [Task.cont Cont.nop],
    control := false,
    trace := demoForwarder.trace ++
      [Event.closeStream demoOutConnection, Event.controlClose, Event.clientClose] }

/-- The id a pending closure will delete from `listenerConnections` when it runs (the
retain closure, the continuation of a listener connection's close, the posted removal). -/
def Task.drops : Task → Option Nat
  | Task.retain _ id => some id
  | Task.cont (Cont.unlistLater id) => some id
  | Task.unlist id => some id
  | _ => none

/-- The shape of the session the operations maintain: a listener stored at
`c.listeners[p]` is a listener on `p`; a listener's connections are open, stored under
their own ids and indexed by `listenerConnections`; a forwarder is stored under its own
id; closed connections carry issued ids; and an id a pending closure will delete from
`listenerConnections` is issued and no longer in a listener. -/
structure WF (s : State) : Prop where
  listed : ∀ k l, s.listeners.get? k = some l →
    l < s.heap.length ∧ (s.deref l).protocol = k
  nodup : ∀ l, (s.deref l).connections.keys.Nodup
  keyed : ∀ l e, e ∈ (s.deref l).connections → e.2.id = e.1
  live : ∀ l c, c ∈ (s.deref l).connections.vals → c ∉ s.closed
  indexed : ∀ l id, l < s.heap.length → id ∈ (s.deref l).connections.keys →
    s.listenerConnections.get? id = some l
  fwdKeyed : ∀ e c, e ∈ s.forwarders → e.2 = some c → c.id = e.1
  closedIssued : ∀ c, c ∈ s.closed → c.id ∈ s.issued
  pending : ∀ t id, t ∈ s.queue → t.drops = some id →
    id ∈ s.issued ∧ ∀ l, id ∉ (s.deref l).connections.keys

/-- The closure the NAT monitor of `initp2p` runs on the relay's loop with the status
`an.Status()` it observed: `setNATStatus` is called for a known status only. The public
address, `accessChan` and `initTree` are left out. -/
def natMonitorClosure (status : Reachability) (peeped : Bool) (s : State) : State :=
  if decide (status ≠ s.natStatus) || !peeped then
    if status ≠ Reachability.Unknown then setNATStatus status s else s
  else s

/-! ## Discovery (`libp2p-connection.go`) -/

/-- The constant `discoveryDirectPrefix`. -/
def discoveryDirectPrefix : String := "libp2p-connection-direct-"

/-- The constant `discoveryIndirectPrefix`. -/
def discoveryIndirectPrefix : String := "libp2p-connection-indirect-"

/-- The function `direct`. -/
def direct (protocol : String) (frames : Bool) : String :=
  let prot := discoveryDirectPrefix
  let prot := if !frames then prot ++ "raw-" else prot
  prot ++ protocol

/-- The function `indirect`; as in the source, it starts from `discoveryDirectPrefix`. -/
def indirect (protocol : String) (frames : Bool) : String :=
  let prot := discoveryDirectPrefix
  let prot := if !frames then prot ++ "raw-" else prot
  prot ++ protocol

/-- What the discovery functions do to the outside: the old `Listen`, the tag given to
`discovery.Advertise`, the tag given to `FindPeers`, `host.NewStream`, and the forwarder
`tryConnect` hands to `newConnection`. The lines printed are left out. -/
inductive DiscoveryEvent where
  | listen (prot : String) (frames : Bool)
  | advertise (tag : String)
  | findPeers (tag : String)
  | newStream (peerID : String) (prot : String)
  | newConnection (prot : String) (peerID : String) (frames : Bool)
deriving DecidableEq, Repr

/-- The method `DiscoveryListen` up to its first advertisement: under an unknown status
it returns an error; under Public it listens and advertises `direct(prot, frames)`; under
Private it advertises `indirect(prot, frames)`. The refresh loop repeats the same
advertisement until the listener is closed. -/
def DiscoveryListen (natStatus : Reachability) (frames : Bool) (prot : String)
    (tr : List DiscoveryEvent) : Option String × List DiscoveryEvent :=
  match natStatus with
  | Reachability.Unknown => (some "Attempt to listen with unknown NAT status", tr)
  | Reachability.Public =>
    (none, tr ++ [DiscoveryEvent.listen prot frames,
      DiscoveryEvent.advertise (direct prot frames)])
  | Reachability.Private =>
    (none, tr ++ [DiscoveryEvent.advertise (indirect prot frames)])

/-- One receive of the `select` in `attemptDiscoveryConnect`: a peer delivered on the
direct or on the indirect channel, or (`none`) the channel found closed. -/
inductive Arrival where
  | direct (peer : Option String)
  | indirect (peer : Option String)
deriving DecidableEq, Repr

/-- What the network does during one `attemptDiscoveryConnect`: the error of each of the
two `FindPeers` calls (`none` when it gives a channel), the arrivals in the order the
`select` receives them, and the error of `host.NewStream` to a peer (`none` when the
stream opens). -/
structure Discovery where
  findDirect : Option String
  findIndirect : Option String
  arrivals : List Arrival
  newStream : String → Option String

/-- The method `tryConnect`: it opens the stream and, when that succeeds, hands the
forwarder to `newConnection`. -/
def tryConnect (d : Discovery) (peerID : String) (prot : String) (frames : Bool)
    (tr : List DiscoveryEvent) : Option String × List DiscoveryEvent :=
  match d.newStream peerID with
  | some err => (some err, tr ++ [DiscoveryEvent.newStream peerID prot])
  | none =>
    (none, tr ++ [DiscoveryEvent.newStream peerID prot,
      DiscoveryEvent.newConnection prot peerID frames])

/-- The loop `for directChan != nil && indirectChan != nil` of `attemptDiscoveryConnect`
with the `return` that follows it. The result is what the method returns (`some none` is
nil) and the trace; the result is `none` when the arrivals end with both channels open:
the `select` waits for ever. The second argument is `indirectPeers`. -/
def discoveryLoop (d : Discovery) (prot : String) (frames : Bool) :
    List Arrival → List String → List DiscoveryEvent →
      Option (Option String) × List DiscoveryEvent
  | [], _, tr => (none, tr)
  | Arrival.direct none :: _, _, tr => (some (some "Could not connect to discovery peer"), tr)
  | Arrival.direct (some peer) :: rest, indirectPeers, tr =>
    match tryConnect d peer prot frames tr with
    | (none, tr1) => (some none, tr1)
    | (some _, tr1) => discoveryLoop d prot frames rest indirectPeers tr1
  | Arrival.indirect none :: _, _, tr =>
    (some (some "Could not connect to discovery peer"), tr)
  | Arrival.indirect (some peer) :: rest, indirectPeers, tr =>
    discoveryLoop d prot frames rest (indirectPeers ++ [peer]) tr

/-- The method `attemptDiscoveryConnect`. -/
def attemptDiscoveryConnect (d : Discovery) (frames : Bool) (prot : String)
    (tr : List DiscoveryEvent) : Option (Option String) × List DiscoveryEvent :=
  let tr1 := tr ++ [DiscoveryEvent.findPeers (discoveryDirectPrefix ++ prot)]
  match d.findDirect with
  | some err => (some (some err), tr1)
  | none =>
    let tr2 := tr1 ++ [DiscoveryEvent.findPeers (discoveryIndirectPrefix ++ prot)]
    match d.findIndirect with
    | some err => (some (some err), tr2)
    | none => discoveryLoop d prot frames d.arrivals [] tr2

/-- The method `DiscoveryConnect`, over the world `W` its calls of
`attemptDiscoveryConnect` act on; each call returns its error (`none` for nil) and the
world it leaves. -/
def DiscoveryConnect {W : Type} (attempt : Bool → String → W → Option String × W)
    (frames : Bool) (prot : String) (w : W) : Option String × W :=
  let (err, w) := attempt frames prot w
  let (err, w) := if err ≠ none then attempt frames prot w else (err, w)
  let (err, w) := if err ≠ none then attempt frames prot w else (err, w)
  (err, w)

/-- A world in which the `n`-th call of `attemptDiscoveryConnect` returns `outcomes n`;
the world is the number of calls made so far. -/
def attemptOutcome (outcomes : Nat → Option String) (_ : Bool) (_ : String) (calls : Nat) :
    Option String × Nat :=
  (outcomes calls, calls + 1)

/-- One attempt of discovery in which both `FindPeers` calls succeed, every stream opens,
and the direct peer `A` arrives after the indirect channel was closed. -/
def demoDiscovery : Discovery :=
  { findDirect := none, findIndirect := none,
    arrivals := [Arrival.indirect none, Arrival.direct (some "A"), Arrival.direct none],
    newStream := fun _ => none }

/-! ## Versions and addresses (`libp2p-websocket.go`) -/

/-- The result of `strings.Split(v, sep)` for a one-character separator, on the
characters of the strings. -/
def splitChars (sep : Char) : List Char → List (List Char)
  | [] => [[]]
  | c :: cs =>
    if c = sep then [] :: splitChars sep cs
    else
      match splitChars sep cs with
      | [] => [[c]]
      | x :: xs => (c :: x) :: xs

/-- The function `versionNumbers`; `none` is a Go panic: `times[1]` out of range, or
`strings.Repeat` with a negative count. -/
def versionNumbers (v : String) : Option (String × String) :=
  let times := (splitChars '.' v.data).map String.mk
  match times[0]?, times[1]? with
  | some seconds, some nanos =>
    let count : Int := (nanos.utf8ByteSize : Int) - 9
    if count < 0 then none
    else some (seconds, String.mk (List.replicate count.toNat '0') ++ nanos)
  | _, _ => none

/-- The function `isPrivateIPv4` on the bytes of the address; `none` is the panic of an
index out of range. -/
def isPrivateIPv4 (addr : List Nat) : Option Bool :=
  match addr[0]?, addr[1]?, addr[2]? with
  | some a, some b, some c =>
    some (a == 10 ||
      (a == 100 && decide (b ≥ 64) && decide (b ≤ 127)) ||
      a == 127 ||
      (a == 172 && decide (b ≥ 16) && decide (b ≤ 31)) ||
      (a == 169 && b == 254) ||
      (a == 192 && b == 0) ||
      (a == 192 && b == 2) ||
      (a == 192 && b == 88 && c == 99) ||
      (a == 192 && b == 168) ||
      (a == 198 && decide (b ≥ 18) && decide (b ≤ 19)) ||
      (a == 198 && b == 51 && c == 100) ||
      (a == 203 && b == 0 && c == 113) ||
      decide (a ≥ 224))
  | _, _, _ => none

/-- The loop of `hasValues` from index `i`, with `n` indexes left to look at. -/
def hasValuesFrom (addr : List Nat) (value : Nat) (i : Nat) : Nat → Option Bool
  | 0 => some true
  | n + 1 =>
    match addr[i]? with
    | none => none
    | some x => if x ≠ value then some false else hasValuesFrom addr value (i + 1) n

/-- The function `hasValues`: whether the bytes at `start`, ..., `end - 1` all equal
`value`. -/
def hasValues (addr : List Nat) (value : Nat) (start : Nat) (stop : Nat) : Option Bool :=
  hasValuesFrom addr value start (stop - start)

/-- The Go operator `||` on results that may panic: the right operand is evaluated only
when the left one is false. -/
def goOr (x : Option Bool) (y : Option Bool) : Option Bool :=
  match x with
  | none => none
  | some true => some true
  | some false => y

/-- The Go operator `&&` on results that may panic. -/
def goAnd (x : Option Bool) (y : Option Bool) : Option Bool :=
  match x with
  | none => none
  | some false => some false
  | some true => y

/-- The function `isPrivateIPv6`. -/
def isPrivateIPv6 (addr : List Nat) : Option Bool :=
  goOr (goAnd (addr[15]?.map (fun x => x == 1)) (hasValues addr 0 0 15))
    (goOr (addr[0]?.map (fun x => x == 100))
      (goOr (addr[0]?.map (fun x => decide (x ≥ 252)))
        (goAnd (hasValues addr 0 0 11)
          (goAnd (hasValues addr 255 11 13)
            (match addr[12]?, addr[13]?, addr[14]?, addr[15]? with
              | some a, some b, some c, some d => isPrivateIPv4 [a, b, c, d]
              | _, _, _, _ => none)))))

/-- The function `isPrivate`. -/
def isPrivate (addr : List Nat) : Option Bool :=
  if addr.length = 4 then isPrivateIPv4 addr else isPrivateIPv6 addr

/-- The 16-byte IPv4-mapped form `::ffff:a.b.c.d`. -/
def mapped (a b c d : Nat) : List Nat :=
  [0, 0, 0, 0, 0, 0, 0, 0, 0, 0, 255, 255, a, b, c, d]

/-- The claim's words: the address `ip` (as a 32-bit number) lies in the block
`base/bits`. -/
def inBlock (base : Nat) (bits : Nat) (ip : Nat) : Bool :=
  ip / 2 ^ (32 - bits) == base / 2 ^ (32 - bits)

/-- The 32-bit number of the address `a.b.c.d`. -/
def ipv4 (a b c d : Nat) : Nat :=
  ((a * 256 + b) * 256 + c) * 256 + d

/-- The claim's words: the non-public blocks it lists. -/
def nonPublicBlocks : List (Nat × Nat) :=
  [(ipv4 10 0 0 0, 8), (ipv4 100 64 0 0, 10), (ipv4 127 0 0 0, 8), (ipv4 169 254 0 0, 16),
   (ipv4 172 16 0 0, 12), (ipv4 192 0 0 0, 24), (ipv4 192 0 2 0, 24), (ipv4 192 88 99 0, 24),
   (ipv4 192 168 0 0, 16), (ipv4 198 18 0 0, 15), (ipv4 198 51 100 0, 24),
   (ipv4 203 0 113 0, 24), (ipv4 224 0 0 0, 3)]

/-- The claim's words: `a.b.c.d` lies in one of the listed blocks. -/
def inNonPublicBlock (a b c d : Nat) : Bool :=
  nonPublicBlocks.any (fun blk => inBlock blk.1 blk.2 (ipv4 a b c d))

/-- A second inbound stream, from the remote peer `QmOther`. -/
def demoSecondStream : Stream := ⟨8, "QmOther"⟩

/-- The session of `demoAccepted` with a second inbound stream delivered on `p`: the
listener owns connection 1, and the closure of the stream handler for the second stream
is posted and has not run yet. -/
def demoAcceptedPending : State :=
  inboundStream "p" demoSecondStream demoAccepted

/-! ## Lemmas on Go maps and traces -/

theorem GoMap.mem_keys_del {κ α : Type} [DecidableEq κ] (m : GoMap κ α) (x a : κ) :
    a ∈ (GoMap.del m x).keys ↔ a ∈ m.keys ∧ a ≠ x := by
  unfold GoMap.del GoMap.keys
  simp only [List.mem_map, List.mem_filter, decide_eq_true_eq]
  constructor
  · rintro ⟨e, ⟨he, hne⟩, rfl⟩
    exact ⟨⟨e, he, rfl⟩, hne⟩
  · rintro ⟨⟨e, he, rfl⟩, hne⟩
    exact ⟨e, ⟨he, hne⟩, rfl⟩

theorem GoMap.mem_keys_set {κ α : Type} [DecidableEq κ] (m : GoMap κ α) (x a : κ) (v : α) :
    a ∈ (GoMap.set m x v).keys ↔ (a ∈ m.keys ∧ a ≠ x) ∨ a = x := by
  have h := GoMap.mem_keys_del m x a
  unfold GoMap.set
  unfold GoMap.keys at h ⊢
  rw [List.map_append, List.mem_append, h]
  simp

theorem GoMap.mem_keys_of_get? {κ α : Type} [DecidableEq κ] (m : GoMap κ α) (x : κ) (v : α)
    (h : GoMap.get? m x = some v) : x ∈ m.keys := by
  induction m with
  | nil => simp [GoMap.get?] at h
  | cons e m ih =>
    obtain ⟨k, w⟩ := e
    unfold GoMap.get? at h
    unfold GoMap.keys
    by_cases hk : k = x
    · simp [hk]
    · rw [if_neg hk] at h
      have := ih h
      unfold GoMap.keys at this
      simp [this]

theorem GoMap.get?_del_self {κ α : Type} [DecidableEq κ] (m : GoMap κ α) (x : κ) :
    GoMap.get? (GoMap.del m x) x = none := by
  induction m with
  | nil => rfl
  | cons e m ih =>
    obtain ⟨k, w⟩ := e
    unfold GoMap.del at ih ⊢
    by_cases hk : k = x
    · simpa [List.filter_cons, hk] using ih
    · simpa [List.filter_cons, hk, GoMap.get?] using ih

theorem GoMap.get?_append_of_none {κ α : Type} [DecidableEq κ] (a b : GoMap κ α) (x : κ)
    (h : GoMap.get? a x = none) : GoMap.get? (a ++ b) x = GoMap.get? b x := by
  induction a with
  | nil => rfl
  | cons e a ih =>
    obtain ⟨k, w⟩ := e
    unfold GoMap.get? at h
    by_cases hk : k = x
    · simp [hk] at h
    · rw [if_neg hk] at h
      rw [List.cons_append, GoMap.get?, if_neg hk]
      exact ih h

theorem GoMap.get?_set_self {κ α : Type} [DecidableEq κ] (m : GoMap κ α) (x : κ) (v : α) :
    GoMap.get? (GoMap.set m x v) x = some v := by
  unfold GoMap.set
  rw [GoMap.get?_append_of_none _ _ _ (GoMap.get?_del_self m x)]
  simp [GoMap.get?]

theorem GoMap.mem_keys_foldl_del {κ α : Type} [DecidableEq κ] (ks : List κ) (m : GoMap κ α)
    (a : κ) (h : a ∈ (ks.foldl (fun acc c => GoMap.del acc c) m).keys) : a ∈ m.keys := by
  induction ks generalizing m with
  | nil => exact h
  | cons k ks ih =>
    have h1 := ih (GoMap.del m k) h
    exact ((GoMap.mem_keys_del m k a).1 h1).1

theorem emitted_append (a b : List Event) : emitted (a ++ b) = emitted a ++ emitted b := by
  unfold emitted
  exact List.filterMap_append a b _

/-! ## The scenarios are reachable -/

theorem demoAccepted_reachable : Reachable demoAccepted := by
  have h0 : Reachable (CreateClient 1 Reachability.Public [] true) := Reachable.create _ _ _ _
  have h1 : Reachable demoListening := Reachable.step _ _ h0 (Step.listen "p" true _)
  have h2 : Reachable (inboundStream "p" demoStream demoListening) :=
    Reachable.step _ _ h1 (Step.inbound _ _ _)
  exact Reachable.step _ _ h2
    (Step.run (Task.accept 0 "p" demoStream true) [] [] _ _ (by decide) (by decide) (by rfl))

theorem demoStopped_eq : Stop "p" true demoAccepted = some demoStopped := by
  decide

theorem demoRetained_eq :
    demoStopped.queue = [Task.retain 0 1] ∧
      runTasks demoStopped.queue { demoStopped with queue := [] } = some demoRetained := by
  decide

theorem demoRetained_reachable : Reachable demoRetained := by
  have h1 : Reachable demoStopped :=
    Reachable.step _ _ demoAccepted_reachable (Step.stop "p" true _ _ demoStopped_eq)
  exact Reachable.step _ _ h1
    (Step.run (Task.retain 0 1) [] [] _ _ (by decide) (by decide) (by rfl))

theorem demoForwarder_reachable : Reachable demoForwarder := by
  have h0 : Reachable (CreateClient 1 Reachability.Public [] true) := Reachable.create _ _ _ _
  have h1 : Reachable (Connect demoEnv "p" "QmRemote" true false
      (CreateClient 1 Reachability.Public [] true)) :=
    Reachable.step _ _ h0 (Step.connect _ _ _ _ _ _)
  exact Reachable.step _ _ h1
    (Step.run (Task.newConnection "p" "QmRemote" demoOutStream true) [] [] _ _
      (by decide) (by decide) (by rfl))

/-! ## Duplicate listen (C1) -/

/-- C1, evaluated on the code: the session listens on `p` (framed) with one accepted
connection, and the overlay has the handler. A second `listen("p", false)` emits exactly
one listen-refused and no listening, but `createListener` has already run:
`c.listeners["p"]` is no longer the existing listener (address 0, framed, owning
connection 1) but a new one (address 1, unframed, without connections). -/
theorem C1_duplicate_listen_replaces_listener :
    demoAccepted.listeners.get? "p" = some 0 ∧
    (demoAccepted.deref 0).frames = true ∧
    (demoAccepted.deref 0).connections = [(1, demoConnection)] ∧
    "p" ∈ demoAccepted.handlers.keys ∧
    (Listen "p" false demoAccepted).trace =
      demoAccepted.trace ++ [Event.emit (Msg.listenRefused "p" "already listening to p")] ∧
    (Listen "p" false demoAccepted).listeners.get? "p" = some 1 ∧
    ((Listen "p" false demoAccepted).deref 1).frames = false ∧
    ((Listen "p" false demoAccepted).deref 1).connections = [] := by
  decide

/-! ## Retaining stop (C2) -/

/-- C2, evaluated on the code: the listener on `p` owns the inbound connection 1.
`Stop(c, "p", true)` succeeds and posts one closure; `removeConnection` deletes the id
from `l.connections` before that closure runs, so the closure stores nil at
`c.forwarders[1]`, and a following `Data(c, 1, bytes)` writes to no connection and emits
`connection-closed(1, "unknown connection")`. -/
theorem C2_retained_connection_is_lost :
    (demoAccepted.deref 0).connections.get? 1 = some demoConnection ∧
    Stop "p" true demoAccepted = some demoStopped ∧
    runTasks demoStopped.queue { demoStopped with queue := [] } = some demoRetained ∧
    demoRetained.forwarders.get? 1 = some none ∧
    demoRetained.forwarders.idx 1 ≠ some demoConnection ∧
    1 ∉ demoRetained.listenerConnections.keys ∧
    (Data 1 [104, 105] demoRetained).trace =
      demoRetained.trace ++ [Event.emit (Msg.connectionClosed "1" "unknown connection")] := by
  decide

/-- The defect behind C2 on every state: once `removeConnection(id, true)` has returned,
the closure it posted finds no connection under `id` in the listener and stores nil at
`forwarders[id]`. -/
theorem retain_closure_stores_nil (l id : Nat) (s : State) :
    removeConnection l id true s = some (deleteConnection l id (svc (Task.retain l id) s)) ∧
      (retainClosure l id (deleteConnection l id (svc (Task.retain l id) s))).forwarders.get? id =
        some none := by
  refine ⟨rfl, ?_⟩
  have hderef : ((deleteConnection l id (svc (Task.retain l id) s)).deref l).connections.get? id
      = none := by
    simp only [deleteConnection, State.store, State.deref, svc]
    by_cases hl : l < s.heap.length
    · rw [List.getD_eq_getElem _ _ (by simpa using hl)]
      simp only [List.getElem_set_self]
      exact GoMap.get?_del_self _ _
    · rw [List.getD_eq_default _ _ (by simpa using Nat.le_of_not_lt hl)]
      rfl
  unfold retainClosure
  dsimp only
  rw [hderef]
  exact GoMap.get?_set_self _ _ _

/-! ## Data dispatch (C3, C10) -/

/-- C3: when the id is found neither in `forwarders` nor, through
`listenerConnections`, in a listener's connections, `Data` changes nothing but the
trace, to which it appends exactly one event: the message connection-closed with the
decimal string of the id and the reason "unknown connection". No write happens and the
maps `listeners`, `listenerConnections` and `forwarders` are unchanged. -/
theorem C3_data_unknown_connection (s : State) (id : Nat) (bytes : List Nat)
    (hfwd : s.forwarders.idx id = none)
    (hlis : ∀ lis, s.listenerConnections.get? id = some lis →
      (s.deref lis).connections.get? id = none) :
    Data id bytes s =
        { s with trace := s.trace ++
            [Event.emit (Msg.connectionClosed (Nat.repr id) "unknown connection")] } ∧
      (Data id bytes s).listeners = s.listeners ∧
      (Data id bytes s).listenerConnections = s.listenerConnections ∧
      (Data id bytes s).forwarders = s.forwarders ∧
      (Data id bytes s).heap = s.heap ∧
      (∀ con data, Event.writeData con data ∈ (Data id bytes s).trace →
        Event.writeData con data ∈ s.trace) := by
  have hfind : findConnection s id = none := by
    unfold findConnection
    rw [hfwd]
    cases hl : s.listenerConnections.get? id with
    | none => rfl
    | some lis => exact hlis lis hl
  have hD : Data id bytes s =
      { s with trace := s.trace ++
          [Event.emit (Msg.connectionClosed (Nat.repr id) "unknown connection")] } := by
    unfold Data
    rw [hfind]
    rfl
  refine ⟨hD, ?_, ?_, ?_, ?_, ?_⟩
  · rw [hD]
  · rw [hD]
  · rw [hD]
  · rw [hD]
  · intro con data h
    rw [hD] at h
    simpa using h

/-- C3 at scenario 2 of the specification: `data(999, "x")` on a new session. -/
theorem C3_data_unknown_connection_witness :
    (Data 999 [120] (CreateClient 1 Reachability.Public [] true)).trace =
      [Event.emit (Msg.connectionClosed "999" "unknown connection")] := by
  have h := (C3_data_unknown_connection (CreateClient 1 Reachability.Public [] true) 999 [120]
    (by decide) (by decide)).1
  rw [h]
  decide

/-- C10: `Data` looks the id up in `forwarders` first and in `listenerConnections`
second. When `forwarders` holds the connection `con` for the id, or when it holds none
and `listenerConnections[id]` is a listener whose connections hold `con` for the id,
`Data` changes nothing but the trace, to which it appends exactly one event: the call
of `writeData` on `con` with the given bytes. No connection-closed is emitted and no map
changes. -/
theorem C10_data_dispatch (s : State) (id : Nat) (bytes : List Nat) (con : libp2pConnection)
    (h : s.forwarders.idx id = some con ∨
      (s.forwarders.idx id = none ∧ ∃ lis, s.listenerConnections.get? id = some lis ∧
        (s.deref lis).connections.get? id = some con)) :
    Data id bytes s = { s with trace := s.trace ++ [Event.writeData con bytes] } ∧
      emitted (Data id bytes s).trace = emitted s.trace ∧
      (Data id bytes s).listeners = s.listeners ∧
      (Data id bytes s).listenerConnections = s.listenerConnections ∧
      (Data id bytes s).forwarders = s.forwarders ∧
      (Data id bytes s).heap = s.heap := by
  have hfind : findConnection s id = some con := by
    unfold findConnection
    rcases h with h | ⟨h, lis, hl, hc⟩
    · rw [h]
    · rw [h, hl]
      exact hc
  have hD : Data id bytes s = { s with trace := s.trace ++ [Event.writeData con bytes] } := by
    unfold Data
    rw [hfind]
    rfl
  refine ⟨hD, ?_, ?_, ?_, ?_, ?_⟩
  · rw [hD]
    simp [emitted_append, emitted]
  · rw [hD]
  · rw [hD]
  · rw [hD]
  · rw [hD]

/-- C10 on a connection a listener owns (found through `listenerConnections`) and on a
state where `forwarders` holds a connection under the same id: the forwarder wins. -/
theorem C10_data_dispatch_witness :
    (Data 1 [104, 105] demoAccepted).trace =
        demoAccepted.trace ++ [Event.writeData demoConnection [104, 105]] ∧
      (Data 1 [104] { demoAccepted with
          forwarders := [(1, some { demoConnection with protocol := "q" })] }).trace =
        demoAccepted.trace ++ [Event.writeData { demoConnection with protocol := "q" } [104]] := by
  constructor
  · have h := (C10_data_dispatch demoAccepted 1 [104, 105] demoConnection
      (Or.inr ⟨by decide, 0, by decide, by decide⟩)).1
    rw [h]
  · have h := (C10_data_dispatch
      { demoAccepted with forwarders := [(1, some { demoConnection with protocol := "q" })] }
      1 [104] { demoConnection with protocol := "q" } (Or.inl (by decide))).1
    rw [h]

/-! ## The NAT gate (C7, C8) -/

theorem runAction_effect (f : Action) (s : State) :
    runAction f s = { s with trace := s.trace ++ [actionEvent s.natStatus s.hasNat f] } := by
  cases f with
  | startClient callback =>
    cases hs : s.natStatus <;> simp [runAction, actionEvent, hs]
  | other tag => rfl

theorem foldl_runAction (fs : List Action) (s : State) :
    fs.foldl (fun acc f => runAction f acc) s =
      { s with trace := s.trace ++ fs.map (actionEvent s.natStatus s.hasNat) } := by
  induction fs generalizing s with
  | nil => simp
  | cons f fs ih =>
    rw [List.foldl_cons, ih, runAction_effect]
    simp

theorem setNATStatus_eq (status : Reachability) (s : State) :
    setNATStatus status s =
      { s with
        natStatus := status,
        natActions := [],
        trace := s.trace ++ s.natActions.map (actionEvent status s.hasNat) } := by
  unfold setNATStatus
  simp only [foldl_runAction]

/-- C7: `setNATStatus(status)` sets the NAT status, invokes the deferred actions each
exactly once in the order of the queue (the trace grows by exactly one invocation event
per queued action, in FIFO order), and leaves `natActions` empty, so that a later
`setNATStatus` invokes nothing. -/
theorem C7_setNATStatus_drains_fifo (status later : Reachability) (s : State) :
    setNATStatus status s =
        { s with
          natStatus := status,
          natActions := [],
          trace := s.trace ++ s.natActions.map (actionEvent status s.hasNat) } ∧
      (setNATStatus status s).natStatus = status ∧
      (setNATStatus status s).natActions = [] ∧
      (setNATStatus later (setNATStatus status s)).trace = (setNATStatus status s).trace := by
  refine ⟨setNATStatus_eq status s, ?_, ?_, ?_⟩
  · rw [setNATStatus_eq]
  · rw [setNATStatus_eq]
  · rw [setNATStatus_eq later, setNATStatus_eq status]
    simp

/-- C8: `whenNatKnown(f)` posts one closure to the relay's loop. Run while the status is
Unknown, the closure invokes nothing and appends `f` at the end of `natActions`, the
earlier elements unchanged; run while the status is Public or Private, it invokes `f`
exactly once and leaves `natActions` unchanged. -/
theorem C8_whenNatKnown (f : Action) (s : State) :
    whenNatKnown f s = { s with relayQueue := s.relayQueue ++ [RelayTask.whenNat f] } ∧
    (s.natStatus = Reachability.Unknown →
      runRelayTask (RelayTask.whenNat f) s = { s with natActions := s.natActions ++ [f] }) ∧
    (s.natStatus = Reachability.Public ∨ s.natStatus = Reachability.Private →
      runRelayTask (RelayTask.whenNat f) s =
        { s with trace := s.trace ++ [actionEvent s.natStatus s.hasNat f] }) := by
  refine ⟨rfl, ?_, ?_⟩
  · intro h
    simp [runRelayTask, whenNatKnownClosure, h]
  · intro h
    have hne : s.natStatus ≠ Reachability.Unknown := by
      rcases h with h | h <;> rw [h] <;> decide
    simp only [runRelayTask, whenNatKnownClosure, hne, ne_eq, not_false_eq_true, if_true]
    exact runAction_effect f s

/-- C8 on the closure of `StartClient`: deferred on a session whose status is Unknown,
invoked at once (with `public = false`) on a session whose status is Private. -/
theorem C8_whenNatKnown_witness :
    (runRelayTask (RelayTask.whenNat (Action.startClient 0))
        (CreateClient 1 Reachability.Unknown [] true)).natActions = [Action.startClient 0] ∧
      (runRelayTask (RelayTask.whenNat (Action.startClient 0))
        (CreateClient 1 Reachability.Unknown [] true)).trace = [] ∧
      (runRelayTask (RelayTask.whenNat (Action.startClient 0))
        (CreateClient 1 Reachability.Private [] true)).trace = [Event.initCalled 0 false true] ∧
      (runRelayTask (RelayTask.whenNat (Action.startClient 0))
        (CreateClient 1 Reachability.Private [] true)).natActions = [] := by
  have hU := (C8_whenNatKnown (Action.startClient 0)
    (CreateClient 1 Reachability.Unknown [] true)).2.1 rfl
  have hP := (C8_whenNatKnown (Action.startClient 0)
    (CreateClient 1 Reachability.Private [] true)).2.2 (Or.inr rfl)
  rw [hU, hP]
  decide

/-! ## Listen (C6, C9) -/

theorem any_protocol_iff (ks : List String) (prot : String) :
    ks.any (fun currentProt => decide (currentProt = prot)) = true ↔ prot ∈ ks := by
  simp [List.any_eq_true]

/-- C9, the claim as stated fails: in `demoOrphanListener` a listener for `p` exists in
`c.listeners`, and `Listen(c, "p", false)` is not refused: it installs the stream
handler and emits `listening("p")`. -/
theorem C9_listener_present_not_refused :
    "p" ∈ demoOrphanListener.listeners.keys ∧
    (Listen "p" false demoOrphanListener).trace =
      demoOrphanListener.trace ++
        [Event.setStreamHandler "p", Event.emit (Msg.listening "p")] ∧
    (Listen "p" false demoOrphanListener).handlers.get? "p" =
      some (Handler.listen 1 "p" false) := by
  decide

/-- C9, amended: `Listen` is refused exactly when the overlay has a handler for the
protocol. Then it emits exactly one listen-refused, installs no handler and emits no
listening. In every other case it installs the stream handler for the protocol and emits
exactly one `listening(prot)`. -/
theorem C9_listen_refused_iff_overlay_handler (prot : String) (frames : Bool) (s : State) :
    (prot ∈ s.handlers.keys →
      (Listen prot frames s).trace =
          s.trace ++ [Event.emit (Msg.listenRefused prot ("already listening to " ++ prot))] ∧
        (Listen prot frames s).handlers = s.handlers) ∧
    (prot ∉ s.handlers.keys →
      (Listen prot frames s).trace =
          s.trace ++ [Event.setStreamHandler prot, Event.emit (Msg.listening prot)] ∧
        (Listen prot frames s).handlers =
          s.handlers.set prot (Handler.listen s.heap.length prot frames)) := by
  constructor
  · intro h
    have h1 := (any_protocol_iff s.handlers.keys prot).2 h
    simp [Listen, createListener, h1, writeMsgpack]
  · intro h
    have h1 : s.handlers.keys.any (fun currentProt => decide (currentProt = prot)) = false := by
      rw [Bool.eq_false_iff]
      exact fun hc => h ((any_protocol_iff s.handlers.keys prot).1 hc)
    simp [Listen, createListener, h1, writeMsgpack]

/-- C9 amended, on both sides: a first listen on a new session is accepted, a second
one on the same protocol is refused. -/
theorem C9_listen_refused_iff_overlay_handler_witness :
    (Listen "p" true (CreateClient 1 Reachability.Public [] true)).trace =
        [Event.setStreamHandler "p", Event.emit (Msg.listening "p")] ∧
      (Listen "p" false demoListening).handlers = demoListening.handlers := by
  constructor
  · exact ((C9_listen_refused_iff_overlay_handler "p" true
      (CreateClient 1 Reachability.Public [] true)).2 (by decide)).1
  · exact ((C9_listen_refused_iff_overlay_handler "p" false demoListening).1 (by decide)).2

/-- C6, the claim as stated fails: on a new session whose NAT status is Unknown,
`Listen` registers the stream handler at once, and `Connect` asks the overlay to connect
and to open the stream at once. -/
theorem C6_overlay_activity_while_unknown :
    (CreateClient 1 Reachability.Unknown [] true).natStatus = Reachability.Unknown ∧
    (Listen "p" true (CreateClient 1 Reachability.Unknown [] true)).handlers =
      [("p", Handler.listen 0 "p" true)] ∧
    (Listen "p" true (CreateClient 1 Reachability.Unknown [] true)).trace =
      [Event.setStreamHandler "p", Event.emit (Msg.listening "p")] ∧
    (Connect demoEnv "p" "QmRemote" true false
        (CreateClient 1 Reachability.Unknown [] true)).trace =
      [Event.hostConnect "QmRemote" ["/p2p/QmRemote"], Event.newStream "QmRemote" "p"] := by
  decide

/-- C6, amended: `Listen` and `Connect` do not consult the NAT status. Run on a state
whose status is replaced by any other one (Unknown included), each of them does exactly
what it does on the state itself: the same handler registration, the same overlay
calls, the same messages; the status is left as it was. -/
theorem C6_listen_connect_ignore_nat_status (status : Reachability) (env : Env)
    (prot peerid : String) (frames relay : Bool) (s : State) :
    Listen prot frames { s with natStatus := status } =
        { Listen prot frames s with natStatus := status } ∧
      Connect env prot peerid frames relay { s with natStatus := status } =
        { Connect env prot peerid frames relay s with natStatus := status } := by
  constructor
  · unfold Listen createListener writeMsgpack
    dsimp only
    split <;> rfl
  · unfold Connect
    split
    · rfl
    · split
      · rfl
      · split
        · rfl
        · dsimp only
          split
          · rfl
          · split
            · rfl
            · split <;> rfl

/-! ## Connect (C5) -/

theorem emitted_emit (tr : List Event) (m : Msg) :
    emitted (tr ++ [Event.emit m]) = emitted tr ++ [m] := by
  rw [emitted_append]
  rfl

theorem newConnectionClosure_emitted (prot peer : String) (stream : Stream) (frames : Bool)
    (t : State) :
    emitted (newConnectionClosure prot peer stream frames t).trace =
      emitted t.trace ++ [Msg.peerConnection (Nat.repr t.nextID) peer prot] := by
  have h : formatUint t.nextID 10 = Nat.repr t.nextID := rfl
  simp [newConnectionClosure, newConnectionID, createConnection, svcRelay, writeMsgpack, read,
    emitted_append, emitted, h]

/-- C5, the claim as stated fails: with `relay = true`, a specifier that decodes and an
overlay connect that succeeds, `Connect` emits no message and posts no closure. -/
theorem C5_relay_connect_emits_nothing :
    (Connect demoEnv "p" "QmRemote" true true (CreateClient 1 Reachability.Public [] true)).trace =
      [Event.hostConnect "QmRemote" ["/p2p/QmRemote"]] ∧
    emitted (Connect demoEnv "p" "QmRemote" true true
      (CreateClient 1 Reachability.Public [] true)).trace = [] ∧
    (Connect demoEnv "p" "QmRemote" true true (CreateClient 1 Reachability.Public [] true)).queue =
      [] := by
  decide

/-- One `Connect` invocation ends in one of three ways: one connection-refused and no
closure; or one posted closure that emits one peer-connection; or, with `relay = true`,
no message and no closure. -/
theorem Connect_ends_three_ways (env : Env) (prot peerid : String) (frames relay : Bool)
    (s : State) :
    (∃ peer reason,
      emitted (Connect env prot peerid frames relay s).trace =
        emitted s.trace ++ [Msg.connectionRefused peer prot reason] ∧
      (Connect env prot peerid frames relay s).queue = s.queue) ∨
    (relay = false ∧ ∃ pid stream, env.newStream pid prot = Except.ok stream ∧
      emitted (Connect env prot peerid frames relay s).trace = emitted s.trace ∧
      (Connect env prot peerid frames relay s).queue =
        s.queue ++ [Task.newConnection prot stream.remotePeer stream frames] ∧
      ∀ t, ∃ t1, runTask (Task.newConnection prot stream.remotePeer stream frames) t = some t1 ∧
        emitted t1.trace =
          emitted t.trace ++ [Msg.peerConnection (Nat.repr t.nextID) stream.remotePeer prot]) ∨
    (relay = true ∧ (∃ pid addrs, env.hostConnect pid addrs = none) ∧
      emitted (Connect env prot peerid frames relay s).trace = emitted s.trace ∧
      (Connect env prot peerid frames relay s).queue = s.queue) := by
  unfold Connect
  cases h1 : connectSpecifier env peerid with
  | error e =>
    obtain ⟨err, peer⟩ := e
    exact Or.inl ⟨peer, err, emitted_emit _ _, rfl⟩
  | ok r =>
    obtain ⟨pidStr, encID, encAddrs⟩ := r
    dsimp only
    cases h2 : env.peerDecode pidStr with
    | error err => exact Or.inl ⟨pidStr, _, emitted_emit _ _, rfl⟩
    | ok pid =>
      dsimp only
      cases h3 : connectAddrs env pidStr encID encAddrs with
      | none => exact Or.inl ⟨pid, _, emitted_emit _ _, rfl⟩
      | some addrs =>
        dsimp only
        cases h4 : env.hostConnect pid addrs with
        | some err =>
          refine Or.inl ⟨pid, "could not connect to peer " ++ pid ++ ": " ++ err, ?_, rfl⟩
          simp [connectionRefused, writeMsgpack, emitted_append, emitted]
        | none =>
          dsimp only
          cases relay with
          | true =>
            refine Or.inr (Or.inr ⟨rfl, ⟨pid, addrs, h4⟩, ?_, rfl⟩)
            simp [emitted_append, emitted]
          | false =>
            cases h5 : env.newStream pid prot with
            | error err =>
              refine Or.inl ⟨pidStr, err, ?_, rfl⟩
              simp [connectionRefused, writeMsgpack, emitted_append, emitted]
            | ok stream =>
              refine Or.inr (Or.inl ⟨rfl, pid, stream, h5, ?_, rfl, ?_⟩)
              · simp [newConnection, svc, emitted_append, emitted]
              · intro t
                exact ⟨_, rfl, newConnectionClosure_emitted _ _ _ _ t⟩

/-- C5, amended: the outcome of `Connect` follows the outcomes of the decoding and
overlay calls, case by case. A specifier, peer id or address that does not decode gives
exactly one connection-refused and no overlay call. A failed overlay connect gives the
call and exactly one connection-refused, and no stream is opened. After a successful
overlay connect: with `relay = true` no stream is opened, no message is emitted and no
closure is posted; with `relay = false` the stream open is attempted, its failure gives
exactly one connection-refused, and its success gives no message from `Connect` itself
and exactly one posted closure, which emits exactly one peer-connection when the client's
loop runs it. In every case nothing else of the state changes. -/
theorem C5_connect_terminal_message (env : Env) (prot peerid : String) (frames relay : Bool)
    (s : State) :
    (∀ err peer, connectSpecifier env peerid = Except.error (err, peer) →
      Connect env prot peerid frames relay s =
        { s with trace := s.trace ++ [Event.emit (Msg.connectionRefused peer prot err)] }) ∧
    (∀ pidStr encID encAddrs,
      connectSpecifier env peerid = Except.ok (pidStr, encID, encAddrs) →
      (∀ err, env.peerDecode pidStr = Except.error err →
        Connect env prot peerid frames relay s =
          { s with trace := s.trace ++ [Event.emit (Msg.connectionRefused pidStr prot
              ("Error parsing peer id " ++ pidStr ++ ": " ++ err))] }) ∧
      (∀ pid, env.peerDecode pidStr = Except.ok pid →
        (connectAddrs env pidStr encID encAddrs = none →
          Connect env prot peerid frames relay s =
            { s with trace := s.trace ++ [Event.emit (Msg.connectionRefused pid prot
                ("could not parse multiaddr " ++ ("/p2p/" ++ pidStr)))] }) ∧
        (∀ addrs, connectAddrs env pidStr encID encAddrs = some addrs →
          (∀ err, env.hostConnect pid addrs = some err →
            Connect env prot peerid frames relay s =
              { s with trace := s.trace ++ [Event.hostConnect pid addrs,
                  Event.emit (Msg.connectionRefused pid prot
                    ("could not connect to peer " ++ pid ++ ": " ++ err))] }) ∧
          (env.hostConnect pid addrs = none →
            (relay = true →
              Connect env prot peerid frames relay s =
                { s with trace := s.trace ++ [Event.hostConnect pid addrs] }) ∧
            (relay = false →
              (∀ err, env.newStream pid prot = Except.error err →
                Connect env prot peerid frames relay s =
                  { s with trace := s.trace ++ [Event.hostConnect pid addrs,
                      Event.newStream pid prot,
                      Event.emit (Msg.connectionRefused pidStr prot err)] }) ∧
              (∀ stream, env.newStream pid prot = Except.ok stream →
                Connect env prot peerid frames relay s =
                  { s with
                    trace := s.trace ++ [Event.hostConnect pid addrs, Event.newStream pid prot],
                    queue := s.queue ++
                      [Task.newConnection prot stream.remotePeer stream frames] } ∧
                ∀ t, ∃ t1,
                  runTask (Task.newConnection prot stream.remotePeer stream frames) t =
                    some t1 ∧
                  emitted t1.trace = emitted t.trace ++
                    [Msg.peerConnection (Nat.repr t.nextID) stream.remotePeer prot]))))))
    := by
  refine ⟨?_, ?_⟩
  · intro err peer h1
    simp [Connect, h1, connectionRefused, writeMsgpack]
  · intro pidStr encID encAddrs h1
    refine ⟨?_, ?_⟩
    · intro err h2
      simp [Connect, h1, h2, connectionRefused, writeMsgpack]
    · intro pid h2
      refine ⟨?_, ?_⟩
      · intro h3
        simp [Connect, h1, h2, h3, connectionRefused, writeMsgpack]
      · intro addrs h3
        refine ⟨?_, ?_⟩
        · intro err h4
          simp [Connect, h1, h2, h3, h4, connectionRefused, writeMsgpack]
        · intro h4
          refine ⟨?_, ?_⟩
          · intro hr
            simp [Connect, h1, h2, h3, h4, hr]
          · intro hr
            refine ⟨?_, ?_⟩
            · intro err h5
              simp [Connect, h1, h2, h3, h4, hr, h5, connectionRefused, writeMsgpack]
            · intro stream h5
              refine ⟨?_, ?_⟩
              · simp [Connect, h1, h2, h3, h4, hr, h5, newConnection, svc]
              · intro t
                exact ⟨_, rfl, newConnectionClosure_emitted _ _ _ _ t⟩

/-- C5 amended, with `demoEnv` on a new session: with `relay = false` the stream is
opened and the one closure is posted; with `relay = true` the overlay connect is the only
thing done. -/
theorem C5_connect_terminal_message_witness :
    Connect demoEnv "p" "QmRemote" true false (CreateClient 1 Reachability.Public [] true) =
        { CreateClient 1 Reachability.Public [] true with
          trace := [Event.hostConnect "QmRemote" ["/p2p/QmRemote"],
            Event.newStream "QmRemote" "p"],
          queue := [Task.newConnection "p" "QmRemote" demoOutStream true] } ∧
      Connect demoEnv "p" "QmRemote" true true (CreateClient 1 Reachability.Public [] true) =
        { CreateClient 1 Reachability.Public [] true with
          trace := [Event.hostConnect "QmRemote" ["/p2p/QmRemote"]] } := by
  have a := (C5_connect_terminal_message demoEnv "p" "QmRemote" true false
    (CreateClient 1 Reachability.Public [] true)).2 "QmRemote" "" [] rfl
  have b := a.2 "QmRemote" rfl
  have c := b.2 ["/p2p/QmRemote"] (by decide)
  have d := c.2 rfl
  have e := d.2 rfl
  have f := e.2 demoOutStream rfl
  have a1 := (C5_connect_terminal_message demoEnv "p" "QmRemote" true true
    (CreateClient 1 Reachability.Public [] true)).2 "QmRemote" "" [] rfl
  have b1 := a1.2 "QmRemote" rfl
  have c1 := b1.2 ["/p2p/QmRemote"] (by decide)
  have d1 := c1.2 rfl
  exact ⟨f.1, d1.1 rfl⟩

/-! ## The session maps never share an id (C4) -/

theorem Shrink.refl (s : State) : Shrink s s :=
  ⟨rfl, fun _ h => h, fun _ h => h, fun _ _ h => Or.inl h, fun lis hl _ hid => ⟨lis, hl, hid⟩⟩

theorem Shrink.trans {s t u : State} (h1 : Shrink s t) (h2 : Shrink t u) : Shrink s u := by
  refine ⟨h2.issued.trans h1.issued, fun id h => h1.lc id (h2.lc id h),
    fun id h => h1.fwd id (h2.fwd id h), ?_, ?_⟩
  · intro l id h
    rcases h2.retain l id h with h3 | ⟨lis, hl, hid⟩
    · exact h1.retain l id h3
    · exact Or.inr (h1.heap lis hl id hid)
  · intro lis hl id hid
    obtain ⟨lis0, hl0, hid0⟩ := h2.heap lis hl id hid
    exact h1.heap lis0 hl0 id hid0

theorem Inv.of_shrink {s t : State} (hi : Inv s) (h : Shrink s t) : Inv t := by
  refine ⟨?_, ?_, ?_, ?_, ?_⟩
  · exact fun id hl hf => hi.disjoint id (h.lc id hl) (h.fwd id hf)
  · intro id hl
    rw [h.issued]
    exact hi.lcIssued id (h.lc id hl)
  · intro id hf
    rw [h.issued]
    exact hi.fwdIssued id (h.fwd id hf)
  · intro l id hq
    rw [h.issued]
    rcases h.retain l id hq with h3 | ⟨lis, hl, hid⟩
    · exact hi.retainIssued l id h3
    · exact hi.heapIssued lis hl id hid
  · intro lis hl id hid
    rw [h.issued]
    obtain ⟨lis0, hl0, hid0⟩ := h.heap lis hl id hid
    exact hi.heapIssued lis0 hl0 id hid0

/-- A step that leaves the ids, the two maps and the listeners alone and posts no retain
closure. -/
theorem Shrink.frame {s t : State} (hi : t.issued = s.issued)
    (hl : t.listenerConnections = s.listenerConnections) (hf : t.forwarders = s.forwarders)
    (hh : t.heap = s.heap)
    (hq : ∀ l id, Task.retain l id ∈ t.queue → Task.retain l id ∈ s.queue) : Shrink s t := by
  refine ⟨hi, ?_, ?_, fun l id h => Or.inl (hq l id h), ?_⟩
  · intro id h
    rw [hl] at h
    exact h
  · intro id h
    rw [hf] at h
    exact h
  · intro lis h id hid
    rw [hh] at h
    exact ⟨lis, h, hid⟩

theorem deref_keys (s : State) (l id : Nat) (h : id ∈ (s.deref l).connections.keys) :
    ∃ lis, lis ∈ s.heap ∧ id ∈ lis.connections.keys := by
  unfold State.deref at h
  by_cases hl : l < s.heap.length
  · rw [List.getD_eq_getElem _ _ hl] at h
    exact ⟨s.heap[l], List.getElem_mem _, h⟩
  · rw [List.getD_eq_default _ _ (Nat.le_of_not_lt hl)] at h
    simp [GoMap.keys, default] at h

theorem svc_shrink (t : Task) (s : State) (hn : ∀ l id, t ≠ Task.retain l id) :
    Shrink s (svc t s) := by
  refine Shrink.frame rfl rfl rfl rfl ?_
  intro l id h
  simp only [svc, List.mem_append, List.mem_singleton] at h
  rcases h with h | h
  · exact h
  · exact absurd h.symm (hn l id)

theorem svc_retain_shrink (l id : Nat) (s : State)
    (h : id ∈ (s.deref l).connections.keys) : Shrink s (svc (Task.retain l id) s) := by
  refine ⟨rfl, fun _ h => h, fun _ h => h, ?_, fun lis hl _ hid => ⟨lis, hl, hid⟩⟩
  intro l1 id1 hq
  simp only [svc, List.mem_append, List.mem_singleton] at hq
  rcases hq with hq | hq
  · exact Or.inl hq
  · injection hq with h1 h2
    subst h1 h2
    exact Or.inr (deref_keys s l1 id1 h)

theorem deleteConnection_shrink (l id : Nat) (s : State) :
    Shrink s (deleteConnection l id s) := by
  refine ⟨rfl, fun _ h => h, fun _ h => h, fun _ _ h => Or.inl h, ?_⟩
  intro lis hl id1 hid
  simp only [deleteConnection, State.store] at hl
  rcases List.mem_or_eq_of_mem_set hl with h | h
  · exact ⟨lis, h, hid⟩
  · subst h
    exact deref_keys s l id1 ((GoMap.mem_keys_del _ _ _).1 hid).1

theorem writeMsgpack_shrink (m : Msg) (s : State) : Shrink s (writeMsgpack m s) :=
  Shrink.frame rfl rfl rfl rfl (fun _ _ h => h)

theorem connection_close_shrink (con : Option libp2pConnection) (k : Cont) (s t : State)
    (h : connection.close con k s = some t) : Shrink s t := by
  unfold connection.close at h
  cases con with
  | none => simp at h
  | some c =>
    dsimp only at h
    split at h
    · injection h with h
      subst h
      exact Shrink.refl s
    · injection h with h
      subst h
      refine Shrink.frame rfl rfl rfl rfl ?_
      intro l id hq
      simp only [svc, List.mem_append, List.mem_singleton] at hq
      rcases hq with hq | hq
      · exact hq
      · exact absurd hq (by simp)

theorem removeConnection_shrink (l id : Nat) (retainConnections : Bool) (s t : State)
    (hid : retainConnections = true → id ∈ (s.deref l).connections.keys)
    (h : removeConnection l id retainConnections s = some t) : Shrink s t := by
  unfold removeConnection at h
  cases retainConnections with
  | true =>
    simp only [if_true] at h
    injection h with h
    subst h
    exact (svc_retain_shrink l id s (hid rfl)).trans (deleteConnection_shrink l id _)
  | false =>
    simp only [Bool.false_eq_true, if_false] at h
    cases hc : connection.close ((s.deref l).connections.get? id) (Cont.unlistLater id) s with
    | none => simp [hc] at h
    | some s1 =>
      simp only [hc] at h
      injection h with h
      subst h
      exact (connection_close_shrink _ _ _ _ hc).trans (deleteConnection_shrink l id s1)

theorem closeLoop_shrink (l : Nat) (retainConnections : Bool) (ids : List Nat) (s t : State)
    (h : closeLoop l retainConnections ids s = some t) : Shrink s t := by
  induction ids generalizing s with
  | nil =>
    simp only [closeLoop] at h
    injection h with h
    subst h
    exact Shrink.refl s
  | cons id ids ih =>
    unfold closeLoop at h
    cases hg : (s.deref l).connections.get? id with
    | none =>
      simp only [hg] at h
      exact ih s h
    | some con =>
      simp only [hg] at h
      cases hr : removeConnection l id retainConnections s with
      | none => simp [hr] at h
      | some s1 =>
        simp only [hr] at h
        exact (removeConnection_shrink l id retainConnections s s1
          (fun _ => GoMap.mem_keys_of_get? _ _ _ hg) hr).trans (ih s1 h)

theorem closePrim_shrink (l : Nat) (s : State) : Shrink s (closePrim l s) := by
  refine ⟨rfl, ?_, fun _ h => h, fun _ _ h => Or.inl h, ?_⟩
  · intro id h
    simp only [closePrim, State.store] at h
    exact GoMap.mem_keys_foldl_del _ _ _ h
  · intro lis hl id hid
    simp only [closePrim, State.store] at hl
    rcases List.mem_or_eq_of_mem_set hl with h | h
    · exact ⟨lis, h, hid⟩
    · subst h
      exact deref_keys s l id hid

theorem listener_close_shrink (l : Nat) (retainConnections : Bool) (s t : State)
    (h : listener.close l retainConnections s = some t) : Shrink s t := by
  unfold listener.close at h
  cases hc : closeLoop l retainConnections (s.deref l).connections.keys s with
  | none => simp [hc] at h
  | some s1 =>
    simp only [hc] at h
    injection h with h
    subst h
    exact ((closeLoop_shrink _ _ _ _ _ hc).trans (writeMsgpack_shrink _ s1)).trans
      (closePrim_shrink l _)

theorem Stop_shrink (protocol : String) (retainConnections : Bool) (s t : State)
    (h : Stop protocol retainConnections s = some t) : Shrink s t := by
  unfold Stop at h
  cases hl : s.listeners.get? protocol with
  | none =>
    simp only [hl] at h
    injection h with h
    subst h
    exact Shrink.refl s
  | some l =>
    simp only [hl] at h
    exact listener_close_shrink _ _ _ _ h

theorem Close_shrink (id : Nat) (s t : State) (h : Close id s = some t) : Shrink s t := by
  unfold Close at h
  have key : ∀ s1, Shrink s s1 →
      (match s1.forwarders.idx id with
        | some fwd => connection.close (some fwd) (Cont.delForwarder id) s1
        | none => some s1) = some t → Shrink s t := by
    intro s1 h1 h2
    cases hf : s1.forwarders.idx id with
    | none =>
      simp only [hf] at h2
      injection h2 with h2
      subst h2
      exact h1
    | some fwd =>
      simp only [hf] at h2
      exact h1.trans (connection_close_shrink _ _ _ _ h2)
  cases hl : s.listenerConnections.get? id with
  | none =>
    simp only [hl] at h
    exact key s (Shrink.refl s) h
  | some lis =>
    simp only [hl] at h
    cases hr : removeConnection lis id false s with
    | none => simp [hr] at h
    | some s1 =>
      simp only [hr] at h
      exact key s1 (removeConnection_shrink lis id false s s1 (fun hc => by simp at hc) hr) h

theorem Data_shrink (id : Nat) (bytes : List Nat) (s : State) : Shrink s (Data id bytes s) := by
  unfold Data
  cases findConnection s id with
  | none => exact writeMsgpack_shrink _ s
  | some con => exact Shrink.frame rfl rfl rfl rfl (fun _ _ h => h)

theorem Listen_shrink (prot : String) (frames : Bool) (s : State) :
    Shrink s (Listen prot frames s) := by
  have hheap : ∀ lis, lis ∈ s.heap ++
      [({ connections := [], protocol := prot, frames := frames, closed := false } : listener)] →
      ∀ id, id ∈ lis.connections.keys → ∃ lis0, lis0 ∈ s.heap ∧ id ∈ lis0.connections.keys := by
    intro lis hl id hid
    rcases List.mem_append.1 hl with h | h
    · exact ⟨lis, h, hid⟩
    · rw [List.mem_singleton] at h
      subst h
      simp [GoMap.keys] at hid
  unfold Listen createListener writeMsgpack
  dsimp only
  split
  · exact ⟨rfl, fun _ h => h, fun _ h => h, fun _ _ h => Or.inl h, hheap⟩
  · exact ⟨rfl, fun _ h => h, fun _ h => h, fun _ _ h => Or.inl h, hheap⟩

theorem inboundStream_shrink (prot : String) (stream : Stream) (s : State) :
    Shrink s (inboundStream prot stream s) := by
  unfold inboundStream
  split
  · exact svc_shrink _ s (fun _ _ h => by simp at h)
  · exact Shrink.refl s

theorem Connect_shrink (env : Env) (prot peerid : String) (frames relay : Bool) (s : State) :
    Shrink s (Connect env prot peerid frames relay s) := by
  have hq : ∀ (t : Task) (q : List Task), (∀ l id, t ≠ Task.retain l id) →
      ∀ l id, Task.retain l id ∈ q ++ [t] → Task.retain l id ∈ q := by
    intro t q hn l id h
    rcases List.mem_append.1 h with h | h
    · exact h
    · rw [List.mem_singleton] at h
      exact absurd h.symm (hn l id)
  unfold Connect
  split
  · exact writeMsgpack_shrink _ s
  · split
    · exact writeMsgpack_shrink _ s
    · split
      · exact writeMsgpack_shrink _ s
      · dsimp only
        split
        · exact Shrink.frame rfl rfl rfl rfl (fun _ _ h => h)
        · split
          · exact Shrink.frame rfl rfl rfl rfl (fun _ _ h => h)
          · split
            · exact Shrink.frame rfl rfl rfl rfl (fun _ _ h => h)
            · exact Shrink.frame rfl rfl rfl rfl (hq _ _ (fun _ _ h => by simp at h))

theorem CloseClient_shrink (s : State) : Shrink s (CloseClient s) := by
  unfold CloseClient
  split
  · exact Shrink.frame rfl rfl rfl rfl (fun l id h => by
      simp only [svc, List.mem_append, List.mem_singleton] at h
      rcases h with h | h
      · exact h
      · exact absurd h (by simp))
  · exact svc_shrink _ s (fun _ _ h => by simp at h)

theorem StartClient_shrink (callback : Nat) (s : State) : Shrink s (StartClient callback s) :=
  Shrink.frame rfl rfl rfl rfl (fun _ _ h => h)

theorem setNATStatus_shrink (status : Reachability) (s : State) :
    Shrink s (setNATStatus status s) := by
  rw [setNATStatus_eq]
  exact Shrink.frame rfl rfl rfl rfl (fun _ _ h => h)

theorem runRelayTask_shrink (t : RelayTask) (s : State) : Shrink s (runRelayTask t s) := by
  cases t with
  | whenNat f =>
    simp only [runRelayTask, whenNatKnownClosure]
    split
    · rw [runAction_effect]
      exact Shrink.frame rfl rfl rfl rfl (fun _ _ h => h)
    · exact Shrink.frame rfl rfl rfl rfl (fun _ _ h => h)
  | connected peer con => exact Shrink.frame rfl rfl rfl rfl (fun _ _ h => h)

theorem closeListeners_shrink (ks : List String) (s t : State)
    (h : closeListeners ks s = some t) : Shrink s t := by
  induction ks generalizing s with
  | nil =>
    simp only [closeListeners] at h
    injection h with h
    subst h
    exact Shrink.refl s
  | cons k ks ih =>
    unfold closeListeners at h
    cases hg : s.listeners.get? k with
    | none =>
      simp only [hg] at h
      exact ih s h
    | some l =>
      simp only [hg] at h
      cases hc : listener.close l false s with
      | none => simp [hc] at h
      | some s1 =>
        simp only [hc] at h
        exact (listener_close_shrink _ _ _ _ hc).trans (ih s1 h)

theorem closeForwarders_shrink (cons : List (Option libp2pConnection)) (s t : State)
    (h : closeForwarders cons s = some t) : Shrink s t := by
  induction cons generalizing s with
  | nil =>
    simp only [closeForwarders] at h
    injection h with h
    subst h
    exact Shrink.refl s
  | cons con cons ih =>
    unfold closeForwarders at h
    cases hc : connection.close con Cont.nop s with
    | none => simp [hc] at h
    | some s1 =>
      simp only [hc] at h
      exact (connection_close_shrink _ _ _ _ hc).trans (ih s1 h)

theorem closeSessionClosure_shrink (s t : State) (h : closeSessionClosure s = some t) :
    Shrink s t := by
  unfold closeSessionClosure at h
  cases h1 : closeListeners s.listeners.keys s with
  | none => simp [h1] at h
  | some s1 =>
    simp only [h1] at h
    cases h2 : closeForwarders s1.forwarders.vals s1 with
    | none => simp [h2] at h
    | some s2 =>
      simp only [h2] at h
      injection h with h
      subst h
      refine ((closeListeners_shrink _ _ _ h1).trans (closeForwarders_shrink _ _ _ h2)).trans ?_
      split
      · exact Shrink.frame rfl rfl rfl rfl (fun _ _ h => h)
      · exact Shrink.frame rfl rfl rfl rfl (fun _ _ h => h)

theorem acceptClosure_inv (lis : Nat) (prot : String) (stream : Stream) (frames : Bool)
    (s : State) (hi : Inv s) (hfresh : s.nextID ∉ s.issued) :
    Inv (acceptClosure lis prot stream frames s) := by
  have hmem : ∀ id, id ∈ s.issued → id ∈ s.issued ++ [s.nextID] :=
    fun id h => List.mem_append_left _ h
  refine ⟨?_, ?_, ?_, ?_, ?_⟩
  · intro id hl hf
    simp only [acceptClosure, newConnectionID, createConnection, svcRelay, State.store,
      writeMsgpack, read] at hl hf
    rcases (GoMap.mem_keys_set _ _ _ _).1 hl with ⟨h, _⟩ | h
    · exact hi.disjoint id h hf
    · subst h
      exact hfresh (hi.fwdIssued _ hf)
  · intro id hl
    simp only [acceptClosure, newConnectionID, createConnection, svcRelay, State.store,
      writeMsgpack, read] at hl ⊢
    rcases (GoMap.mem_keys_set _ _ _ _).1 hl with ⟨h, _⟩ | h
    · exact hmem id (hi.lcIssued id h)
    · subst h
      simp
  · intro id hf
    simp only [acceptClosure, newConnectionID, createConnection, svcRelay, State.store,
      writeMsgpack, read] at hf ⊢
    exact hmem id (hi.fwdIssued id hf)
  · intro l id hq
    simp only [acceptClosure, newConnectionID, createConnection, svcRelay, State.store,
      writeMsgpack, read] at hq ⊢
    exact hmem id (hi.retainIssued l id hq)
  · intro l hl id hid
    simp only [acceptClosure, newConnectionID, createConnection, svcRelay, State.store,
      writeMsgpack, read] at hl ⊢
    rcases List.mem_or_eq_of_mem_set hl with h | h
    · exact hmem id (hi.heapIssued l h id hid)
    · subst h
      dsimp only at hid
      rcases (GoMap.mem_keys_set _ _ _ _).1 hid with ⟨h, _⟩ | h
      · obtain ⟨lis0, hl0, hid0⟩ := deref_keys _ lis id h
        exact hmem id (hi.heapIssued lis0 hl0 id hid0)
      · subst h
        simp

theorem newConnectionClosure_inv (prot peer : String) (stream : Stream) (frames : Bool)
    (s : State) (hi : Inv s) (hfresh : s.nextID ∉ s.issued) :
    Inv (newConnectionClosure prot peer stream frames s) := by
  have hmem : ∀ id, id ∈ s.issued → id ∈ s.issued ++ [s.nextID] :=
    fun id h => List.mem_append_left _ h
  refine ⟨?_, ?_, ?_, ?_, ?_⟩
  · intro id hl hf
    simp only [newConnectionClosure, newConnectionID, createConnection, svcRelay,
      writeMsgpack, read] at hl hf
    rcases (GoMap.mem_keys_set _ _ _ _).1 hf with ⟨h, _⟩ | h
    · exact hi.disjoint id hl h
    · subst h
      exact hfresh (hi.lcIssued _ hl)
  · intro id hl
    simp only [newConnectionClosure, newConnectionID, createConnection, svcRelay,
      writeMsgpack, read] at hl ⊢
    exact hmem id (hi.lcIssued id hl)
  · intro id hf
    simp only [newConnectionClosure, newConnectionID, createConnection, svcRelay,
      writeMsgpack, read] at hf ⊢
    rcases (GoMap.mem_keys_set _ _ _ _).1 hf with ⟨h, _⟩ | h
    · exact hmem id (hi.fwdIssued id h)
    · subst h
      simp
  · intro l id hq
    simp only [newConnectionClosure, newConnectionID, createConnection, svcRelay,
      writeMsgpack, read] at hq ⊢
    exact hmem id (hi.retainIssued l id hq)
  · intro l hl id hid
    simp only [newConnectionClosure, newConnectionID, createConnection, svcRelay,
      writeMsgpack, read] at hl ⊢
    exact hmem id (hi.heapIssued l hl id hid)

theorem retainClosure_inv (l id : Nat) (s : State) (hi : Inv s) (hid : id ∈ s.issued) :
    Inv (retainClosure l id s) := by
  refine ⟨?_, ?_, ?_, hi.retainIssued, hi.heapIssued⟩
  · intro x hl hf
    simp only [retainClosure] at hl hf
    have h1 := (GoMap.mem_keys_del _ _ _).1 hl
    rcases (GoMap.mem_keys_set _ _ _ _).1 hf with ⟨h, _⟩ | h
    · exact hi.disjoint x h1.1 h
    · exact h1.2 h
  · intro x hl
    simp only [retainClosure] at hl ⊢
    exact hi.lcIssued x ((GoMap.mem_keys_del _ _ _).1 hl).1
  · intro x hf
    simp only [retainClosure] at hf ⊢
    rcases (GoMap.mem_keys_set _ _ _ _).1 hf with ⟨h, _⟩ | h
    · exact hi.fwdIssued x h
    · subst h
      exact hid

theorem runTask_inv (t : Task) (s s1 : State) (hi : Inv s)
    (hfresh : t.allocates = true → s.nextID ∉ s.issued)
    (hret : ∀ l id, t = Task.retain l id → id ∈ s.issued)
    (h : runTask t s = some s1) : Inv s1 := by
  cases t with
  | accept lis prot stream frames =>
    simp only [runTask] at h
    injection h with h
    subst h
    exact acceptClosure_inv _ _ _ _ s hi (hfresh rfl)
  | retain l id =>
    simp only [runTask] at h
    injection h with h
    subst h
    exact retainClosure_inv l id s hi (hret l id rfl)
  | cont k =>
    simp only [runTask] at h
    injection h with h
    subst h
    cases k with
    | unlistLater id => exact hi.of_shrink (svc_shrink _ s (fun _ _ h => by simp at h))
    | delForwarder id =>
      refine hi.of_shrink ⟨rfl, fun _ h => h, ?_, fun _ _ h => Or.inl h,
        fun lis hl _ hid => ⟨lis, hl, hid⟩⟩
      intro x hx
      exact ((GoMap.mem_keys_del _ _ _).1 hx).1
    | nop => exact hi
  | unlist id =>
    simp only [runTask] at h
    injection h with h
    subst h
    refine hi.of_shrink ⟨rfl, ?_, fun _ h => h, fun _ _ h => Or.inl h,
      fun lis hl _ hid => ⟨lis, hl, hid⟩⟩
    intro x hx
    exact ((GoMap.mem_keys_del _ _ _).1 hx).1
  | newConnection prot peer stream frames =>
    simp only [runTask] at h
    injection h with h
    subst h
    exact newConnectionClosure_inv _ _ _ _ s hi (hfresh rfl)
  | closeSession =>
    simp only [runTask] at h
    exact hi.of_shrink (closeSessionClosure_shrink _ _ h)

theorem Step.preserves_inv {s s1 : State} (hi : Inv s) (h : Step s s1) : Inv s1 := by
  cases h with
  | listen prot frames => exact hi.of_shrink (Listen_shrink _ _ s)
  | inbound prot stream => exact hi.of_shrink (inboundStream_shrink _ _ s)
  | stop protocol retainConnections _ _ h => exact hi.of_shrink (Stop_shrink _ _ _ _ h)
  | close id _ _ h => exact hi.of_shrink (Close_shrink _ _ _ h)
  | data id bytes => exact hi.of_shrink (Data_shrink _ _ s)
  | connect env prot peerid frames relay => exact hi.of_shrink (Connect_shrink _ _ _ _ _ s)
  | closeClient => exact hi.of_shrink (CloseClient_shrink s)
  | startClient callback => exact hi.of_shrink (StartClient_shrink _ s)
  | natStatus status => exact hi.of_shrink (setNATStatus_shrink _ s)
  | run t before after _ _ hq hfresh h =>
    have hsub : Shrink s { s with queue := before ++ after } := by
      refine Shrink.frame rfl rfl rfl rfl ?_
      intro l id hm
      rw [hq]
      rcases List.mem_append.1 hm with h1 | h1
      · exact List.mem_append_left _ h1
      · exact List.mem_append_right _ (List.mem_cons_of_mem _ h1)
    refine runTask_inv t _ _ (hi.of_shrink hsub) hfresh ?_ h
    intro l id ht
    refine hi.retainIssued l id ?_
    rw [hq, ← ht]
    simp
  | runRelay t before after _ hq =>
    have hsub : Shrink s { s with relayQueue := before ++ after } :=
      Shrink.frame rfl rfl rfl rfl (fun _ _ h => h)
    exact hi.of_shrink (hsub.trans (runRelayTask_shrink t _))

theorem Reachable.holds_inv {s : State} (h : Reachable s) : Inv s := by
  induction h with
  | create firstID status foreign hasNat =>
    refine ⟨?_, ?_, ?_, ?_, ?_⟩ <;> simp [CreateClient, GoMap.keys]
  | step s s1 _ hstep ih => exact hstep.preserves_inv ih

/-- C4: in every state the session reaches through the relay's operations (listen,
inbound stream accepted, connect, close, stop with or without retain, data, session
close, and the closures they post), under the assumption that `newConnectionID` never
returns an id it has issued before, no id is at the same time a key of
`c.listenerConnections` and a key of `c.forwarders`. -/
theorem C4_maps_share_no_id (s : State) (h : Reachable s) (id : Nat) :
    ¬ (id ∈ s.listenerConnections.keys ∧ id ∈ s.forwarders.keys) :=
  fun hboth => h.holds_inv.disjoint id hboth.1 hboth.2

/-- C4 on two reached states: connection 1 while its listener owns it (a key of
`listenerConnections` only) and after a retaining stop (a key of `forwarders` only). -/
theorem C4_maps_share_no_id_witness :
    (1 ∈ demoAccepted.listenerConnections.keys ∧ 1 ∉ demoAccepted.forwarders.keys) ∧
      (1 ∉ demoRetained.listenerConnections.keys ∧ 1 ∈ demoRetained.forwarders.keys) := by
  refine ⟨⟨by decide, fun h => ?_⟩, ⟨fun h => ?_, by decide⟩⟩
  · exact C4_maps_share_no_id demoAccepted demoAccepted_reachable 1 ⟨by decide, h⟩
  · exact C4_maps_share_no_id demoRetained demoRetained_reachable 1 ⟨h, by decide⟩

/-! ## Close of an unknown id (C14) -/

theorem GoMap.get?_eq_none_of_not_mem {κ α : Type} [DecidableEq κ] (m : GoMap κ α) (x : κ)
    (h : x ∉ m.keys) : GoMap.get? m x = none := by
  cases hg : GoMap.get? m x with
  | none => rfl
  | some v => exact absurd (GoMap.mem_keys_of_get? m x v hg) h

theorem GoMap.idx_eq_none_of_not_mem {κ α : Type} [DecidableEq κ] (m : GoMap κ (Option α))
    (x : κ) (h : x ∉ m.keys) : GoMap.idx m x = none := by
  unfold GoMap.idx
  rw [GoMap.get?_eq_none_of_not_mem m x h]

/-- C14: for an id that is a key of neither `listenerConnections` nor `forwarders`,
`Close` returns and is a no-op: the whole state is left as it was, so no connection is
closed, no message is emitted and the maps and every listener's connections are
unchanged. -/
theorem C14_close_unknown_id_is_noop (s : State) (id : Nat)
    (hlc : id ∉ s.listenerConnections.keys) (hfwd : id ∉ s.forwarders.keys) :
    Close id s = some s := by
  unfold Close
  rw [GoMap.get?_eq_none_of_not_mem _ _ hlc]
  dsimp only
  rw [GoMap.idx_eq_none_of_not_mem _ _ hfwd]

/-- C14 on the session whose listener owns connection 1: `close(999)` changes nothing. -/
theorem C14_close_unknown_id_is_noop_witness : Close 999 demoAccepted = some demoAccepted :=
  C14_close_unknown_id_is_noop demoAccepted 999 (by decide) (by decide)

/-! ## Closed listeners and repeated close (C12, C13) -/

/-- C12, evaluated on the code: an inbound stream is delivered on `p` and the closure of
the stream handler is posted; `Stop(c, "p", false)` closes the listener (its `closed`
flag is true) before the loop runs that closure. The closure never looks at the flag:
when it runs it inserts connection 1 into the closed listener's connections and into
`c.listenerConnections`, and announces it. The state is reachable. -/
theorem C12_closed_listener_gets_connection :
    Stop "p" false demoPendingAccept = some demoClosedPending ∧
    (demoClosedPending.deref 0).closed = true ∧
    (demoClosedPending.deref 0).connections = [] ∧
    demoClosedPending.listenerConnections = [] ∧
    demoClosedPending.queue = [Task.accept 0 "p" demoStream true] ∧
    runTask (Task.accept 0 "p" demoStream true) { demoClosedPending with queue := [] } =
      some demoLateAccept ∧
    (demoLateAccept.deref 0).closed = true ∧
    (demoLateAccept.deref 0).connections = [(1, demoConnection)] ∧
    demoLateAccept.listenerConnections = [(1, 0)] ∧
    emitted demoLateAccept.trace =
      [Msg.listening "p", Msg.listenerClosed "p", Msg.listenerConnection "1" "QmRemote" "p"] ∧
    Reachable demoLateAccept := by
  refine ⟨by decide, by decide, by decide, by decide, by decide, by decide, by decide,
    by decide, by decide, by decide, ?_⟩
  have h0 : Reachable (CreateClient 1 Reachability.Public [] true) := Reachable.create _ _ _ _
  have h1 : Reachable demoListening := Reachable.step _ _ h0 (Step.listen "p" true _)
  have h2 : Reachable demoPendingAccept := Reachable.step _ _ h1 (Step.inbound _ _ _)
  have h3 : Reachable demoClosedPending :=
    Reachable.step _ _ h2 (Step.stop "p" false _ _ (by decide))
  exact Reachable.step _ _ h3
    (Step.run (Task.accept 0 "p" demoStream true) [] [] _ _ (by decide) (by decide) (by rfl))

/-- C13, evaluated on the code: in a reachable session the listener owns connection 1. A
first `Close(c, 1)` returns; it has deleted the connection from `l.connections`, while
`listenerConnections[1]` keeps naming the listener until the closures it posted have
run. A second `Close(c, 1)` made before that (right away, or after the continuation has
run and posted the removal) calls `close` on the nil `l.connections[1]` and panics. Only
after the removal has run is the second call a no-op. -/
theorem C13_second_close_panics :
    Reachable demoAccepted ∧
    Close 1 demoAccepted = some demoClosedOnce ∧
    demoClosedOnce.listenerConnections.get? 1 = some 0 ∧
    (demoClosedOnce.deref 0).connections.get? 1 = none ∧
    demoClosedOnce.queue = [Task.cont (Cont.unlistLater 1)] ∧
    Close 1 demoClosedOnce = none ∧
    runTask (Task.cont (Cont.unlistLater 1)) { demoClosedOnce with queue := [] } =
      some { demoClosedOnce with queue := [Task.unlist 1] } ∧
    Close 1 { demoClosedOnce with queue := [Task.unlist 1] } = none ∧
    settle 0 2 demoClosedOnce =
      some { demoClosedOnce with queue := [], listenerConnections := [] } ∧
    Close 1 { demoClosedOnce with queue := [], listenerConnections := [] } =
      some { demoClosedOnce with queue := [], listenerConnections := [] } :=
  ⟨demoAccepted_reachable, by decide⟩

/-! ## Connect: decoding, addresses, the forwarder (C16, C17, C18) -/

theorem decodeAddrs_error_of_invalid (env : Env) (addrs : List String)
    (h : ∃ a, a ∈ addrs ∧ env.newMultiaddr a = none) :
    ∃ bad, decodeAddrs env addrs = Except.error bad := by
  induction addrs with
  | nil =>
    obtain ⟨a, ha, _⟩ := h
    simp at ha
  | cons x rest ih =>
    unfold decodeAddrs
    cases hx : env.newMultiaddr x with
    | none => exact ⟨x, rfl⟩
    | some m =>
      have hrest : ∃ a, a ∈ rest ∧ env.newMultiaddr a = none := by
        obtain ⟨a, ha, hnone⟩ := h
        rcases List.mem_cons.1 ha with h1 | h1
        · subst h1
          rw [hx] at hnone
          cases hnone
        · exact ⟨a, h1, hnone⟩
      obtain ⟨bad, hbad⟩ := ih hrest
      exact ⟨bad, by simp only [hbad]⟩

theorem decodeAddrs_ok_of_valid (env : Env) (addrs ms : List String)
    (h : List.Forall₂ (fun a m => env.newMultiaddr a = some m) addrs ms) :
    decodeAddrs env addrs = Except.ok ms := by
  induction h with
  | nil => rfl
  | cons hx _ ih =>
    unfold decodeAddrs
    simp only [hx, ih]

/-- C16: when the peer specifier cannot be decoded (with the `/addrs/` prefix: the
base85 text, the JSON, or one entry of `Addrs` is invalid; with or without the prefix:
the peer id does not decode), `Connect` changes nothing but the trace, to which it appends
exactly one event, a connection-refused for the protocol. So the overlay's connect and
stream open are not called, no connection id is allocated, no closure is posted and
`c.forwarders` is unchanged. -/
theorem C16_undecodable_specifier_refused (env : Env) (prot peerid : String)
    (frames relay : Bool) (s : State)
    (h : (hasPrefixStr peerid "/addrs/" = true ∧
        (env.ascii85Decode (trimPrefixStr peerid "/addrs/") = none ∨
          ∃ dst, env.ascii85Decode (trimPrefixStr peerid "/addrs/") = some dst ∧
            (env.jsonUnmarshal dst = none ∨
              ∃ encodedPeerID addrs, env.jsonUnmarshal dst = some (encodedPeerID, addrs) ∧
                ((∃ a, a ∈ addrs ∧ env.newMultiaddr a = none) ∨
                  ∃ err, env.peerDecode encodedPeerID = Except.error err)))) ∨
      (hasPrefixStr peerid "/addrs/" = false ∧
        ∃ err, env.peerDecode peerid = Except.error err)) :
    (∃ peer reason, Connect env prot peerid frames relay s =
        { s with trace := s.trace ++ [Event.emit (Msg.connectionRefused peer prot reason)] }) ∧
      (Connect env prot peerid frames relay s).forwarders = s.forwarders ∧
      (Connect env prot peerid frames relay s).nextID = s.nextID ∧
      (Connect env prot peerid frames relay s).issued = s.issued ∧
      (Connect env prot peerid frames relay s).queue = s.queue := by
  have key : ∃ peer reason, Connect env prot peerid frames relay s =
      { s with trace := s.trace ++ [Event.emit (Msg.connectionRefused peer prot reason)] } := by
    unfold Connect connectSpecifier
    rcases h with ⟨hp, h⟩ | ⟨hp, err, he⟩
    · simp only [hp, if_true]
      rcases h with h | ⟨dst, hd, h⟩
      · simp only [h]
        exact ⟨_, _, rfl⟩
      · simp only [hd]
        rcases h with h | ⟨encodedPeerID, addrs, hj, h⟩
        · simp only [h]
          exact ⟨_, _, rfl⟩
        · simp only [hj]
          rcases h with h | ⟨err, he⟩
          · obtain ⟨bad, hbad⟩ := decodeAddrs_error_of_invalid env addrs h
            simp only [hbad]
            exact ⟨_, _, rfl⟩
          · cases hda : decodeAddrs env addrs with
            | error bad => exact ⟨_, _, rfl⟩
            | ok ms =>
              simp only [he]
              exact ⟨_, _, rfl⟩
    · simp only [hp, Bool.false_eq_true, if_false, he]
      exact ⟨_, _, rfl⟩
  obtain ⟨peer, reason, hk⟩ := key
  refine ⟨⟨peer, reason, hk⟩, ?_, ?_, ?_, ?_⟩ <;> rw [hk]

/-- C16 on three specifiers: a peer id that does not decode, base85 text that does not
decode, and an `Addrs` entry that is not a multiaddress. -/
theorem C16_undecodable_specifier_refused_witness :
    (Connect { demoEnv with peerDecode := fun _ => Except.error "bad id" } "p" "Qm?" true false
        (CreateClient 1 Reachability.Public [] true)).queue = [] ∧
      (Connect { demoEnv with ascii85Decode := fun _ => none } "p" "/addrs/zz" true false
        (CreateClient 1 Reachability.Public [] true)).forwarders = [] ∧
      (Connect { demoEnv with newMultiaddr := fun _ => none } "p" "/addrs/zz" true false
        (CreateClient 1 Reachability.Public [] true)).issued = [] := by
  refine ⟨?_, ?_, ?_⟩
  · exact (C16_undecodable_specifier_refused
      { demoEnv with peerDecode := fun _ => Except.error "bad id" } "p" "Qm?" true false
      (CreateClient 1 Reachability.Public [] true)
      (Or.inr ⟨by decide, "bad id", rfl⟩)).2.2.2.2
  · exact (C16_undecodable_specifier_refused
      { demoEnv with ascii85Decode := fun _ => none } "p" "/addrs/zz" true false
      (CreateClient 1 Reachability.Public [] true)
      (Or.inl ⟨by decide, Or.inl rfl⟩)).2.1
  · exact (C16_undecodable_specifier_refused
      { demoEnv with newMultiaddr := fun _ => none } "p" "/addrs/zz" true false
      (CreateClient 1 Reachability.Public [] true)
      (Or.inl ⟨by decide, Or.inr ⟨"zz", rfl, Or.inr ⟨"QmRemote", ["/ip4/10.0.0.1/tcp/4005"],
        rfl, Or.inl ⟨"/ip4/10.0.0.1/tcp/4005", by decide, rfl⟩⟩⟩⟩)).2.2.2.1

theorem hasPrefixStr_append (pre rest : String) : hasPrefixStr (pre ++ rest) pre = true := by
  unfold hasPrefixStr
  rw [String.data_append, List.isPrefixOf_iff_prefix]
  exact List.prefix_append _ _

theorem trimPrefixStr_append (pre rest : String) : trimPrefixStr (pre ++ rest) pre = rest := by
  unfold trimPrefixStr
  rw [hasPrefixStr_append, if_pos rfl, String.data_append, List.drop_left]

/-- The overlay's connect is called once, right after the decoding, with the decoded
peer id and the address list of `connectAddrs`. -/
theorem Connect_hostConnect (env : Env) (prot peerid : String) (frames relay : Bool)
    (s : State) (pidStr encodedPeerID pid : String) (encodedAddrs addrs : List String)
    (hspec : connectSpecifier env peerid = Except.ok (pidStr, encodedPeerID, encodedAddrs))
    (hdec : env.peerDecode pidStr = Except.ok pid)
    (haddrs : connectAddrs env pidStr encodedPeerID encodedAddrs = some addrs) :
    ∃ rest, (Connect env prot peerid frames relay s).trace =
        s.trace ++ Event.hostConnect pid addrs :: rest ∧
      ∀ p a, Event.hostConnect p a ∉ rest := by
  unfold Connect
  simp only [hspec, hdec, haddrs]
  cases env.hostConnect pid addrs with
  | some err =>
    refine ⟨[Event.emit (Msg.connectionRefused pid prot
      ("could not connect to peer " ++ pid ++ ": " ++ err))], ?_, ?_⟩
    · simp [connectionRefused, writeMsgpack]
    · simp
  | none =>
    cases relay with
    | true => exact ⟨[], by simp, by simp⟩
    | false =>
      cases env.newStream pid prot with
      | error err =>
        refine ⟨[Event.newStream pid prot, Event.emit (Msg.connectionRefused pidStr prot err)],
          ?_, ?_⟩
        · simp [connectionRefused, writeMsgpack]
        · simp
      | ok stream =>
        refine ⟨[Event.newStream pid prot], ?_, ?_⟩
        · simp [newConnection, svc]
        · simp

/-- C17: for the specifier `/addrs/` + E, where E base85-decodes to JSON with the peer id
P (a valid, non-empty peer id) and the addresses a1..an (each a valid multiaddress),
`Connect` calls the overlay's connect exactly once, with the peer id decoded from P and
the decoded addresses in the order of the list. For a specifier without the prefix that
is a valid peer id, it calls it exactly once with the decoded peer id and the single
address `/p2p/` + peerid. -/
theorem C17_connect_address_list (env : Env) (prot : String) (frames relay : Bool)
    (s : State) :
    (∀ (E dst P pid : String) (addrs ms : List String),
      env.ascii85Decode E = some dst → env.jsonUnmarshal dst = some (P, addrs) →
      P ≠ "" → env.peerDecode P = Except.ok pid →
      List.Forall₂ (fun a m => env.newMultiaddr a = some m) addrs ms →
      ∃ rest, (Connect env prot ("/addrs/" ++ E) frames relay s).trace =
          s.trace ++ Event.hostConnect pid ms :: rest ∧
        ∀ p a, Event.hostConnect p a ∉ rest) ∧
    (∀ (peerid pid m : String),
      hasPrefixStr peerid "/addrs/" = false → env.peerDecode peerid = Except.ok pid →
      env.newMultiaddr ("/p2p/" ++ peerid) = some m →
      ∃ rest, (Connect env prot peerid frames relay s).trace =
          s.trace ++ Event.hostConnect pid [m] :: rest ∧
        ∀ p a, Event.hostConnect p a ∉ rest) := by
  constructor
  · intro E dst P pid addrs ms hE hJ hP hdec hall
    refine Connect_hostConnect env prot _ frames relay s P P pid ms ms ?_ hdec ?_
    · unfold connectSpecifier
      simp only [hasPrefixStr_append, trimPrefixStr_append, if_true, hE, hJ,
        decodeAddrs_ok_of_valid env addrs ms hall]
    · unfold connectAddrs
      rw [if_neg hP]
  · intro peerid pid m hp hdec hm
    refine Connect_hostConnect env prot peerid frames relay s peerid "" pid [] [m] ?_ hdec ?_
    · unfold connectSpecifier
      simp only [hp, Bool.false_eq_true, if_false]
    · unfold connectAddrs
      simp only [if_true, hm]

/-- C17 with `demoEnv`: the specifier with explicit addresses, and the plain peer id. -/
theorem C17_connect_address_list_witness :
    (∃ rest, (Connect demoEnv "p" ("/addrs/" ++ "zz") true false
        (CreateClient 1 Reachability.Public [] true)).trace =
          [] ++ Event.hostConnect "QmRemote" ["/ip4/10.0.0.1/tcp/4005"] :: rest ∧
        ∀ p a, Event.hostConnect p a ∉ rest) ∧
      (∃ rest, (Connect demoEnv "p" "QmRemote" true false
        (CreateClient 1 Reachability.Public [] true)).trace =
          [] ++ Event.hostConnect "QmRemote" ["/p2p/QmRemote"] :: rest ∧
        ∀ p a, Event.hostConnect p a ∉ rest) := by
  constructor
  · exact (C17_connect_address_list demoEnv "p" true false
      (CreateClient 1 Reachability.Public [] true)).1 "zz" "zz" "QmRemote" "QmRemote"
      ["/ip4/10.0.0.1/tcp/4005"] ["/ip4/10.0.0.1/tcp/4005"] rfl rfl (by decide) rfl
      (List.Forall₂.cons rfl List.Forall₂.nil)
  · exact (C17_connect_address_list demoEnv "p" true false
      (CreateClient 1 Reachability.Public [] true)).2 "QmRemote" "QmRemote" "/p2p/QmRemote"
      (by decide) rfl rfl

/-- C18: when, with `relay = false`, the decoding, the overlay connect and the stream open
succeed, `Connect` calls the overlay and hands `newConnection` its closure (one closure
is posted, nothing is emitted yet). Run with the allocated id `n`, the closure creates
the connection with id `n`, the requested protocol and frames flag on the opened stream,
stores it at `c.forwarders[n]`, leaves `c.listenerConnections` and the listeners as
they were, and the peer-connection announced carries the decimal string of `n`, the
stream's remote peer and the protocol. -/
theorem C18_connect_creates_forwarder (env : Env) (prot peerid : String) (frames : Bool)
    (s t : State) (pidStr encodedPeerID pid : String) (encodedAddrs addrs : List String)
    (stream : Stream)
    (hspec : connectSpecifier env peerid = Except.ok (pidStr, encodedPeerID, encodedAddrs))
    (hdec : env.peerDecode pidStr = Except.ok pid)
    (haddrs : connectAddrs env pidStr encodedPeerID encodedAddrs = some addrs)
    (hconn : env.hostConnect pid addrs = none)
    (hstream : env.newStream pid prot = Except.ok stream) :
    Connect env prot peerid frames false s =
        { s with
          trace := s.trace ++ [Event.hostConnect pid addrs, Event.newStream pid prot],
          queue := s.queue ++ [Task.newConnection prot stream.remotePeer stream frames] } ∧
      runTask (Task.newConnection prot stream.remotePeer stream frames) t =
        some (newConnectionClosure prot stream.remotePeer stream frames t) ∧
      (newConnectionClosure prot stream.remotePeer stream frames t).forwarders =
        t.forwarders.set t.nextID
          (some { id := t.nextID, protocol := prot, frames := frames, stream := stream,
                  peerID := stream.remotePeer }) ∧
      (newConnectionClosure prot stream.remotePeer stream frames t).forwarders.get? t.nextID =
        some (some { id := t.nextID, protocol := prot, frames := frames, stream := stream,
                     peerID := stream.remotePeer }) ∧
      (newConnectionClosure prot stream.remotePeer stream frames t).listenerConnections =
        t.listenerConnections ∧
      (newConnectionClosure prot stream.remotePeer stream frames t).heap = t.heap ∧
      emitted (newConnectionClosure prot stream.remotePeer stream frames t).trace =
        emitted t.trace ++ [Msg.peerConnection (Nat.repr t.nextID) stream.remotePeer prot] := by
  refine ⟨?_, rfl, rfl, ?_, rfl, rfl, newConnectionClosure_emitted _ _ _ _ t⟩
  · unfold Connect
    simp only [hspec, hdec, haddrs, hconn, hstream]
    simp [newConnection, svc]
  · exact GoMap.get?_set_self _ _ _

/-- C18 with `demoEnv` on a new session: the forwarder is stored under id 1. -/
theorem C18_connect_creates_forwarder_witness :
    (Connect demoEnv "p" "QmRemote" true false
        (CreateClient 1 Reachability.Public [] true)).queue =
        [Task.newConnection "p" "QmRemote" demoOutStream true] ∧
      demoForwarder.forwarders = [(1, some demoOutConnection)] ∧
      demoForwarder.listenerConnections = [] := by
  have h := C18_connect_creates_forwarder demoEnv "p" "QmRemote" true
    (CreateClient 1 Reachability.Public [] true)
    { Connect demoEnv "p" "QmRemote" true false (CreateClient 1 Reachability.Public [] true) with
      queue := [] }
    "QmRemote" "" "QmRemote" [] ["/p2p/QmRemote"] demoOutStream rfl rfl rfl rfl rfl
  refine ⟨?_, ?_, ?_⟩
  · rw [h.1]
    rfl
  · exact h.2.2.1
  · exact h.2.2.2.2.1

/-! ## The stream handler (C19) -/

theorem deref_store_self (s : State) (l : Nat) (lis : listener) (h : l < s.heap.length) :
    (s.store l lis).deref l = lis := by
  unfold State.store State.deref
  dsimp only
  rw [List.getD_eq_getElem _ _ (by simpa using h)]
  simp

/-- C19: for an inbound stream on the protocol of a listener `lis` (the overlay holds the
handler `Listen` installed), the handler posts its closure to the client's loop. Run
there, the closure allocates the id `n`, stores the new connection at
`lis.connections[n]` and sets `c.listenerConnections[n] = lis`; it emits
listener-connection with the decimal string of `n`, the stream's remote peer and the
protocol, and starts the read pump of the connection only after that emission. -/
theorem C19_stream_handler_closure (lis : Nat) (prot : String) (stream : Stream)
    (frames : Bool) (s t : State)
    (hh : s.handlers.get? prot = some (Handler.listen lis prot frames))
    (hl : lis < t.heap.length) :
    inboundStream prot stream s =
        { s with queue := s.queue ++ [Task.accept lis prot stream frames] } ∧
      runTask (Task.accept lis prot stream frames) t =
        some (acceptClosure lis prot stream frames t) ∧
      (acceptClosure lis prot stream frames t).issued = t.issued ++ [t.nextID] ∧
      ((acceptClosure lis prot stream frames t).deref lis).connections.get? t.nextID =
        some { id := t.nextID, protocol := prot, frames := frames, stream := stream,
               peerID := stream.remotePeer } ∧
      (acceptClosure lis prot stream frames t).listenerConnections.get? t.nextID = some lis ∧
      (acceptClosure lis prot stream frames t).trace =
        t.trace ++
          [Event.protect stream.remotePeer,
           Event.emit (Msg.listenerConnection (Nat.repr t.nextID) stream.remotePeer prot),
           Event.read { id := t.nextID, protocol := prot, frames := frames, stream := stream,
                        peerID := stream.remotePeer }] := by
  have hfmt : formatUint t.nextID 10 = Nat.repr t.nextID := rfl
  refine ⟨?_, rfl, rfl, ?_, ?_, ?_⟩
  · unfold inboundStream
    rw [hh]
    rfl
  · have hstore := deref_store_self
      (createConnection t.nextID prot stream frames (newConnectionID t).2).2 lis
      { (createConnection t.nextID prot stream frames (newConnectionID t).2).2.deref lis with
        connections :=
          ((createConnection t.nextID prot stream frames (newConnectionID t).2).2.deref
            lis).connections.set t.nextID
            { id := t.nextID, protocol := prot, frames := frames, stream := stream,
              peerID := stream.remotePeer } }
      hl
    have hd : (acceptClosure lis prot stream frames t).deref lis =
        ((createConnection t.nextID prot stream frames (newConnectionID t).2).2.store lis
          { (createConnection t.nextID prot stream frames (newConnectionID t).2).2.deref lis with
            connections :=
              ((createConnection t.nextID prot stream frames (newConnectionID t).2).2.deref
                lis).connections.set t.nextID
                { id := t.nextID, protocol := prot, frames := frames, stream := stream,
                  peerID := stream.remotePeer } }).deref lis := rfl
    rw [hd, hstore]
    exact GoMap.get?_set_self _ _ _
  · exact GoMap.get?_set_self _ _ _
  · simp [acceptClosure, newConnectionID, createConnection, svcRelay, State.store,
      writeMsgpack, read, hfmt]

/-- C19 on the scenario: the stream delivered on `p` becomes connection 1 of listener 0,
announced before its read pump starts. -/
theorem C19_stream_handler_closure_witness :
    demoPendingAccept.queue = [Task.accept 0 "p" demoStream true] ∧
      (demoAccepted.deref 0).connections.get? 1 = some demoConnection ∧
      demoAccepted.listenerConnections.get? 1 = some 0 ∧
      demoAccepted.trace =
        demoListening.trace ++
          [Event.protect "QmRemote",
           Event.emit (Msg.listenerConnection "1" "QmRemote" "p"),
           Event.read demoConnection] := by
  have h := C19_stream_handler_closure 0 "p" demoStream true demoListening
    { inboundStream "p" demoStream demoListening with queue := [] } (by decide) (by decide)
  refine ⟨?_, h.2.2.2.1, h.2.2.2.2.1, h.2.2.2.2.2⟩
  have h1 := h.1
  unfold demoPendingAccept
  rw [h1]
  rfl

/-! ## Connect followed by close (C15) -/

theorem GoMap.del_eq_self_of_not_mem {κ α : Type} [DecidableEq κ] (m : GoMap κ α) (x : κ)
    (h : x ∉ m.keys) : GoMap.del m x = m := by
  unfold GoMap.del
  rw [List.filter_eq_self]
  intro e he
  simp only [decide_eq_true_eq]
  intro hx
  exact h (by simpa [GoMap.keys] using ⟨e.2, by rw [← hx]; exact he⟩)

theorem GoMap.del_set_self {κ α : Type} [DecidableEq κ] (m : GoMap κ α) (x : κ) (v : α) :
    GoMap.del (GoMap.set m x v) x = GoMap.del m x := by
  unfold GoMap.set GoMap.del
  simp [List.filter_append, List.filter_filter]

/-- `Connect` touches nothing but the trace and the queue of the client's loop. -/
theorem Connect_frame (env : Env) (prot peerid : String) (frames relay : Bool) (s : State) :
    ∃ tr q, Connect env prot peerid frames relay s = { s with trace := tr, queue := q } := by
  unfold Connect
  split
  · exact ⟨_, _, rfl⟩
  · split
    · exact ⟨_, _, rfl⟩
    · split
      · exact ⟨_, _, rfl⟩
      · dsimp only
        split
        · exact ⟨_, _, rfl⟩
        · split
          · exact ⟨_, _, rfl⟩
          · split
            · exact ⟨_, _, rfl⟩
            · exact ⟨_, _, rfl⟩

/-- When `Connect` posts a closure it has emitted no message itself. -/
theorem Connect_queue_or_silent (env : Env) (prot peerid : String) (frames relay : Bool)
    (s : State) :
    (Connect env prot peerid frames relay s).queue = s.queue ∨
      emitted (Connect env prot peerid frames relay s).trace = emitted s.trace := by
  unfold Connect
  split
  · exact Or.inl rfl
  · split
    · exact Or.inl rfl
    · split
      · exact Or.inl rfl
      · dsimp only
        split
        · exact Or.inl rfl
        · split
          · exact Or.inl rfl
          · split
            · exact Or.inl rfl
            · refine Or.inr ?_
              simp [newConnection, svc, emitted_append, emitted]

/-- One closure posted at the end of the queue is run by the loop. -/
theorem settle_one (s s1 : State) (q : List Task) (t : Task) (hq : s.queue = q ++ [t])
    (hrun : runTask t { s with queue := q } = some s1) (hq1 : s1.queue = q) :
    settle q.length 1 s = some s1 := by
  unfold settle
  have hdrop : s.queue.drop q.length = [t] := by rw [hq, List.drop_left]
  have htake : s.queue.take q.length = q := by rw [hq, List.take_left]
  simp only [hdrop, htake, List.append_nil, hrun]
  unfold settle
  rw [hq1, if_pos (Nat.le_refl _)]

/-- A successful `Connect` whose closure ran and yielded a fresh id `n`, followed by
`Close(c, n)` and the run of its continuation, restores the maps of the session. -/
theorem Connect_Close_restores (env : Env) (prot peerid peer : String)
    (frames : Bool) (stream : Stream) (s : State)
    (hsucc : (Connect env prot peerid frames false s).queue =
      s.queue ++ [Task.newConnection prot peer stream frames])
    (hlc : s.nextID ∉ s.listenerConnections.keys)
    (hfwd : s.nextID ∉ s.forwarders.keys)
    (hcl : ∀ con, con ∈ s.closed → con.id ≠ s.nextID) :
    ∃ s1 s2 s3,
      settle s.queue.length 1 (Connect env prot peerid frames false s) = some s1 ∧
      s1.forwarders.idx s.nextID =
        some { id := s.nextID, protocol := prot, frames := frames, stream := stream,
               peerID := stream.remotePeer } ∧
      Close s.nextID s1 = some s2 ∧
      settle s.queue.length 1 s2 = some s3 ∧
      s3.listeners = s.listeners ∧
      s3.listenerConnections = s.listenerConnections ∧
      s3.forwarders = s.forwarders ∧
      s3.heap = s.heap ∧
      s3.queue = s.queue ∧
      emitted s3.trace = emitted s.trace ++ [Msg.peerConnection (Nat.repr s.nextID) peer prot] := by
  obtain ⟨tr, q, hC⟩ := Connect_frame env prot peerid frames false s
  have hq : q = s.queue ++ [Task.newConnection prot peer stream frames] := by
    rw [hC] at hsucc
    exact hsucc
  have hem : emitted tr = emitted s.trace := by
    rcases Connect_queue_or_silent env prot peerid frames false s with h | h
    · rw [hsucc] at h
      simp at h
    · rw [hC] at h
      exact h
  subst hq
  let con : libp2pConnection :=
    { id := s.nextID, protocol := prot, frames := frames, stream := stream,
      peerID := stream.remotePeer }
  let s1 : State := newConnectionClosure prot peer stream frames { s with trace := tr }
  have hs1 : settle s.queue.length 1 (Connect env prot peerid frames false s) = some s1 := by
    rw [hC]
    exact settle_one _ s1 s.queue _ rfl rfl rfl
  have hidx : s1.forwarders.idx s.nextID = some con := by
    show GoMap.idx (GoMap.set s.forwarders s.nextID (some con)) s.nextID = some con
    unfold GoMap.idx
    rw [GoMap.get?_set_self]
  have hnot : con ∉ s1.closed := fun hc => hcl con hc rfl
  let s2 : State := svc (Task.cont (Cont.delForwarder s.nextID))
    { s1 with closed := s1.closed ++ [con], trace := s1.trace ++ [Event.closeStream con] }
  have hs2 : Close s.nextID s1 = some s2 := by
    unfold Close
    have h1 : s1.listenerConnections.get? s.nextID = none :=
      GoMap.get?_eq_none_of_not_mem _ _ hlc
    rw [h1]
    dsimp only
    rw [hidx]
    dsimp only
    unfold connection.close
    dsimp only
    rw [if_neg hnot]
  let s3 : State := { s2 with queue := s.queue, forwarders := s2.forwarders.del s.nextID }
  have hs3 : settle s.queue.length 1 s2 = some s3 :=
    settle_one s2 s3 s.queue _ rfl rfl rfl
  refine ⟨s1, s2, s3, hs1, hidx, hs2, hs3, rfl, rfl, ?_, rfl, rfl, ?_⟩
  · show GoMap.del (GoMap.set s.forwarders s.nextID (some con)) s.nextID = s.forwarders
    rw [GoMap.del_set_self, GoMap.del_eq_self_of_not_mem _ _ hfwd]
  · have h1 : emitted s1.trace =
        emitted tr ++ [Msg.peerConnection (Nat.repr s.nextID) peer prot] :=
      newConnectionClosure_emitted prot peer stream frames { s with trace := tr }
    show emitted (s1.trace ++ [Event.closeStream con]) = _
    rw [emitted_append, h1, hem]
    simp [emitted]

/-! ## Stop without retain (C11) -/

theorem GoMap.del_cons_self {κ α : Type} [DecidableEq κ] (m : GoMap κ α) (x : κ) (v : α)
    (h : x ∉ m.keys) : GoMap.del ((x, v) :: m) x = m := by
  have h1 := GoMap.del_eq_self_of_not_mem m x h
  unfold GoMap.del at h1 ⊢
  rw [List.filter_cons_of_neg (by simp)]
  exact h1

theorem list_set_getElem_self {α : Type} (l : List α) (i : Nat) (h : i < l.length) :
    l.set i l[i] = l := by
  apply List.ext_getElem?
  intro j
  rw [List.getElem?_set]
  split
  · rename_i hij
    subst hij
    simp [h]
  · rfl

theorem GoMap.not_mem_keys_foldl_del {κ α : Type} [DecidableEq κ] (ks : List κ)
    (m : GoMap κ α) (a : κ) (h : a ∈ ks) :
    a ∉ (ks.foldl (fun acc c => GoMap.del acc c) m).keys := by
  induction ks generalizing m with
  | nil => simp at h
  | cons k ks ih =>
    rw [List.foldl_cons]
    rcases List.mem_cons.1 h with h1 | h1
    · subst h1
      intro hm
      exact ((GoMap.mem_keys_del m a a).1 (GoMap.mem_keys_foldl_del ks _ a hm)).2 rfl
    · exact ih _ h1

theorem deref_eq_getElem (s : State) (l : Nat) (h : l < s.heap.length) :
    s.deref l = s.heap[l] := by
  unfold State.deref
  exact List.getD_eq_getElem _ _ h

/-- The loop of `listener.close` without retain, on a listener whose connections are
open and stored under their own ids: every connection is closed, its continuation is
posted, and the listener is left without connections. -/
theorem closeLoop_false_all (l : Nat) (cs : GoMap Nat libp2pConnection) (u : State)
    (hv : l < u.heap.length) (hcs : (u.deref l).connections = cs)
    (hnd : cs.keys.Nodup) (hid : ∀ e, e ∈ cs → e.2.id = e.1)
    (hopen : ∀ c, c ∈ cs.vals → c ∉ u.closed) :
    closeLoop l false cs.keys u =
      some { u with
        heap := u.heap.set l { u.deref l with connections := [] },
        closed := u.closed ++ cs.vals,
        trace := u.trace ++ cs.vals.map Event.closeStream,
        queue := u.queue ++ cs.keys.map (fun id => Task.cont (Cont.unlistLater id)) } := by
  induction cs generalizing u with
  | nil =>
    have h1 : ({ u.deref l with connections := [] } : listener) = u.heap[l] := by
      rw [← deref_eq_getElem u l hv, ← hcs]
    simp only [GoMap.keys, GoMap.vals, List.map_nil, closeLoop, List.append_nil, h1,
      list_set_getElem_self u.heap l hv]
  | cons e rest ih =>
    obtain ⟨id, c⟩ := e
    have hnd1 : id ∉ GoMap.keys rest ∧ (GoMap.keys rest).Nodup := by
      simpa [GoMap.keys] using hnd
    have hget : (u.deref l).connections.get? id = some c := by
      rw [hcs]
      simp [GoMap.get?]
    have hcopen : c ∉ u.closed := hopen c (by simp [GoMap.vals])
    let u0 : State := svc (Task.cont (Cont.unlistLater id))
      { u with closed := u.closed ++ [c], trace := u.trace ++ [Event.closeStream c] }
    let u1 : State := deleteConnection l id u0
    have hrem : removeConnection l id false u = some u1 := by
      unfold removeConnection
      simp only [Bool.false_eq_true, if_false, hget]
      unfold connection.close
      simp only [hcopen, if_false]
    have hv1 : l < u1.heap.length := by
      show l < (u.heap.set l _).length
      simpa using hv
    have hcs1 : (u1.deref l).connections = rest := by
      have hd : u1.deref l =
          { u0.deref l with connections := (u0.deref l).connections.del id } :=
        deref_store_self u0 l _ hv
      rw [hd]
      show GoMap.del (u.deref l).connections id = rest
      rw [hcs]
      exact GoMap.del_cons_self rest id c hnd1.1
    have hopen1 : ∀ c1, c1 ∈ GoMap.vals rest → c1 ∉ u1.closed := by
      intro c1 hc1 hmem
      have hmem1 : c1 ∈ u.closed ++ [c] := hmem
      rcases List.mem_append.1 hmem1 with h2 | h2
      · exact hopen c1 (by simp only [GoMap.vals, List.map_cons, List.mem_cons]
                           exact Or.inr hc1) h2
      · rw [List.mem_singleton] at h2
        subst h2
        obtain ⟨e1, he1, hsnd⟩ := List.mem_map.1 hc1
        have hk : e1.1 ∈ GoMap.keys rest := List.mem_map.2 ⟨e1, he1, rfl⟩
        have hid1 : e1.2.id = e1.1 := hid e1 (List.mem_cons_of_mem _ he1)
        have hidc : c1.id = id := hid (id, c1) (List.mem_cons_self _ _)
        rw [hsnd, hidc] at hid1
        rw [← hid1] at hk
        exact hnd1.1 hk
    have hrec := ih u1 hv1 hcs1 hnd1.2 (fun e1 he1 => hid e1 (List.mem_cons_of_mem _ he1)) hopen1
    simp only [GoMap.keys, List.map_cons] at hrec ⊢
    unfold closeLoop
    simp only [hget, hrem, hrec]
    have hd : u1.deref l =
        { u0.deref l with connections := (u0.deref l).connections.del id } :=
      deref_store_self u0 l _ hv
    rw [hd]
    simp [u1, u0, deleteConnection, State.store, svc, GoMap.vals, State.deref]

theorem settle_unlists (q : List Task) (ids : List Nat) (u : State)
    (hq : u.queue = q ++ ids.map Task.unlist) :
    settle q.length ids.length u =
      some { u with
        queue := q,
        listenerConnections :=
          ids.foldl (fun acc c => GoMap.del acc c) u.listenerConnections } := by
  induction ids generalizing u with
  | nil =>
    have hq1 : u.queue = q := by simpa using hq
    unfold settle
    simp only [List.length_nil, hq1, Nat.le_refl, if_true, List.foldl_nil]
    rw [← hq1]
  | cons id rest ih =>
    have hdrop : u.queue.drop q.length = Task.unlist id :: rest.map Task.unlist := by
      rw [hq, List.drop_left]
      rfl
    have htake : u.queue.take q.length = q := by rw [hq, List.take_left]
    rw [List.length_cons]
    unfold settle
    simp only [hdrop, htake, runTask]
    rw [ih _ rfl]
    rfl

theorem settle_conts_unlists (q : List Task) (ids1 ids2 : List Nat) (u : State)
    (hq : u.queue =
      q ++ ids1.map (fun id => Task.cont (Cont.unlistLater id)) ++ ids2.map Task.unlist) :
    settle q.length (2 * ids1.length + ids2.length) u =
      some { u with
        queue := q,
        listenerConnections :=
          (ids2 ++ ids1).foldl (fun acc c => GoMap.del acc c) u.listenerConnections } := by
  induction ids1 generalizing ids2 u with
  | nil =>
    have h := settle_unlists q ids2 u (by simpa using hq)
    simpa using h
  | cons id r1 ih =>
    have hfuel : 2 * (id :: r1).length + ids2.length =
        (2 * r1.length + (ids2 ++ [id]).length) + 1 := by
      simp only [List.length_cons, List.length_append, List.length_nil]
      omega
    have hdrop : u.queue.drop q.length =
        Task.cont (Cont.unlistLater id) ::
          (r1.map (fun id => Task.cont (Cont.unlistLater id)) ++ ids2.map Task.unlist) := by
      rw [hq, List.append_assoc, List.drop_left]
      rfl
    have htake : u.queue.take q.length = q := by
      rw [hq, List.append_assoc, List.take_left]
    rw [hfuel]
    unfold settle
    simp only [hdrop, htake, runTask, runCont]
    rw [ih (ids2 ++ [id]) _ (by simp [svc])]
    simp [svc]

theorem emitted_closeStream (cons : List libp2pConnection) :
    emitted (cons.map Event.closeStream) = [] := by
  induction cons with
  | nil => rfl
  | cons c rest ih =>
    rw [List.map_cons]
    show emitted ([Event.closeStream c] ++ rest.map Event.closeStream) = []
    rw [emitted_append, ih]
    rfl

/-- The state `Stop(c, p, false)` returns on a listener whose connections are open and
stored under their own ids. -/
theorem Stop_false_eq (s : State) (p : String) (l : Nat)
    (hl : s.listeners.get? p = some l) (hv : l < s.heap.length)
    (hp : (s.deref l).protocol = p)
    (hnd : (s.deref l).connections.keys.Nodup)
    (hid : ∀ e, e ∈ (s.deref l).connections → e.2.id = e.1)
    (hopen : ∀ c, c ∈ (s.deref l).connections.vals → c ∉ s.closed) :
    Stop p false s =
      some { s with
        heap := s.heap.set l { s.deref l with connections := [], closed := true },
        closed := s.closed ++ (s.deref l).connections.vals,
        trace := s.trace ++ (s.deref l).connections.vals.map Event.closeStream ++
          [Event.emit (Msg.listenerClosed p), Event.removeStreamHandler p],
        queue := s.queue ++
          (s.deref l).connections.keys.map (fun id => Task.cont (Cont.unlistLater id)),
        handlers := s.handlers.del p,
        listeners := s.listeners.del p } := by
  unfold Stop
  simp only [hl]
  unfold listener.close
  rw [closeLoop_false_all l _ s hv rfl hnd hid hopen]
  have hp1 : s.heap[l].protocol = p := by
    rw [← deref_eq_getElem s l hv]
    exact hp
  simp [closePrim, writeMsgpack, State.store, State.deref, hv, hp1, GoMap.keys]

/-- On a listener that is stored under its own protocol and whose connections are open and
stored under their own ids, `Stop(c, p, false)` returns and the closures it posts run to
the end, with the effects listed. -/
theorem Stop_false_settles (s : State) (p : String) (l : Nat)
    (hl : s.listeners.get? p = some l) (hv : l < s.heap.length)
    (hp : (s.deref l).protocol = p)
    (hnd : (s.deref l).connections.keys.Nodup)
    (hid : ∀ e, e ∈ (s.deref l).connections → e.2.id = e.1)
    (hopen : ∀ c, c ∈ (s.deref l).connections.vals → c ∉ s.closed)
    (hfwd : ∀ id, id ∈ (s.deref l).connections.keys → id ∉ s.forwarders.keys) :
    ∃ s1 s2, Stop p false s = some s1 ∧
      settle s.queue.length (2 * (s.deref l).connections.keys.length) s1 = some s2 ∧
      s2.queue = s.queue ∧
      (∀ c, c ∈ (s.deref l).connections.vals →
        Event.closeStream c ∈ s2.trace ∧ c ∈ s2.closed) ∧
      (s2.deref l).connections = [] ∧
      (∀ id, id ∈ (s.deref l).connections.keys →
        id ∉ s2.listenerConnections.keys ∧ id ∉ s2.forwarders.keys) ∧
      emitted s2.trace = emitted s.trace ++ [Msg.listenerClosed p] ∧
      p ∉ s2.handlers.keys ∧
      Event.removeStreamHandler p ∈ s2.trace ∧
      p ∉ s2.listeners.keys ∧
      (s2.deref l).closed = true := by
  have hstop := Stop_false_eq s p l hl hv hp hnd hid hopen
  have hsettle := settle_conts_unlists s.queue (s.deref l).connections.keys []
    { s with
      heap := s.heap.set l { s.deref l with connections := [], closed := true },
      closed := s.closed ++ (s.deref l).connections.vals,
      trace := s.trace ++ (s.deref l).connections.vals.map Event.closeStream ++
        [Event.emit (Msg.listenerClosed p), Event.removeStreamHandler p],
      queue := s.queue ++
        (s.deref l).connections.keys.map (fun id => Task.cont (Cont.unlistLater id)),
      handlers := s.handlers.del p,
      listeners := s.listeners.del p } (by simp)
  simp only [List.length_nil, Nat.add_zero, List.nil_append] at hsettle
  have hderef : ∀ (t : State),
      t.heap = s.heap.set l { s.deref l with connections := [], closed := true } →
      t.deref l = { s.deref l with connections := [], closed := true } := by
    intro t ht
    show t.heap.getD l default = _
    rw [ht, List.getD_eq_getElem _ _ (by simpa using hv)]
    simp only [List.getElem_set_self]
  refine ⟨_, _, hstop, hsettle, rfl, ?_, ?_, ?_, ?_, ?_, ?_, ?_, ?_⟩
  · intro c hc
    constructor
    · show Event.closeStream c ∈ s.trace ++
          (s.deref l).connections.vals.map Event.closeStream ++
          [Event.emit (Msg.listenerClosed p), Event.removeStreamHandler p]
      exact List.mem_append_left _ (List.mem_append_right _ (List.mem_map_of_mem _ hc))
    · exact List.mem_append_right _ hc
  · rw [hderef _ rfl]
  · intro id hidk
    exact ⟨GoMap.not_mem_keys_foldl_del _ _ id hidk, hfwd id hidk⟩
  · show emitted (s.trace ++ (s.deref l).connections.vals.map Event.closeStream ++
        [Event.emit (Msg.listenerClosed p), Event.removeStreamHandler p]) = _
    rw [emitted_append, emitted_append, emitted_closeStream]
    simp [emitted]
  · exact fun h => ((GoMap.mem_keys_del _ _ _).1 h).2 rfl
  · show Event.removeStreamHandler p ∈ s.trace ++
        (s.deref l).connections.vals.map Event.closeStream ++
        [Event.emit (Msg.listenerClosed p), Event.removeStreamHandler p]
    simp
  · exact fun h => ((GoMap.mem_keys_del _ _ _).1 h).2 rfl
  · rw [hderef _ rfl]

/-! ## Session close (C20) -/

/-- C20, the claim as stated fails: in a reachable session `forwarders` holds
connection 1; the closure of the session's `Close` closes it with an empty continuation,
and afterwards `c.forwarders` holds the connection as before. -/
theorem C20_forwarders_kept_after_session_close :
    Reachable demoForwarder ∧
    demoForwarder.forwarders = [(1, some demoOutConnection)] ∧
    (CloseClient demoForwarder).queue = [Task.closeSession] ∧
    runTask Task.closeSession { CloseClient demoForwarder with queue := [] } =
      some { demoSessionClosed with registered := false } ∧
    demoSessionClosed.forwarders = [(1, some demoOutConnection)] ∧
    demoOutConnection ∈ demoSessionClosed.closed :=
  ⟨demoForwarder_reachable, by decide⟩

theorem GoMap.get?_del_ne {κ α : Type} [DecidableEq κ] (m : GoMap κ α) (x y : κ)
    (h : y ≠ x) : GoMap.get? (GoMap.del m x) y = GoMap.get? m y := by
  induction m with
  | nil => rfl
  | cons e m ih =>
    obtain ⟨k, w⟩ := e
    unfold GoMap.del at ih ⊢
    by_cases hk : k = x
    · subst hk
      rw [List.filter_cons_of_neg (by simp), ih]
      simp [GoMap.get?, Ne.symm h]
    · rw [List.filter_cons_of_pos (by simpa using hk)]
      simp only [GoMap.get?, ih]

theorem GoMap.eq_nil_of_get?_none {κ α : Type} [DecidableEq κ] (m : GoMap κ α)
    (h : ∀ k, GoMap.get? m k = none) : m = [] := by
  cases m with
  | nil => rfl
  | cons e m =>
    obtain ⟨k, w⟩ := e
    have := h k
    simp [GoMap.get?] at this

theorem Quiet.reflexive (s : State) : Quiet s s :=
  ⟨rfl, rfl, rfl, fun _ h => h, rfl, fun _ => rfl, fun _ => rfl⟩

theorem Quiet.compose {s t u : State} (h1 : Quiet s t) (h2 : Quiet t u) : Quiet s u :=
  ⟨h2.listeners.trans h1.listeners, h2.forwarders.trans h1.forwarders,
    h2.control.trans h1.control, fun c h => h2.closed c (h1.closed c h),
    h2.length.trans h1.length, fun l => (h2.protocol l).trans (h1.protocol l),
    fun l => (h2.flag l).trans (h1.flag l)⟩

theorem deref_store (s : State) (l l1 : Nat) (lis : listener) :
    (s.store l lis).deref l1 = if l1 = l ∧ l < s.heap.length then lis else s.deref l1 := by
  unfold State.store State.deref
  simp only [List.getD_eq_getElem?_getD, List.getElem?_set]
  by_cases h1 : l = l1
  · subst h1
    by_cases h2 : l < s.heap.length
    · simp [h2]
    · simp [h2, List.getElem?_eq_none (Nat.le_of_not_lt h2)]
  · have h3 : ¬ (l1 = l ∧ l < s.heap.length) := fun h => h1 h.1.symm
    simp [h1, h3]

theorem deleteConnection_quiet (l id : Nat) (s : State) : Quiet s (deleteConnection l id s) := by
  refine ⟨rfl, rfl, rfl, fun _ h => h, ?_, ?_, ?_⟩
  · simp [deleteConnection, State.store]
  · intro l1
    unfold deleteConnection
    rw [deref_store]
    split
    · rename_i h
      rw [h.1]
    · rfl
  · intro l1
    unfold deleteConnection
    rw [deref_store]
    split
    · rename_i h
      rw [h.1]
    · rfl

theorem connection_close_quiet (con : Option libp2pConnection) (k : Cont) (s t : State)
    (h : connection.close con k s = some t) : Quiet s t := by
  unfold connection.close at h
  cases con with
  | none => simp at h
  | some c =>
    dsimp only at h
    split at h
    · injection h with h
      subst h
      exact Quiet.reflexive s
    · injection h with h
      subst h
      exact ⟨rfl, rfl, rfl, fun _ h => List.mem_append_left _ h, rfl, fun _ => rfl, fun _ => rfl⟩

theorem closeLoop_false_quiet (l : Nat) (ids : List Nat) (s : State) :
    ∃ t, closeLoop l false ids s = some t ∧ Quiet s t := by
  induction ids generalizing s with
  | nil => exact ⟨s, rfl, Quiet.reflexive s⟩
  | cons id ids ih =>
    unfold closeLoop
    cases hg : (s.deref l).connections.get? id with
    | none => exact ih s
    | some c =>
      dsimp only
      have hrem : ∃ s1, removeConnection l id false s = some s1 ∧ Quiet s s1 := by
        unfold removeConnection
        simp only [Bool.false_eq_true, if_false, hg]
        cases hc : connection.close (some c) (Cont.unlistLater id) s with
        | none =>
          unfold connection.close at hc
          dsimp only at hc
          split at hc <;> simp at hc
        | some s0 =>
          exact ⟨_, rfl, (connection_close_quiet _ _ _ _ hc).compose (deleteConnection_quiet l id s0)⟩
      obtain ⟨s1, h1, hq1⟩ := hrem
      obtain ⟨t, ht, hqt⟩ := ih s1
      exact ⟨t, by simp only [h1, ht], hq1.compose hqt⟩

/-- What `l.close(false)` does to the things a session close looks at. -/
theorem listener_close_false_spec (l : Nat) (s : State) :
    ∃ t, listener.close l false s = some t ∧
      t.listeners = s.listeners.del (s.deref l).protocol ∧
      t.forwarders = s.forwarders ∧ t.control = s.control ∧
      (∀ c, c ∈ s.closed → c ∈ t.closed) ∧
      t.heap.length = s.heap.length ∧
      (∀ l1, (t.deref l1).protocol = (s.deref l1).protocol) ∧
      (∀ l1, (s.deref l1).closed = true → (t.deref l1).closed = true) ∧
      (l < s.heap.length → (t.deref l).closed = true) := by
  obtain ⟨u, hu, hq⟩ := closeLoop_false_quiet l (s.deref l).connections.keys s
  unfold listener.close
  simp only [hu]
  refine ⟨_, rfl, ?_, ?_, ?_, ?_, ?_, ?_, ?_, ?_⟩
  · show u.listeners.del (u.deref l).protocol = _
    rw [hq.listeners, hq.protocol]
  · exact hq.forwarders
  · exact hq.control
  · exact hq.closed
  · show (u.heap.set l _).length = _
    rw [List.length_set]
    exact hq.length
  · intro l1
    unfold closePrim
    dsimp only
    rw [deref_store]
    split
    · rename_i h
      rw [h.1]
      exact hq.protocol l
    · exact hq.protocol l1
  · intro l1 h1
    unfold closePrim
    dsimp only
    rw [deref_store]
    split
    · rfl
    · show (u.deref l1).closed = true
      rw [hq.flag]
      exact h1
  · intro hv
    unfold closePrim
    dsimp only
    rw [deref_store]
    have hv1 : l < u.heap.length := by
      rw [hq.length]
      exact hv
    rw [if_pos ⟨rfl, hv1⟩]

/-- The loop over `c.listeners` of the session close, when every listener is stored under
its own protocol: it returns, every key of the loop is gone from `c.listeners`, and the
listeners these keys named are closed. -/
theorem closeListeners_spec (ks : List String) (s : State)
    (hwf : ∀ k l, s.listeners.get? k = some l → (s.deref l).protocol = k) :
    ∃ t, closeListeners ks s = some t ∧
      (∀ k, t.listeners.get? k = if k ∈ ks then none else s.listeners.get? k) ∧
      t.forwarders = s.forwarders ∧ t.control = s.control ∧
      (∀ c, c ∈ s.closed → c ∈ t.closed) ∧
      t.heap.length = s.heap.length ∧
      (∀ l1, (s.deref l1).closed = true → (t.deref l1).closed = true) ∧
      (∀ k l, k ∈ ks → s.listeners.get? k = some l → l < s.heap.length →
        (t.deref l).closed = true) := by
  induction ks generalizing s with
  | nil =>
    exact ⟨s, rfl, fun k => by simp, rfl, rfl, fun _ h => h, rfl, fun _ h => h,
      fun k l hk => by simp at hk⟩
  | cons k ks ih =>
    unfold closeListeners
    cases hg : s.listeners.get? k with
    | none =>
      obtain ⟨t, ht, hget, hf, hc, hcl, hlen, hflag, hdone⟩ := ih s hwf
      refine ⟨t, ht, ?_, hf, hc, hcl, hlen, hflag, ?_⟩
      · intro k1
        rw [hget k1]
        by_cases h1 : k1 ∈ ks
        · simp [h1]
        · by_cases h2 : k1 = k
          · subst h2
            simp [h1, hg]
          · simp [h1, h2]
      · intro k1 l hk1 hl hv
        rcases List.mem_cons.1 hk1 with h2 | h2
        · subst h2
          rw [hg] at hl
          cases hl
        · exact hdone k1 l h2 hl hv
    | some l =>
      dsimp only
      obtain ⟨s1, h1, hlis, hf1, hc1, hcl1, hlen1, hprot1, hflag1, hself1⟩ :=
        listener_close_false_spec l s
      have hk : (s.deref l).protocol = k := hwf k l hg
      rw [hk] at hlis
      have hwf1 : ∀ k1 l1, s1.listeners.get? k1 = some l1 → (s1.deref l1).protocol = k1 := by
        intro k1 l1 hget1
        rw [hlis] at hget1
        by_cases h2 : k1 = k
        · subst h2
          rw [GoMap.get?_del_self] at hget1
          cases hget1
        · rw [GoMap.get?_del_ne _ _ _ h2] at hget1
          rw [hprot1]
          exact hwf k1 l1 hget1
      obtain ⟨t, ht, hget, hf, hc, hcl, hlen, hflag, hdone⟩ := ih s1 hwf1
      refine ⟨t, by simp only [h1, ht], ?_, hf.trans hf1, hc.trans hc1,
        fun c h => hcl c (hcl1 c h), hlen.trans hlen1, fun l1 h => hflag l1 (hflag1 l1 h), ?_⟩
      · intro k1
        rw [hget k1, hlis]
        by_cases h3 : k1 ∈ ks
        · simp [h3]
        · by_cases h2 : k1 = k
          · subst h2
            simp [h3, GoMap.get?_del_self]
          · simp [h3, h2, GoMap.get?_del_ne _ _ _ h2]
      · intro k1 l1 hk1 hl hv
        by_cases h2 : k1 = k
        · subst h2
          rw [hg] at hl
          cases hl
          exact hflag l (hself1 hv)
        · rcases List.mem_cons.1 hk1 with h3 | h3
          · exact absurd h3 h2
          · refine hdone k1 l1 h3 ?_ (by rw [hlen1]; exact hv)
            rw [hlis, GoMap.get?_del_ne _ _ _ h2]
            exact hl

/-- The loop over `c.forwarders` of the session close, when no value is nil: it returns,
every connection is closed, and the maps and listeners are left alone. -/
theorem closeForwarders_spec (cons : List (Option libp2pConnection)) (s : State)
    (hnil : ∀ v, v ∈ cons → v ≠ none) :
    ∃ t, closeForwarders cons s = some t ∧ t.listeners = s.listeners ∧
      t.forwarders = s.forwarders ∧ t.control = s.control ∧ t.heap = s.heap ∧
      (∀ c, c ∈ s.closed → c ∈ t.closed) ∧
      (∀ c, some c ∈ cons → c ∈ t.closed) := by
  induction cons generalizing s with
  | nil => exact ⟨s, rfl, rfl, rfl, rfl, rfl, fun _ h => h, fun c h => by simp at h⟩
  | cons v cons ih =>
    unfold closeForwarders
    cases v with
    | none => exact absurd rfl (hnil none (List.mem_cons_self _ _))
    | some c =>
      have hstep : ∃ s1, connection.close (some c) Cont.nop s = some s1 ∧
          s1.listeners = s.listeners ∧ s1.forwarders = s.forwarders ∧
          s1.control = s.control ∧ s1.heap = s.heap ∧
          (∀ c1, c1 ∈ s.closed → c1 ∈ s1.closed) ∧ c ∈ s1.closed := by
        unfold connection.close
        dsimp only
        by_cases hc : c ∈ s.closed
        · rw [if_pos hc]
          exact ⟨s, rfl, rfl, rfl, rfl, rfl, fun _ h => h, hc⟩
        · rw [if_neg hc]
          exact ⟨_, rfl, rfl, rfl, rfl, rfl, fun _ h => List.mem_append_left _ h,
            List.mem_append_right _ (List.mem_singleton.2 rfl)⟩
      obtain ⟨s1, h1, hl1, hf1, hc1, hh1, hcl1, hin1⟩ := hstep
      obtain ⟨t, ht, hl, hf, hc, hh, hcl, hin⟩ :=
        ih s1 (fun v hv => hnil v (List.mem_cons_of_mem _ hv))
      refine ⟨t, by simp only [h1, ht], hl.trans hl1, hf.trans hf1, hc.trans hc1,
        hh.trans hh1, fun c1 h => hcl c1 (hcl1 c1 h), ?_⟩
      intro c1 hc1m
      rcases List.mem_cons.1 hc1m with h2 | h2
      · injection h2 with h2
        subst h2
        exact hcl c1 hin1
      · exact hin c1 h2

/-- When every listener is stored under its own protocol and `c.forwarders` holds no
nil, the closure posted by the session's `Close` returns, with the effects listed. -/
theorem closeSession_spec (s : State)
    (hwf : ∀ k l, s.listeners.get? k = some l → (s.deref l).protocol = k)
    (hnil : ∀ v, v ∈ s.forwarders.vals → v ≠ none) :
    (CloseClient s).queue = s.queue ++ [Task.closeSession] ∧
    ∃ t, runTask Task.closeSession s = some t ∧
      t.listeners = [] ∧
      (∀ k l, s.listeners.get? k = some l → l < s.heap.length → (t.deref l).closed = true) ∧
      t.forwarders = s.forwarders ∧
      (∀ c, some c ∈ s.forwarders.vals → c ∈ t.closed) ∧
      t.control = false ∧
      ∃ tr, t.trace =
        tr ++ (if s.control then [Event.controlClose] else []) ++ [Event.clientClose] := by
  constructor
  · unfold CloseClient svc
    split <;> rfl
  · obtain ⟨s1, h1, hget, hf1, hc1, hcl1, hlen1, hflag1, hdone1⟩ :=
      closeListeners_spec s.listeners.keys s hwf
    have hnil1 : ∀ v, v ∈ s1.forwarders.vals → v ≠ none := by
      rw [hf1]
      exact hnil
    obtain ⟨s2, h2, hl2, hf2, hc2, hh2, hcl2, hin2⟩ :=
      closeForwarders_spec s1.forwarders.vals s1 hnil1
    have hempty : s1.listeners = [] := by
      apply GoMap.eq_nil_of_get?_none
      intro k
      rw [hget k]
      by_cases hk : k ∈ s.listeners.keys
      · rw [if_pos hk]
      · rw [if_neg hk]
        exact GoMap.get?_eq_none_of_not_mem _ _ hk
    have hclosed : ∀ k l, s.listeners.get? k = some l → l < s.heap.length →
        (s2.deref l).closed = true := by
      intro k l hk hv
      have h3 := hdone1 k l (GoMap.mem_keys_of_get? _ _ _ hk) hk hv
      unfold State.deref at h3 ⊢
      rw [hh2]
      exact h3
    have hfw : ∀ c, some c ∈ s.forwarders.vals → c ∈ s2.closed := by
      intro c hc
      apply hin2
      rw [hf1]
      exact hc
    have hrun : runTask Task.closeSession s = closeSessionClosure s := rfl
    rw [hrun]
    unfold closeSessionClosure
    simp only [h1, h2]
    have hctl : s2.control = s.control := hc2.trans hc1
    cases hcs : s.control with
    | true =>
      rw [hcs] at hctl
      refine ⟨_, rfl, ?_, ?_, ?_, ?_, ?_, ?_⟩
      · simp only [hctl, if_true]
        rw [hl2, hempty]
      · simp only [hctl, if_true]
        exact hclosed
      · simp only [hctl, if_true]
        rw [hf2, hf1]
      · simp only [hctl, if_true]
        exact hfw
      · simp only [hctl, if_true]
      · exact ⟨s2.trace, by simp [hctl]⟩
    | false =>
      rw [hcs] at hctl
      refine ⟨_, rfl, ?_, ?_, ?_, ?_, ?_, ?_⟩
      · simp only [hctl, Bool.false_eq_true, if_false]
        rw [hl2, hempty]
      · simp only [hctl, Bool.false_eq_true, if_false]
        exact hclosed
      · simp only [hctl, Bool.false_eq_true, if_false]
        rw [hf2, hf1]
      · simp only [hctl, Bool.false_eq_true, if_false]
        exact hfw
      · simp only [hctl, Bool.false_eq_true, if_false]
      · exact ⟨s2.trace, by simp [hctl]⟩

/-! ## The shape of reachable sessions -/

theorem GoMap.keys_del {κ α : Type} [DecidableEq κ] (m : GoMap κ α) (x : κ) :
    (GoMap.del m x).keys = m.keys.filter (fun k => decide (k ≠ x)) := by
  unfold GoMap.del GoMap.keys
  induction m with
  | nil => rfl
  | cons e m ih =>
    by_cases h : e.1 = x
    · rw [List.filter_cons_of_neg (by simpa using h), List.map_cons,
        List.filter_cons_of_neg (by simpa using h), ih]
    · rw [List.filter_cons_of_pos (by simpa using h), List.map_cons, List.map_cons,
        List.filter_cons_of_pos (by simpa using h), ih]

theorem GoMap.nodup_keys_del {κ α : Type} [DecidableEq κ] (m : GoMap κ α) (x : κ)
    (h : m.keys.Nodup) : (GoMap.del m x).keys.Nodup := by
  rw [GoMap.keys_del]
  exact h.filter _

theorem GoMap.mem_of_mem_del {κ α : Type} [DecidableEq κ] (m : GoMap κ α) (x : κ)
    (e : κ × α) (h : e ∈ GoMap.del m x) : e ∈ m ∧ e.1 ≠ x := by
  unfold GoMap.del at h
  simpa using h

theorem GoMap.mem_of_get? {κ α : Type} [DecidableEq κ] (m : GoMap κ α) (x : κ) (v : α)
    (h : GoMap.get? m x = some v) : (x, v) ∈ m := by
  induction m with
  | nil => simp [GoMap.get?] at h
  | cons e m ih =>
    obtain ⟨k, w⟩ := e
    unfold GoMap.get? at h
    by_cases hk : k = x
    · rw [if_pos hk] at h
      injection h with h
      subst hk
      subst h
      exact List.mem_cons_self _ _
    · rw [if_neg hk] at h
      exact List.mem_cons_of_mem _ (ih h)

theorem GoMap.not_mem_keys_of_get?_none {κ α : Type} [DecidableEq κ] (m : GoMap κ α) (x : κ)
    (h : GoMap.get? m x = none) : x ∉ m.keys := by
  induction m with
  | nil => simp [GoMap.keys]
  | cons e m ih =>
    obtain ⟨k, w⟩ := e
    unfold GoMap.get? at h
    by_cases hk : k = x
    · rw [if_pos hk] at h
      cases h
    · rw [if_neg hk] at h
      intro hm
      unfold GoMap.keys at hm ih
      rcases List.mem_cons.1 hm with h1 | h1
      · exact hk h1.symm
      · exact ih h h1

theorem GoMap.mem_keys_of_mem {κ α : Type} (m : GoMap κ α) (e : κ × α) (h : e ∈ m) :
    e.1 ∈ m.keys :=
  List.mem_map_of_mem _ h

theorem GoMap.mem_vals_of_mem {κ α : Type} (m : GoMap κ α) (e : κ × α) (h : e ∈ m) :
    e.2 ∈ m.vals :=
  List.mem_map_of_mem _ h

theorem GoMap.get?_append_of_some {κ α : Type} [DecidableEq κ] (a b : GoMap κ α) (y : κ)
    (v : α) (h : GoMap.get? a y = some v) : GoMap.get? (a ++ b) y = some v := by
  induction a with
  | nil => simp [GoMap.get?] at h
  | cons e a ih =>
    obtain ⟨k, w⟩ := e
    unfold GoMap.get? at h
    rw [List.cons_append, GoMap.get?]
    by_cases hk : k = y
    · rw [if_pos hk] at h ⊢
      exact h
    · rw [if_neg hk] at h ⊢
      exact ih h

theorem GoMap.get?_set_ne {κ α : Type} [DecidableEq κ] (m : GoMap κ α) (x y : κ) (v : α)
    (h : y ≠ x) : GoMap.get? (GoMap.set m x v) y = GoMap.get? m y := by
  unfold GoMap.set
  rw [← GoMap.get?_del_ne m x y h]
  cases hg : GoMap.get? (GoMap.del m x) y with
  | none =>
    rw [GoMap.get?_append_of_none _ _ _ hg]
    simp [GoMap.get?, Ne.symm h]
  | some v1 => exact GoMap.get?_append_of_some _ _ _ _ hg

theorem deref_congr (s t : State) (h : t.heap = s.heap) (l : Nat) : t.deref l = s.deref l := by
  unfold State.deref
  rw [h]

theorem deref_invalid (s : State) (l : Nat) (h : ¬ l < s.heap.length) :
    (s.deref l).connections = [] := by
  unfold State.deref
  rw [List.getD_eq_default _ _ (Nat.le_of_not_lt h)]
  rfl

/-- A step that leaves the listeners and the closed connections alone, keeps the index of
the listeners' connections and the ids of the forwarders, and posts no removal. -/
theorem WF.congr {s t : State} (h : WF s) (hl : t.listeners = s.listeners)
    (hh : t.heap = s.heap) (hc : t.closed = s.closed)
    (hlc : ∀ l id, l < s.heap.length → id ∈ (s.deref l).connections.keys →
      t.listenerConnections.get? id = some l)
    (hf : ∀ e c, e ∈ t.forwarders → e.2 = some c → c.id = e.1)
    (hi : ∀ id, id ∈ s.issued → id ∈ t.issued)
    (hq : ∀ x, x ∈ t.queue → x ∈ s.queue ∨ x.drops = none) : WF t := by
  have hd : ∀ l, t.deref l = s.deref l := deref_congr s t hh
  refine ⟨?_, ?_, ?_, ?_, ?_, hf, ?_, ?_⟩
  · intro k l hk
    rw [hl] at hk
    rw [hh, hd]
    exact h.listed k l hk
  · intro l
    rw [hd]
    exact h.nodup l
  · intro l e he
    rw [hd] at he
    exact h.keyed l e he
  · intro l c hc1
    rw [hd] at hc1
    rw [hc]
    exact h.live l c hc1
  · intro l id hv hid
    rw [hd] at hid
    rw [hh] at hv
    exact hlc l id hv hid
  · intro c hc1
    rw [hc] at hc1
    exact hi _ (h.closedIssued c hc1)
  · intro x id hx hdrops
    rcases hq x hx with h1 | h1
    · obtain ⟨h2, h3⟩ := h.pending x id h1 hdrops
      refine ⟨hi id h2, ?_⟩
      intro l
      rw [hd]
      exact h3 l
    · rw [h1] at hdrops
      cases hdrops

/-- A step that touches nothing but the trace, the relay, the overlay's handlers, the
control channel and closures that remove nothing. -/
theorem WF.of_frame {s t : State} (h : WF s) (hl : t.listeners = s.listeners)
    (hh : t.heap = s.heap) (hc : t.closed = s.closed)
    (hlc : t.listenerConnections = s.listenerConnections)
    (hf : t.forwarders = s.forwarders) (hi : t.issued = s.issued)
    (hq : ∀ x, x ∈ t.queue → x ∈ s.queue ∨ x.drops = none) : WF t := by
  refine h.congr hl hh hc ?_ ?_ ?_ hq
  · intro l id hv hid
    rw [hlc]
    exact h.indexed l id hv hid
  · intro e c he
    rw [hf] at he
    exact h.fwdKeyed e c he
  · intro id hid
    rw [hi]
    exact hid

/-- The id of a listener's connection is in no other listener. -/
theorem WF.owner {s : State} (h : WF s) (l l1 id : Nat) (hv : l < s.heap.length)
    (hid : id ∈ (s.deref l).connections.keys) (hid1 : id ∈ (s.deref l1).connections.keys) :
    l1 = l := by
  by_cases hv1 : l1 < s.heap.length
  · have h1 := h.indexed l id hv hid
    have h2 := h.indexed l1 id hv1 hid1
    rw [h1] at h2
    injection h2 with h2
    exact h2.symm
  · rw [GoMap.keys, deref_invalid s l1 hv1] at hid1
    simp at hid1

/-- The deletion of a listener's connection, after the connection was closed or its
retain closure was posted, keeps the shape of the session. -/
theorem deleteConnection_wf (l id : Nat) (u t0 : State) (c : libp2pConnection) (task : Task)
    (hw : WF u) (hi : Inv u) (hv : l < u.heap.length)
    (hg : (u.deref l).connections.get? id = some c)
    (hheap : t0.heap = u.heap) (hlis : t0.listeners = u.listeners)
    (hlc : t0.listenerConnections = u.listenerConnections)
    (hfwd : t0.forwarders = u.forwarders) (hiss : t0.issued = u.issued)
    (hclosed : ∀ x, x ∈ t0.closed → x ∈ u.closed ∨ x = c)
    (hqueue : t0.queue = u.queue ++ [task]) (htask : task.drops = some id) :
    WF (deleteConnection l id t0) ∧
      (deleteConnection l id t0).heap.length = u.heap.length ∧
      (deleteConnection l id t0).listeners = u.listeners ∧
      (∀ l1, ((deleteConnection l id t0).deref l1).protocol = (u.deref l1).protocol) ∧
      (∀ l1 x, x ∈ ((deleteConnection l id t0).deref l1).connections.keys →
        x ∈ (u.deref l1).connections.keys) ∧
      id ∉ ((deleteConnection l id t0).deref l).connections.keys := by
  have hd0 : ∀ l1, t0.deref l1 = u.deref l1 := deref_congr u t0 hheap
  have hv0 : l < t0.heap.length := by rw [hheap]; exact hv
  have hdl : (deleteConnection l id t0).deref l =
      { u.deref l with connections := (u.deref l).connections.del id } := by
    unfold deleteConnection
    rw [deref_store_self _ _ _ hv0, hd0]
  have hdo : ∀ l1, l1 ≠ l → (deleteConnection l id t0).deref l1 = u.deref l1 := by
    intro l1 hne
    unfold deleteConnection
    rw [deref_store, if_neg (fun h => hne h.1), hd0]
  have hmem : ∀ l1 e, e ∈ ((deleteConnection l id t0).deref l1).connections →
      e ∈ (u.deref l1).connections ∧ (l1 = l → e.1 ≠ id) := by
    intro l1 e he
    by_cases hl1 : l1 = l
    · subst hl1
      rw [hdl] at he
      have h1 := GoMap.mem_of_mem_del _ _ _ he
      exact ⟨h1.1, fun _ => h1.2⟩
    · rw [hdo l1 hl1] at he
      exact ⟨he, fun h => absurd h hl1⟩
  have hkeys : ∀ l1 x, x ∈ ((deleteConnection l id t0).deref l1).connections.keys →
      x ∈ (u.deref l1).connections.keys ∧ (l1 = l → x ≠ id) := by
    intro l1 x hx
    obtain ⟨e, he, hfst⟩ := List.mem_map.1 hx
    have h1 := hmem l1 e he
    rw [← hfst]
    exact ⟨GoMap.mem_keys_of_mem _ e h1.1, h1.2⟩
  have hidl : id ∈ (u.deref l).connections.keys := GoMap.mem_keys_of_get? _ _ _ hg
  have hcid : c.id = id := hw.keyed l (id, c) (GoMap.mem_of_get? _ _ _ hg)
  have hnotin : ∀ l1, id ∉ ((deleteConnection l id t0).deref l1).connections.keys := by
    intro l1 hx
    have h1 := hkeys l1 id hx
    have h2 : l1 = l := hw.owner l l1 id hv hidl h1.1
    exact h1.2 h2 rfl
  have hprot : ∀ l1, ((deleteConnection l id t0).deref l1).protocol = (u.deref l1).protocol := by
    intro l1
    by_cases hl1 : l1 = l
    · subst hl1
      rw [hdl]
    · rw [hdo l1 hl1]
  have hlen : (deleteConnection l id t0).heap.length = u.heap.length := by
    show (t0.heap.set l _).length = _
    rw [List.length_set, hheap]
  refine ⟨⟨?_, ?_, ?_, ?_, ?_, ?_, ?_, ?_⟩, hlen, hlis, hprot,
    fun l1 x hx => (hkeys l1 x hx).1, hnotin l⟩
  · intro k l2 hk
    have hk1 : u.listeners.get? k = some l2 := by
      rw [← hlis]
      exact hk
    have h1 := hw.listed k l2 hk1
    rw [hlen, hprot]
    exact h1
  · intro l1
    by_cases hl1 : l1 = l
    · subst hl1
      rw [hdl]
      exact GoMap.nodup_keys_del _ _ (hw.nodup l1)
    · rw [hdo l1 hl1]
      exact hw.nodup l1
  · intro l1 e he
    exact hw.keyed l1 e (hmem l1 e he).1
  · intro l1 c1 hc1 hcl
    obtain ⟨e, he, hsnd⟩ := List.mem_map.1 hc1
    have h1 := (hmem l1 e he).1
    have hcl0 : c1 ∈ t0.closed := hcl
    rcases hclosed c1 hcl0 with h2 | h2
    · exact hw.live l1 c1 (by rw [← hsnd]; exact GoMap.mem_vals_of_mem _ e h1) h2
    · have h3 : e.2.id = e.1 := hw.keyed l1 e h1
      rw [hsnd, h2, hcid] at h3
      have h4 := GoMap.mem_keys_of_mem _ e he
      rw [← h3] at h4
      exact hnotin l1 h4
  · intro l1 x hv1 hx
    rw [hlen] at hv1
    show t0.listenerConnections.get? x = some l1
    rw [hlc]
    exact hw.indexed l1 x hv1 (hkeys l1 x hx).1
  · intro e c1 he
    have he0 : e ∈ t0.forwarders := he
    rw [hfwd] at he0
    exact hw.fwdKeyed e c1 he0
  · intro c1 hc1
    have hc0 : c1 ∈ t0.closed := hc1
    show c1.id ∈ t0.issued
    rw [hiss]
    rcases hclosed c1 hc0 with h2 | h2
    · exact hw.closedIssued c1 h2
    · rw [h2, hcid]
      obtain ⟨lis, hl1, hl2⟩ := deref_keys u l id hidl
      exact hi.heapIssued lis hl1 id hl2
  · intro x id1 hx hdrops
    have hx0 : x ∈ t0.queue := hx
    rw [hqueue] at hx0
    show id1 ∈ t0.issued ∧ _
    rw [hiss]
    rcases List.mem_append.1 hx0 with h1 | h1
    · obtain ⟨h2, h3⟩ := hw.pending x id1 h1 hdrops
      exact ⟨h2, fun l1 hin => h3 l1 (hkeys l1 id1 hin).1⟩
    · rw [List.mem_singleton] at h1
      subst h1
      rw [htask] at hdrops
      injection hdrops with hdrops
      subst hdrops
      obtain ⟨lis, hl1, hl2⟩ := deref_keys u l id hidl
      exact ⟨hi.heapIssued lis hl1 id hl2, hnotin⟩

theorem removeConnection_wf (l id : Nat) (r : Bool) (u : State) (c : libp2pConnection)
    (hw : WF u) (hi : Inv u) (hv : l < u.heap.length)
    (hg : (u.deref l).connections.get? id = some c) :
    ∃ t, removeConnection l id r u = some t ∧ WF t ∧ Inv t ∧
      t.heap.length = u.heap.length ∧ t.listeners = u.listeners ∧
      (∀ l1, (t.deref l1).protocol = (u.deref l1).protocol) ∧
      (∀ l1 x, x ∈ (t.deref l1).connections.keys → x ∈ (u.deref l1).connections.keys) ∧
      id ∉ (t.deref l).connections.keys := by
  have hkey : id ∈ (u.deref l).connections.keys := GoMap.mem_keys_of_get? _ _ _ hg
  have hrun : ∃ t0 task, removeConnection l id r u = some (deleteConnection l id t0) ∧
      t0.heap = u.heap ∧ t0.listeners = u.listeners ∧
      t0.listenerConnections = u.listenerConnections ∧ t0.forwarders = u.forwarders ∧
      t0.issued = u.issued ∧ (∀ x, x ∈ t0.closed → x ∈ u.closed ∨ x = c) ∧
      t0.queue = u.queue ++ [task] ∧ task.drops = some id := by
    cases r with
    | true =>
      exact ⟨svc (Task.retain l id) u, Task.retain l id, rfl, rfl, rfl, rfl, rfl, rfl,
        fun x hx => Or.inl hx, rfl, rfl⟩
    | false =>
      have hopen : c ∉ u.closed :=
        hw.live l c (GoMap.mem_vals_of_mem _ (id, c) (GoMap.mem_of_get? _ _ _ hg))
      refine ⟨svc (Task.cont (Cont.unlistLater id))
        { u with closed := u.closed ++ [c], trace := u.trace ++ [Event.closeStream c] },
        Task.cont (Cont.unlistLater id), ?_, rfl, rfl, rfl, rfl, rfl, ?_, rfl, rfl⟩
      · unfold removeConnection
        simp only [Bool.false_eq_true, if_false, hg]
        unfold connection.close
        simp only [hopen, if_false]
      · intro x hx
        have hx1 : x ∈ u.closed ++ [c] := hx
        rcases List.mem_append.1 hx1 with h1 | h1
        · exact Or.inl h1
        · exact Or.inr (List.mem_singleton.1 h1)
  obtain ⟨t0, task, hrem, h1, h2, h3, h4, h5, h6, h7, h8⟩ := hrun
  obtain ⟨hwf, hlen, hlis, hprot, hsub, hnot⟩ :=
    deleteConnection_wf l id u t0 c task hw hi hv hg h1 h2 h3 h4 h5 h6 h7 h8
  exact ⟨_, hrem, hwf,
    hi.of_shrink (removeConnection_shrink l id r u _ (fun _ => hkey) hrem),
    hlen, hlis, hprot, hsub, hnot⟩

theorem closeLoop_wf (l : Nat) (r : Bool) (ks : List Nat) (u : State)
    (hw : WF u) (hi : Inv u) (hv : l < u.heap.length) :
    ∃ t, closeLoop l r ks u = some t ∧ WF t ∧ Inv t ∧
      t.heap.length = u.heap.length ∧ t.listeners = u.listeners ∧
      (∀ l1, (t.deref l1).protocol = (u.deref l1).protocol) ∧
      (∀ l1 x, x ∈ (t.deref l1).connections.keys → x ∈ (u.deref l1).connections.keys) ∧
      (∀ x, x ∈ ks → x ∉ (t.deref l).connections.keys) := by
  induction ks generalizing u with
  | nil =>
    exact ⟨u, rfl, hw, hi, rfl, rfl, fun _ => rfl, fun _ _ h => h, fun x hx => by simp at hx⟩
  | cons id ks ih =>
    unfold closeLoop
    cases hg : (u.deref l).connections.get? id with
    | none =>
      obtain ⟨t, ht, hwt, hit, hlen, hlis, hprot, hsub, hnot⟩ := ih u hw hi hv
      refine ⟨t, ht, hwt, hit, hlen, hlis, hprot, hsub, ?_⟩
      intro x hx
      rcases List.mem_cons.1 hx with h1 | h1
      · subst h1
        exact fun hin => GoMap.not_mem_keys_of_get?_none _ _ hg (hsub l x hin)
      · exact hnot x h1
    | some c =>
      dsimp only
      obtain ⟨t1, h1, hw1, hi1, hlen1, hlis1, hprot1, hsub1, hnot1⟩ :=
        removeConnection_wf l id r u c hw hi hv hg
      obtain ⟨t, ht, hwt, hit, hlen, hlis, hprot, hsub, hnot⟩ :=
        ih t1 hw1 hi1 (by rw [hlen1]; exact hv)
      refine ⟨t, by simp only [h1, ht], hwt, hit, hlen.trans hlen1, hlis.trans hlis1,
        fun l1 => (hprot l1).trans (hprot1 l1), fun l1 x hx => hsub1 l1 x (hsub l1 x hx), ?_⟩
      intro x hx
      rcases List.mem_cons.1 hx with h2 | h2
      · subst h2
        exact fun hin => hnot1 (hsub l x hin)
      · exact hnot x h2

theorem GoMap.get?_of_get?_del {κ α : Type} [DecidableEq κ] (m : GoMap κ α) (x y : κ) (v : α)
    (h : GoMap.get? (GoMap.del m x) y = some v) : GoMap.get? m y = some v ∧ y ≠ x := by
  by_cases hy : y = x
  · subst hy
    rw [GoMap.get?_del_self] at h
    cases h
  · rw [GoMap.get?_del_ne m x y hy] at h
    exact ⟨h, hy⟩

theorem closePrim_wf (l : Nat) (u : State) (hw : WF u)
    (hempty : (u.deref l).connections = []) :
    WF (closePrim l u) ∧ (closePrim l u).heap.length = u.heap.length ∧
      (closePrim l u).listeners = u.listeners.del (u.deref l).protocol := by
  have hd : ∀ l1, ((closePrim l u).deref l1).connections = (u.deref l1).connections ∧
      ((closePrim l u).deref l1).protocol = (u.deref l1).protocol := by
    intro l1
    unfold closePrim
    dsimp only
    rw [deref_store]
    split
    · rename_i h
      rw [h.1]
      exact ⟨rfl, rfl⟩
    · exact ⟨rfl, rfl⟩
  have hlen : (closePrim l u).heap.length = u.heap.length := by
    show (u.heap.set l _).length = _
    rw [List.length_set]
  have hlc : (closePrim l u).listenerConnections = u.listenerConnections := by
    show List.foldl _ u.listenerConnections (u.deref l).connections.keys = _
    rw [hempty]
    rfl
  refine ⟨⟨?_, ?_, ?_, ?_, ?_, hw.fwdKeyed, hw.closedIssued, ?_⟩, hlen, rfl⟩
  · intro k l2 hk
    have hk1 : GoMap.get? (GoMap.del u.listeners (u.deref l).protocol) k = some l2 := hk
    have h1 := hw.listed k l2 (GoMap.get?_of_get?_del _ _ _ _ hk1).1
    rw [hlen, (hd l2).2]
    exact h1
  · intro l1
    rw [(hd l1).1]
    exact hw.nodup l1
  · intro l1 e he
    rw [(hd l1).1] at he
    exact hw.keyed l1 e he
  · intro l1 c hc
    rw [(hd l1).1] at hc
    exact hw.live l1 c hc
  · intro l1 x hv1 hx
    rw [(hd l1).1] at hx
    rw [hlen] at hv1
    rw [hlc]
    exact hw.indexed l1 x hv1 hx
  · intro x id hx hdrops
    obtain ⟨h2, h3⟩ := hw.pending x id hx hdrops
    refine ⟨h2, ?_⟩
    intro l1
    rw [(hd l1).1]
    exact h3 l1

theorem listener_close_wf (l : Nat) (r : Bool) (u : State)
    (hw : WF u) (hi : Inv u) (hv : l < u.heap.length) :
    ∃ t, listener.close l r u = some t ∧ WF t ∧ Inv t ∧
      t.heap.length = u.heap.length ∧
      t.listeners = u.listeners.del (u.deref l).protocol := by
  obtain ⟨t1, h1, hw1, hi1, hlen1, hlis1, hprot1, hsub1, hnot1⟩ :=
    closeLoop_wf l r (u.deref l).connections.keys u hw hi hv
  have hempty : (t1.deref l).connections = [] := by
    cases hc : (t1.deref l).connections with
    | nil => rfl
    | cons e rest =>
      have hin : e.1 ∈ (t1.deref l).connections.keys := by
        rw [hc]
        exact List.mem_map_of_mem _ (List.mem_cons_self _ _)
      exact absurd hin (hnot1 e.1 (hsub1 l e.1 hin))
  have hw2 : WF (writeMsgpack (Msg.listenerClosed (t1.deref l).protocol) t1) :=
    hw1.of_frame rfl rfl rfl rfl rfl rfl (fun _ hx => Or.inl hx)
  obtain ⟨hw3, hlen3, hlis3⟩ := closePrim_wf l _ hw2 hempty
  have hrun : listener.close l r u =
      some (closePrim l (writeMsgpack (Msg.listenerClosed (t1.deref l).protocol) t1)) := by
    unfold listener.close
    simp only [h1]
  refine ⟨_, hrun, hw3, hi.of_shrink (listener_close_shrink l r u _ hrun), ?_, ?_⟩
  · rw [hlen3]
    exact hlen1
  · rw [hlis3]
    show GoMap.del t1.listeners (t1.deref l).protocol = _
    rw [hlis1, hprot1]

theorem Stop_wf (protocol : String) (r : Bool) (u t : State) (hw : WF u) (hi : Inv u)
    (h : Stop protocol r u = some t) : WF t := by
  unfold Stop at h
  cases hl : u.listeners.get? protocol with
  | none =>
    simp only [hl] at h
    injection h with h
    subst h
    exact hw
  | some l =>
    simp only [hl] at h
    obtain ⟨t1, h1, hw1, _⟩ := listener_close_wf l r u hw hi (hw.listed protocol l hl).1
    rw [h1] at h
    injection h with h
    subst h
    exact hw1

theorem close_forwarder_wf (k : Cont) (hk : (Task.cont k).drops = none) (u t : State)
    (e : Nat × Option libp2pConnection) (fwd : libp2pConnection)
    (hw : WF u) (hi : Inv u) (he : e ∈ u.forwarders) (hval : e.2 = some fwd)
    (h : connection.close (some fwd) k u = some t) :
    WF t ∧ Inv t ∧ t.forwarders = u.forwarders := by
  have hinv : Inv t := hi.of_shrink (connection_close_shrink _ _ _ _ h)
  have hid : fwd.id = e.1 := hw.fwdKeyed e fwd he hval
  have hkey : e.1 ∈ u.forwarders.keys := GoMap.mem_keys_of_mem _ e he
  unfold connection.close at h
  dsimp only at h
  split at h
  · injection h with h
    subst h
    exact ⟨hw, hinv, rfl⟩
  · injection h with h
    subst h
    refine ⟨⟨hw.listed, hw.nodup, hw.keyed, ?_, hw.indexed, hw.fwdKeyed, ?_, ?_⟩, hinv, rfl⟩
    · intro l c hc hcl
      have hcl1 : c ∈ u.closed ++ [fwd] := hcl
      rcases List.mem_append.1 hcl1 with h1 | h1
      · exact hw.live l c hc h1
      · rw [List.mem_singleton] at h1
        subst h1
        obtain ⟨e1, he1, hsnd⟩ := List.mem_map.1 hc
        have h2 : e1.2.id = e1.1 := hw.keyed l e1 he1
        rw [hsnd, hid] at h2
        have h3 : e.1 ∈ (u.deref l).connections.keys := by
          rw [h2]
          exact GoMap.mem_keys_of_mem _ e1 he1
        have hv : l < u.heap.length := by
          by_contra hv
          rw [GoMap.keys, deref_invalid u l hv] at h3
          simp at h3
        have h4 := GoMap.mem_keys_of_get? _ _ _ (hw.indexed l e.1 hv h3)
        exact hi.disjoint e.1 h4 hkey
    · intro c hc
      have hc1 : c ∈ u.closed ++ [fwd] := hc
      rcases List.mem_append.1 hc1 with h1 | h1
      · exact hw.closedIssued c h1
      · rw [List.mem_singleton] at h1
        subst h1
        rw [hid]
        exact hi.fwdIssued e.1 hkey
    · intro x id hx hdrops
      have hx1 : x ∈ u.queue ++ [Task.cont k] := hx
      rcases List.mem_append.1 hx1 with h1 | h1
      · exact hw.pending x id h1 hdrops
      · rw [List.mem_singleton] at h1
        subst h1
        rw [hk] at hdrops
        cases hdrops

theorem GoMap.mem_of_idx {κ α : Type} [DecidableEq κ] (m : GoMap κ (Option α)) (x : κ)
    (v : α) (h : GoMap.idx m x = some v) : (x, some v) ∈ m := by
  unfold GoMap.idx at h
  cases hg : GoMap.get? m x with
  | none => simp [hg] at h
  | some w =>
    simp only [hg] at h
    subst h
    exact GoMap.mem_of_get? _ _ _ hg

theorem Close_wf (id : Nat) (u t : State) (hw : WF u) (hi : Inv u)
    (h : Close id u = some t) : WF t := by
  unfold Close at h
  have key : ∀ s1, WF s1 → Inv s1 →
      (match s1.forwarders.idx id with
        | some fwd => connection.close (some fwd) (Cont.delForwarder id) s1
        | none => some s1) = some t → WF t := by
    intro s1 hw1 hi1 h2
    cases hf : s1.forwarders.idx id with
    | none =>
      simp only [hf] at h2
      injection h2 with h2
      subst h2
      exact hw1
    | some fwd =>
      simp only [hf] at h2
      exact (close_forwarder_wf (Cont.delForwarder id) rfl s1 t (id, some fwd) fwd hw1 hi1
        (GoMap.mem_of_idx _ _ _ hf) rfl h2).1
  cases hl : u.listenerConnections.get? id with
  | none =>
    simp only [hl] at h
    exact key u hw hi h
  | some l =>
    simp only [hl] at h
    cases hg : (u.deref l).connections.get? id with
    | none =>
      have hnone : removeConnection l id false u = none := by
        unfold removeConnection
        simp only [Bool.false_eq_true, if_false, hg]
        rfl
      rw [hnone] at h
      cases h
    | some c =>
      have hv : l < u.heap.length := by
        by_contra hv
        have h1 := deref_invalid u l hv
        rw [h1] at hg
        cases hg
      obtain ⟨t1, h1, hw1, hi1, _⟩ := removeConnection_wf l id false u c hw hi hv hg
      rw [h1] at h
      exact key t1 hw1 hi1 h

theorem closeForwarders_wf (cons : List (Option libp2pConnection)) (u t : State)
    (hw : WF u) (hi : Inv u) (hsub : ∀ v, v ∈ cons → v ∈ u.forwarders.vals)
    (h : closeForwarders cons u = some t) : WF t := by
  induction cons generalizing u with
  | nil =>
    simp only [closeForwarders] at h
    injection h with h
    subst h
    exact hw
  | cons v cons ih =>
    unfold closeForwarders at h
    cases v with
    | none =>
      have : connection.close none Cont.nop u = none := rfl
      rw [this] at h
      cases h
    | some c =>
      cases hc : connection.close (some c) Cont.nop u with
      | none => simp [hc] at h
      | some u1 =>
        simp only [hc] at h
        obtain ⟨e, he, hval⟩ := List.mem_map.1 (hsub (some c) (List.mem_cons_self _ _))
        obtain ⟨hw1, hi1, hf1⟩ := close_forwarder_wf Cont.nop rfl u u1 e c hw hi he hval hc
        refine ih u1 hw1 hi1 ?_ h
        intro v hv
        rw [hf1]
        exact hsub v (List.mem_cons_of_mem _ hv)

theorem closeListeners_wf (ks : List String) (u t : State) (hw : WF u) (hi : Inv u)
    (h : closeListeners ks u = some t) : WF t ∧ Inv t := by
  induction ks generalizing u with
  | nil =>
    simp only [closeListeners] at h
    injection h with h
    subst h
    exact ⟨hw, hi⟩
  | cons k ks ih =>
    unfold closeListeners at h
    cases hg : u.listeners.get? k with
    | none =>
      simp only [hg] at h
      exact ih u hw hi h
    | some l =>
      simp only [hg] at h
      obtain ⟨t1, h1, hw1, hi1, _⟩ := listener_close_wf l false u hw hi (hw.listed k l hg).1
      rw [h1] at h
      exact ih t1 hw1 hi1 h

theorem closeSessionClosure_wf (u t : State) (hw : WF u) (hi : Inv u)
    (h : closeSessionClosure u = some t) : WF t := by
  unfold closeSessionClosure at h
  cases h1 : closeListeners u.listeners.keys u with
  | none => simp [h1] at h
  | some s1 =>
    simp only [h1] at h
    obtain ⟨hw1, hi1⟩ := closeListeners_wf _ u s1 hw hi h1
    cases h2 : closeForwarders s1.forwarders.vals s1 with
    | none => simp [h2] at h
    | some s2 =>
      simp only [h2] at h
      have hw2 := closeForwarders_wf _ s1 s2 hw1 hi1 (fun _ hv => hv) h2
      injection h with h
      subst h
      split
      · exact hw2.of_frame rfl rfl rfl rfl rfl rfl (fun _ hx => Or.inl hx)
      · exact hw2.of_frame rfl rfl rfl rfl rfl rfl (fun _ hx => Or.inl hx)

theorem GoMap.mem_of_mem_set {κ α : Type} [DecidableEq κ] (m : GoMap κ α) (x : κ) (v : α)
    (e : κ × α) (h : e ∈ GoMap.set m x v) : (e ∈ m ∧ e.1 ≠ x) ∨ e = (x, v) := by
  unfold GoMap.set at h
  rcases List.mem_append.1 h with h1 | h1
  · exact Or.inl (GoMap.mem_of_mem_del m x e h1)
  · exact Or.inr (List.mem_singleton.1 h1)

theorem GoMap.nodup_keys_set {κ α : Type} [DecidableEq κ] (m : GoMap κ α) (x : κ) (v : α)
    (h : m.keys.Nodup) : (GoMap.set m x v).keys.Nodup := by
  have h1 : (GoMap.set m x v).keys = (GoMap.del m x).keys ++ [x] := by
    unfold GoMap.set GoMap.keys
    rw [List.map_append]
    rfl
  rw [h1, List.nodup_append]
  refine ⟨GoMap.nodup_keys_del m x h, List.nodup_singleton x, ?_⟩
  intro a ha hb
  rw [List.mem_singleton] at hb
  subst hb
  exact ((GoMap.mem_keys_del m a a).1 ha).2 rfl

theorem acceptClosure_wf (lis : Nat) (prot : String) (stream : Stream) (frames : Bool)
    (u : State) (hw : WF u) (hi : Inv u) (hfresh : u.nextID ∉ u.issued) :
    WF (acceptClosure lis prot stream frames u) := by
  have hn : ∀ l1, u.nextID ∉ (u.deref l1).connections.keys := by
    intro l1 hin
    obtain ⟨l0, hl0, hid0⟩ := deref_keys u l1 _ hin
    exact hfresh (hi.heapIssued l0 hl0 _ hid0)
  have hd : ∀ l1, (acceptClosure lis prot stream frames u).deref l1 =
      if l1 = lis ∧ lis < u.heap.length then
        { u.deref lis with
          connections := (u.deref lis).connections.set u.nextID
            { id := u.nextID, protocol := prot, frames := frames, stream := stream,
              peerID := stream.remotePeer } }
      else u.deref l1 := by
    intro l1
    exact deref_store (createConnection u.nextID prot stream frames (newConnectionID u).2).2
      lis l1 _
  have hlen : (acceptClosure lis prot stream frames u).heap.length = u.heap.length := by
    show (u.heap.set lis _).length = _
    rw [List.length_set]
  have hprot : ∀ l1, ((acceptClosure lis prot stream frames u).deref l1).protocol =
      (u.deref l1).protocol := by
    intro l1
    rw [hd]
    split
    · rename_i h
      rw [h.1]
    · rfl
  have hmem : ∀ l1 e, e ∈ ((acceptClosure lis prot stream frames u).deref l1).connections →
      e ∈ (u.deref l1).connections ∨
        (l1 = lis ∧ e = (u.nextID,
          ({ id := u.nextID, protocol := prot, frames := frames, stream := stream,
             peerID := stream.remotePeer } : libp2pConnection))) := by
    intro l1 e he
    rw [hd] at he
    split at he
    · rename_i h
      rcases GoMap.mem_of_mem_set _ _ _ _ he with h1 | h1
      · rw [h.1]
        exact Or.inl h1.1
      · exact Or.inr ⟨h.1, h1⟩
    · exact Or.inl he
  have hlc : (acceptClosure lis prot stream frames u).listenerConnections =
      u.listenerConnections.set u.nextID lis := rfl
  have hiss : (acceptClosure lis prot stream frames u).issued = u.issued ++ [u.nextID] := rfl
  refine ⟨?_, ?_, ?_, ?_, ?_, hw.fwdKeyed, ?_, ?_⟩
  · intro k l2 hk
    rw [hlen, hprot]
    exact hw.listed k l2 hk
  · intro l1
    rw [hd]
    split
    · exact GoMap.nodup_keys_set _ _ _ (hw.nodup lis)
    · exact hw.nodup l1
  · intro l1 e he
    rcases hmem l1 e he with h1 | ⟨_, h1⟩
    · exact hw.keyed l1 e h1
    · rw [h1]
  · intro l1 c hc hcl
    obtain ⟨e, he, hsnd⟩ := List.mem_map.1 hc
    have hcl0 : c ∈ u.closed := hcl
    rcases hmem l1 e he with h1 | ⟨_, h1⟩
    · exact hw.live l1 c (by rw [← hsnd]; exact GoMap.mem_vals_of_mem _ e h1) hcl0
    · rw [h1] at hsnd
      have h2 := hw.closedIssued c hcl0
      rw [← hsnd] at h2
      exact hfresh h2
  · intro l1 x hv1 hx
    rw [hlen] at hv1
    obtain ⟨e, he, hfst⟩ := List.mem_map.1 hx
    rw [hlc]
    rcases hmem l1 e he with h1 | ⟨h1, h2⟩
    · have hx1 : x ∈ (u.deref l1).connections.keys := by
        rw [← hfst]
        exact GoMap.mem_keys_of_mem _ e h1
      have hne : x ≠ u.nextID := fun h => hn l1 (h ▸ hx1)
      rw [GoMap.get?_set_ne _ _ _ _ hne]
      exact hw.indexed l1 x hv1 hx1
    · rw [h2] at hfst
      rw [← hfst, h1]
      exact GoMap.get?_set_self _ _ _
  · intro c hc
    rw [hiss]
    exact List.mem_append_left _ (hw.closedIssued c hc)
  · intro x id hx hdrops
    obtain ⟨h2, h3⟩ := hw.pending x id hx hdrops
    rw [hiss]
    refine ⟨List.mem_append_left _ h2, ?_⟩
    intro l1 hin
    obtain ⟨e, he, hfst⟩ := List.mem_map.1 hin
    rcases hmem l1 e he with h1 | ⟨_, h1⟩
    · exact h3 l1 (by rw [← hfst]; exact GoMap.mem_keys_of_mem _ e h1)
    · rw [h1] at hfst
      have hfst1 : u.nextID = id := hfst
      rw [← hfst1] at h2
      exact hfresh h2

theorem newConnectionClosure_wf (prot peer : String) (stream : Stream) (frames : Bool)
    (u : State) (hw : WF u) :
    WF (newConnectionClosure prot peer stream frames u) := by
  refine hw.congr rfl rfl rfl hw.indexed ?_ (fun id h => List.mem_append_left _ h)
    (fun _ hx => Or.inl hx)
  intro e c he hval
  have he1 : e ∈ GoMap.set u.forwarders u.nextID
      (some { id := u.nextID, protocol := prot, frames := frames, stream := stream,
              peerID := stream.remotePeer }) := he
  rcases GoMap.mem_of_mem_set _ _ _ _ he1 with h1 | h1
  · exact hw.fwdKeyed e c h1.1 hval
  · rw [h1] at hval ⊢
    injection hval with hval
    rw [← hval]

theorem retainClosure_wf (l id : Nat) (u : State) (hw : WF u)
    (hgone : ∀ l1, id ∉ (u.deref l1).connections.keys) : WF (retainClosure l id u) := by
  refine hw.congr rfl rfl rfl ?_ ?_ (fun _ h => h) (fun _ hx => Or.inl hx)
  · intro l1 x hv hx
    have hne : x ≠ id := fun h => hgone l1 (h ▸ hx)
    show GoMap.get? (GoMap.del u.listenerConnections id) x = some l1
    rw [GoMap.get?_del_ne _ _ _ hne]
    exact hw.indexed l1 x hv hx
  · intro e c he hval
    have he1 : e ∈ GoMap.set u.forwarders id ((u.deref l).connections.get? id) := he
    rcases GoMap.mem_of_mem_set _ _ _ _ he1 with h1 | h1
    · exact hw.fwdKeyed e c h1.1 hval
    · rw [h1] at hval ⊢
      exact hw.keyed l (id, c) (GoMap.mem_of_get? _ _ _ hval)

theorem unlist_wf (id : Nat) (u : State) (hw : WF u)
    (hgone : ∀ l1, id ∉ (u.deref l1).connections.keys) :
    WF { u with listenerConnections := u.listenerConnections.del id } := by
  refine hw.congr rfl rfl rfl ?_ hw.fwdKeyed (fun _ h => h) (fun _ hx => Or.inl hx)
  intro l1 x hv hx
  have hne : x ≠ id := fun h => hgone l1 (h ▸ hx)
  show GoMap.get? (GoMap.del u.listenerConnections id) x = some l1
  rw [GoMap.get?_del_ne _ _ _ hne]
  exact hw.indexed l1 x hv hx

theorem runCont_wf (k : Cont) (u : State) (hw : WF u)
    (hgone : ∀ id, (Task.cont k).drops = some id →
      id ∈ u.issued ∧ ∀ l1, id ∉ (u.deref l1).connections.keys) :
    WF (runCont k u) := by
  cases k with
  | unlistLater id =>
    obtain ⟨h1, h2⟩ := hgone id rfl
    refine ⟨hw.listed, hw.nodup, hw.keyed, hw.live, hw.indexed, hw.fwdKeyed,
      hw.closedIssued, ?_⟩
    intro x id1 hx hdrops
    have hx1 : x ∈ u.queue ++ [Task.unlist id] := hx
    rcases List.mem_append.1 hx1 with h3 | h3
    · exact hw.pending x id1 h3 hdrops
    · rw [List.mem_singleton] at h3
      subst h3
      injection hdrops with hdrops
      subst hdrops
      exact ⟨h1, h2⟩
  | delForwarder id =>
    refine hw.congr rfl rfl rfl hw.indexed ?_ (fun _ h => h) (fun _ hx => Or.inl hx)
    intro e c he hval
    exact hw.fwdKeyed e c (GoMap.mem_of_mem_del _ _ _ he).1 hval
  | nop => exact hw

theorem deref_createListener (prot : String) (frames : Bool) (u : State) (l1 : Nat) :
    (createListener prot frames u).2.deref l1 =
      if l1 = u.heap.length then
        { connections := [], protocol := prot, frames := frames, closed := false }
      else u.deref l1 := by
  unfold createListener State.deref
  simp only [List.getD_eq_getElem?_getD]
  by_cases h1 : l1 < u.heap.length
  · rw [List.getElem?_append_left h1, if_neg (Nat.ne_of_lt h1)]
  · by_cases h2 : l1 = u.heap.length
    · subst h2
      simp
    · have h3 : u.heap.length < l1 := by omega
      rw [if_neg h2, List.getElem?_eq_none (by simp; omega),
        List.getElem?_eq_none (Nat.le_of_lt h3)]

theorem createListener_wf (prot : String) (frames : Bool) (u : State) (hw : WF u) :
    WF (createListener prot frames u).2 := by
  have hd := deref_createListener prot frames u
  have hconn : ∀ l1, ((createListener prot frames u).2.deref l1).connections =
      (u.deref l1).connections := by
    intro l1
    rw [hd]
    split
    · rename_i h
      have hinv : ¬ l1 < u.heap.length := by omega
      rw [deref_invalid u l1 hinv]
    · rfl
  have hlen : (createListener prot frames u).2.heap.length = u.heap.length + 1 := by
    simp [createListener]
  refine ⟨?_, ?_, ?_, ?_, ?_, hw.fwdKeyed, hw.closedIssued, ?_⟩
  · intro k l2 hk
    have hk1 : GoMap.get? (GoMap.set u.listeners prot u.heap.length) k = some l2 := hk
    rw [hlen, hd]
    by_cases hkp : k = prot
    · subst hkp
      rw [GoMap.get?_set_self] at hk1
      injection hk1 with hk1
      subst hk1
      simp
    · rw [GoMap.get?_set_ne _ _ _ _ hkp] at hk1
      have h1 := hw.listed k l2 hk1
      rw [if_neg (Nat.ne_of_lt h1.1)]
      exact ⟨Nat.lt_succ_of_lt h1.1, h1.2⟩
  · intro l1
    rw [hconn]
    exact hw.nodup l1
  · intro l1 e he
    rw [hconn] at he
    exact hw.keyed l1 e he
  · intro l1 c hc
    rw [hconn] at hc
    exact hw.live l1 c hc
  · intro l1 x hv1 hx
    rw [hconn] at hx
    have hv : l1 < u.heap.length := by
      by_contra hv
      rw [GoMap.keys, deref_invalid u l1 hv] at hx
      simp at hx
    exact hw.indexed l1 x hv hx
  · intro x id hx hdrops
    obtain ⟨h2, h3⟩ := hw.pending x id hx hdrops
    refine ⟨h2, ?_⟩
    intro l1
    rw [hconn]
    exact h3 l1

theorem Listen_wf (prot : String) (frames : Bool) (u : State) (hw : WF u) :
    WF (Listen prot frames u) := by
  have h1 := createListener_wf prot frames u hw
  unfold Listen
  dsimp only
  split
  · exact h1.of_frame rfl rfl rfl rfl rfl rfl (fun _ hx => Or.inl hx)
  · exact h1.of_frame rfl rfl rfl rfl rfl rfl (fun _ hx => Or.inl hx)

theorem mem_snoc_drops (q : List Task) (t : Task) (ht : t.drops = none) (x : Task)
    (hx : x ∈ q ++ [t]) : x ∈ q ∨ x.drops = none := by
  rcases List.mem_append.1 hx with h | h
  · exact Or.inl h
  · rw [List.mem_singleton] at h
    subst h
    exact Or.inr ht

theorem Connect_wf (env : Env) (prot peerid : String) (frames relay : Bool) (u : State)
    (hw : WF u) : WF (Connect env prot peerid frames relay u) := by
  unfold Connect
  split
  · exact hw.of_frame rfl rfl rfl rfl rfl rfl (fun _ hx => Or.inl hx)
  · split
    · exact hw.of_frame rfl rfl rfl rfl rfl rfl (fun _ hx => Or.inl hx)
    · split
      · exact hw.of_frame rfl rfl rfl rfl rfl rfl (fun _ hx => Or.inl hx)
      · dsimp only
        split
        · exact hw.of_frame rfl rfl rfl rfl rfl rfl (fun _ hx => Or.inl hx)
        · split
          · exact hw.of_frame rfl rfl rfl rfl rfl rfl (fun _ hx => Or.inl hx)
          · split
            · exact hw.of_frame rfl rfl rfl rfl rfl rfl (fun _ hx => Or.inl hx)
            · exact hw.of_frame rfl rfl rfl rfl rfl rfl (mem_snoc_drops _ _ rfl)

theorem runTask_wf (t : Task) (u u1 : State) (hw : WF u) (hi : Inv u)
    (hfresh : t.allocates = true → u.nextID ∉ u.issued)
    (hpend : ∀ id, t.drops = some id →
      id ∈ u.issued ∧ ∀ l1, id ∉ (u.deref l1).connections.keys)
    (h : runTask t u = some u1) : WF u1 := by
  cases t with
  | accept lis prot stream frames =>
    simp only [runTask] at h
    injection h with h
    subst h
    exact acceptClosure_wf _ _ _ _ u hw hi (hfresh rfl)
  | retain l id =>
    simp only [runTask] at h
    injection h with h
    subst h
    exact retainClosure_wf l id u hw (hpend id rfl).2
  | cont k =>
    simp only [runTask] at h
    injection h with h
    subst h
    exact runCont_wf k u hw hpend
  | unlist id =>
    simp only [runTask] at h
    injection h with h
    subst h
    exact unlist_wf id u hw (hpend id rfl).2
  | newConnection prot peer stream frames =>
    simp only [runTask] at h
    injection h with h
    subst h
    exact newConnectionClosure_wf _ _ _ _ u hw
  | closeSession =>
    simp only [runTask] at h
    exact closeSessionClosure_wf u u1 hw hi h

theorem Step.preserves_wf {s s1 : State} (hw : WF s) (hi : Inv s) (h : Step s s1) : WF s1 := by
  cases h with
  | listen prot frames => exact Listen_wf _ _ s hw
  | inbound prot stream =>
    unfold inboundStream
    split
    · exact hw.of_frame rfl rfl rfl rfl rfl rfl (mem_snoc_drops _ _ rfl)
    · exact hw
  | stop protocol retainConnections _ _ h => exact Stop_wf _ _ _ _ hw hi h
  | close id _ _ h => exact Close_wf _ _ _ hw hi h
  | data id bytes =>
    unfold Data
    cases findConnection s id with
    | none => exact hw.of_frame rfl rfl rfl rfl rfl rfl (fun _ hx => Or.inl hx)
    | some con => exact hw.of_frame rfl rfl rfl rfl rfl rfl (fun _ hx => Or.inl hx)
  | connect env prot peerid frames relay => exact Connect_wf _ _ _ _ _ s hw
  | closeClient =>
    unfold CloseClient
    split
    · exact hw.of_frame rfl rfl rfl rfl rfl rfl (mem_snoc_drops _ _ rfl)
    · exact hw.of_frame rfl rfl rfl rfl rfl rfl (mem_snoc_drops _ _ rfl)
  | startClient callback => exact hw.of_frame rfl rfl rfl rfl rfl rfl (fun _ hx => Or.inl hx)
  | natStatus status =>
    rw [setNATStatus_eq]
    exact hw.of_frame rfl rfl rfl rfl rfl rfl (fun _ hx => Or.inl hx)
  | run t before after _ _ hq hfresh h =>
    have hmemq : ∀ x, x ∈ before ++ after → x ∈ s.queue := by
      intro x hx
      rw [hq]
      rcases List.mem_append.1 hx with h1 | h1
      · exact List.mem_append_left _ h1
      · exact List.mem_append_right _ (List.mem_cons_of_mem _ h1)
    have hw0 : WF { s with queue := before ++ after } :=
      hw.of_frame rfl rfl rfl rfl rfl rfl (fun x hx => Or.inl (hmemq x hx))
    have hi0 : Inv { s with queue := before ++ after } :=
      hi.of_shrink (Shrink.frame rfl rfl rfl rfl (fun l id hm => hmemq _ hm))
    have ht : t ∈ s.queue := by
      rw [hq]
      simp
    exact runTask_wf t _ _ hw0 hi0 hfresh (fun id hd => hw.pending t id ht hd) h
  | runRelay t before after _ hq =>
    cases t with
    | whenNat f =>
      simp only [runRelayTask, whenNatKnownClosure]
      split
      · rw [runAction_effect]
        exact hw.of_frame rfl rfl rfl rfl rfl rfl (fun _ hx => Or.inl hx)
      · exact hw.of_frame rfl rfl rfl rfl rfl rfl (fun _ hx => Or.inl hx)
    | connected peer con => exact hw.of_frame rfl rfl rfl rfl rfl rfl (fun _ hx => Or.inl hx)

theorem Reachable.holds_wf {s : State} (h : Reachable s) : WF s := by
  induction h with
  | create firstID status foreign hasNat =>
    have hd : ∀ l, ((CreateClient firstID status foreign hasNat).deref l).connections = [] :=
      fun l => deref_invalid _ l (by simp [CreateClient])
    refine ⟨?_, ?_, ?_, ?_, ?_, ?_, ?_, ?_⟩
    · intro k l hk
      simp [CreateClient, GoMap.get?] at hk
    · intro l
      rw [hd]
      exact List.nodup_nil
    · intro l e he
      rw [hd] at he
      simp at he
    · intro l c hc
      rw [GoMap.vals, hd] at hc
      simp at hc
    · intro l id hv
      simp [CreateClient] at hv
    · intro e c he
      simp [CreateClient] at he
    · intro c hc
      simp [CreateClient] at hc
    · intro t id ht
      simp [CreateClient] at ht
  | step s s1 hs hstep ih => exact hstep.preserves_wf ih hs.holds_inv

/-! ## The claims on reachable sessions (C11, C15, C20) -/

/-- In every reachable session with a listener `l` at `c.listeners[p]`,
`Stop(c, p, false)` returns, and once the closures it posted (and those they post) have
run, on their own, the connections `l` owned are closed and gone from `l.connections`,
`c.listenerConnections` and `c.forwarders`, one listener-closed for `p` was emitted, the
overlay handler was removed, `p` is not a key of `c.listeners`, and `l.closed` is true.
Closures that were pending before the `Stop` are left where they are. -/
theorem Stop_false_reachable (s : State) (p : String) (l : Nat)
    (hr : Reachable s) (hl : s.listeners.get? p = some l) :
    ∃ s1 s2, Stop p false s = some s1 ∧
      settle s.queue.length (2 * (s.deref l).connections.keys.length) s1 = some s2 ∧
      s2.queue = s.queue ∧
      (∀ c, c ∈ (s.deref l).connections.vals →
        Event.closeStream c ∈ s2.trace ∧ c ∈ s2.closed) ∧
      (s2.deref l).connections = [] ∧
      (∀ id, id ∈ (s.deref l).connections.keys →
        id ∉ s2.listenerConnections.keys ∧ id ∉ s2.forwarders.keys) ∧
      emitted s2.trace = emitted s.trace ++ [Msg.listenerClosed p] ∧
      p ∉ s2.handlers.keys ∧
      Event.removeStreamHandler p ∈ s2.trace ∧
      p ∉ s2.listeners.keys ∧
      (s2.deref l).closed = true := by
  have hw := hr.holds_wf
  have hi := hr.holds_inv
  have h1 := hw.listed p l hl
  apply Stop_false_settles s p l hl h1.1 h1.2 (hw.nodup l) (hw.keyed l) (hw.live l)
  intro id hid
  have h2 := hw.indexed l id h1.1 hid
  exact hi.disjoint id (GoMap.mem_keys_of_get? _ _ _ h2)

theorem demoAcceptedPending_reachable : Reachable demoAcceptedPending :=
  Reachable.step _ _ demoAccepted_reachable (Step.inbound _ _ _)

/-- C11, evaluated on the code: in a reachable session the listener on `p` owns
connection 1 and the closure of the stream handler for a second inbound stream is
pending. `Stop(c, "p", false)` returns; it has closed connection 1, emptied
`l.connections`, set `l.closed` and posted its continuation behind the pending closure.
The client's loop then runs the queue, oldest first, to the end: the pending closure
stores connection 2 in the closed listener and in `c.listenerConnections`. After the
closures `Stop` posted have run, `l.connections` is not empty. -/
theorem C11_pending_accept_survives_stop :
    Reachable demoAcceptedPending ∧
    demoAcceptedPending.listeners.get? "p" = some 0 ∧
    (demoAcceptedPending.deref 0).connections.keys = [1] ∧
    demoAcceptedPending.queue = [Task.accept 0 "p" demoSecondStream true] ∧
    (Stop "p" false demoAcceptedPending).map
        (fun s1 => (s1.queue, (s1.deref 0).connections.keys, (s1.deref 0).closed, s1.closed)) =
      some ([Task.accept 0 "p" demoSecondStream true, Task.cont (Cont.unlistLater 1)],
        [], true, [demoConnection]) ∧
    ((Stop "p" false demoAcceptedPending).bind (settle 0 3)).map
        (fun s2 => (s2.queue, (s2.deref 0).closed, (s2.deref 0).connections.keys,
          s2.listenerConnections.keys, s2.listeners.keys)) =
      some ([], true, [2], [2], []) ∧
    ((Stop "p" false demoAcceptedPending).bind (settle 0 3)).map
        (fun s2 => s2.listenerConnections.get? 2) = some (some 0) ∧
    ((Stop "p" false demoAcceptedPending).bind (settle 0 3)).map
        (fun s2 => emitted s2.trace) =
      some (emitted demoAccepted.trace ++
        [Msg.listenerClosed "p", Msg.listenerConnection "2" "QmOther" "p"]) :=
  ⟨demoAcceptedPending_reachable, by decide, by decide, by decide, by decide, by decide,
    by decide, by decide⟩

/-- C15: in every reachable session, a successful `Connect` (it posted its closure) whose
closure ran and yielded the id `n` that `newConnectionID` had not issued before, followed
by `Close(c, n)` and the run of the continuation it posted, leaves `listeners`,
`listenerConnections`, `forwarders` and the listeners themselves as they were before the
`Connect`. The only message emitted is the peer-connection. -/
theorem C15_connect_close_restores_maps (env : Env) (prot peerid peer : String)
    (frames : Bool) (stream : Stream) (s : State) (hr : Reachable s)
    (hfresh : s.nextID ∉ s.issued)
    (hsucc : (Connect env prot peerid frames false s).queue =
      s.queue ++ [Task.newConnection prot peer stream frames]) :
    ∃ s1 s2 s3,
      settle s.queue.length 1 (Connect env prot peerid frames false s) = some s1 ∧
      s1.forwarders.idx s.nextID =
        some { id := s.nextID, protocol := prot, frames := frames, stream := stream,
               peerID := stream.remotePeer } ∧
      Close s.nextID s1 = some s2 ∧
      settle s.queue.length 1 s2 = some s3 ∧
      s3.listeners = s.listeners ∧
      s3.listenerConnections = s.listenerConnections ∧
      s3.forwarders = s.forwarders ∧
      s3.heap = s.heap ∧
      s3.queue = s.queue ∧
      emitted s3.trace = emitted s.trace ++ [Msg.peerConnection (Nat.repr s.nextID) peer prot] := by
  have hw := hr.holds_wf
  have hi := hr.holds_inv
  apply Connect_Close_restores env prot peerid peer frames stream s hsucc
  · exact fun h => hfresh (hi.lcIssued _ h)
  · exact fun h => hfresh (hi.fwdIssued _ h)
  · intro con hc hid
    apply hfresh
    rw [← hid]
    exact hw.closedIssued con hc

/-- C15 with `demoEnv` on a new session: connect, close of connection 1 and the run of
the posted closures leave `forwarders` empty again. -/
theorem C15_connect_close_restores_maps_witness :
    ∃ s1 s2 s3,
      settle 0 1 (Connect demoEnv "p" "QmRemote" true false
        (CreateClient 1 Reachability.Public [] true)) = some s1 ∧
      Close 1 s1 = some s2 ∧ settle 0 1 s2 = some s3 ∧ s3.forwarders = [] := by
  obtain ⟨s1, s2, s3, h1, _, h2, h3, _, _, h4, _⟩ :=
    C15_connect_close_restores_maps demoEnv "p" "QmRemote" "QmRemote" true demoOutStream
      (CreateClient 1 Reachability.Public [] true) (Reachable.create _ _ _ _)
      (by decide) (by decide)
  exact ⟨s1, s2, s3, h1, h2, h3, h4⟩

/-- C20, amended: in every reachable session whose `c.forwarders` holds no nil, the
closure posted by the session's `Close` returns; it has called `close(false)` on every
listener of `c.listeners` (each is closed and `c.listeners` is empty) and `close` on every
connection of `c.forwarders`, then closed the control channel when it was set and set
`c.control` to nil. `c.forwarders` itself is left as it was: it still holds the
connections, now closed. -/
theorem C20_session_close (s : State) (hr : Reachable s)
    (hnil : ∀ v, v ∈ s.forwarders.vals → v ≠ none) :
    (CloseClient s).queue = s.queue ++ [Task.closeSession] ∧
    ∃ t, runTask Task.closeSession s = some t ∧
      t.listeners = [] ∧
      (∀ k l, s.listeners.get? k = some l → (t.deref l).closed = true) ∧
      t.forwarders = s.forwarders ∧
      (∀ c, some c ∈ s.forwarders.vals → c ∈ t.closed) ∧
      t.control = false ∧
      ∃ tr, t.trace =
        tr ++ (if s.control then [Event.controlClose] else []) ++ [Event.clientClose] := by
  have hw := hr.holds_wf
  obtain ⟨h1, t, h2, h3, h4, h5, h6, h7, h8⟩ :=
    closeSession_spec s (fun k l hk => (hw.listed k l hk).2) hnil
  exact ⟨h1, t, h2, h3, fun k l hk => h4 k l hk (hw.listed k l hk).1, h5, h6, h7, h8⟩

/-- C20 amended, on a session with a listener owning connection 1 and on a session with
a forwarder: the session close empties `c.listeners`, keeps `c.forwarders`, and drops the
control channel. -/
theorem C20_session_close_witness :
    (∃ t, runTask Task.closeSession demoAccepted = some t ∧ t.listeners = [] ∧
        (t.deref 0).closed = true ∧ t.control = false) ∧
      (∃ t, runTask Task.closeSession demoForwarder = some t ∧
        t.forwarders = [(1, some demoOutConnection)] ∧ demoOutConnection ∈ t.closed) := by
  constructor
  · obtain ⟨t, h1, h2, h3, _, _, h4, _⟩ :=
      (C20_session_close demoAccepted demoAccepted_reachable (by decide)).2
    exact ⟨t, h1, h2, h3 "p" 0 (by decide), h4⟩
  · obtain ⟨t, h1, _, _, h2, h3, _⟩ :=
      (C20_session_close demoForwarder demoForwarder_reachable (by decide)).2
    exact ⟨t, h1, h2, h3 demoOutConnection (by decide)⟩

/-! ## The init callback of `StartClient` (C25) -/

/-- C25: `StartClient` calls nothing itself, it posts the closure of `whenNatKnown`. Run
while the status is Unknown, the closure does not call `init` and defers it; the NAT
monitor observing Unknown leaves it deferred; when the status becomes known (the monitor
observes Public or Private, or `setNATStatus` is called with it), `init` is called
exactly once, after the actions deferred before it, with `public = true` for Public and
`public = false` for Private, and `natActions` is emptied, so that a later
`setNATStatus` calls nothing. Run while the status is known, the closure calls `init`
exactly once with the flag of the status and defers nothing. -/
theorem C25_init_callback (callback : Nat) (s : State) :
    (StartClient callback s).trace = s.trace ∧
    (StartClient callback s).natActions = s.natActions ∧
    (StartClient callback s).relayQueue =
      s.relayQueue ++ [RelayTask.whenNat (Action.startClient callback)] ∧
    (s.natStatus = Reachability.Unknown →
      runRelayTask (RelayTask.whenNat (Action.startClient callback)) s =
        { s with natActions := s.natActions ++ [Action.startClient callback] } ∧
      (∀ peeped, natMonitorClosure Reachability.Unknown peeped
          { s with natActions := s.natActions ++ [Action.startClient callback] } =
        { s with natActions := s.natActions ++ [Action.startClient callback] }) ∧
      ∀ status, status ≠ Reachability.Unknown →
        setNATStatus status
            { s with natActions := s.natActions ++ [Action.startClient callback] } =
          { s with
            natStatus := status,
            natActions := [],
            trace := s.trace ++ s.natActions.map (actionEvent status s.hasNat) ++
              [Event.initCalled callback (decide (status = Reachability.Public)) s.hasNat] } ∧
        (∀ peeped, natMonitorClosure status peeped
            { s with natActions := s.natActions ++ [Action.startClient callback] } =
          setNATStatus status
            { s with natActions := s.natActions ++ [Action.startClient callback] }) ∧
        ∀ later, (setNATStatus later (setNATStatus status
            { s with natActions := s.natActions ++ [Action.startClient callback] })).trace =
          (setNATStatus status
            { s with natActions := s.natActions ++ [Action.startClient callback] }).trace) ∧
    (s.natStatus ≠ Reachability.Unknown →
      runRelayTask (RelayTask.whenNat (Action.startClient callback)) s =
        { s with trace := s.trace ++
          [Event.initCalled callback (decide (s.natStatus = Reachability.Public)) s.hasNat] }) := by
  refine ⟨rfl, rfl, rfl, ?_, ?_⟩
  · intro hU
    refine ⟨?_, ?_, ?_⟩
    · simp [runRelayTask, whenNatKnownClosure, hU]
    · intro peeped
      simp [natMonitorClosure]
    · intro status hk
      refine ⟨?_, ?_, ?_⟩
      · rw [setNATStatus_eq]
        cases status with
        | Unknown => exact absurd rfl hk
        | Public => simp [actionEvent]
        | Private => simp [actionEvent]
      · intro peeped
        have hne : status ≠ s.natStatus := by
          rw [hU]
          exact hk
        simp [natMonitorClosure, hne, hk]
      · intro later
        rw [setNATStatus_eq later, setNATStatus_eq status]
        simp
  · intro hk
    have h1 : runRelayTask (RelayTask.whenNat (Action.startClient callback)) s =
        runAction (Action.startClient callback) s := by
      simp [runRelayTask, whenNatKnownClosure, hk]
    rw [h1, runAction_effect]
    cases hs : s.natStatus with
    | Unknown => exact absurd hs hk
    | Public => simp [actionEvent]
    | Private => simp [actionEvent]

/-- C25 on a new session whose status is Unknown: the closure defers the callback, and
the monitor observing Private calls it once with `public = false`; on a session whose
status is Public the closure calls it at once with `public = true`. -/
theorem C25_init_callback_witness :
    (runRelayTask (RelayTask.whenNat (Action.startClient 0))
        (CreateClient 1 Reachability.Unknown [] true)).trace = [] ∧
      (natMonitorClosure Reachability.Private true
        { CreateClient 1 Reachability.Unknown [] true with
          natActions := [Action.startClient 0] }).trace = [Event.initCalled 0 false true] ∧
      (runRelayTask (RelayTask.whenNat (Action.startClient 0))
        (CreateClient 1 Reachability.Public [] true)).trace =
          [Event.initCalled 0 true true] := by
  have h := C25_init_callback 0 (CreateClient 1 Reachability.Unknown [] true)
  have hU := h.2.2.2.1 rfl
  have hP := (C25_init_callback 0 (CreateClient 1 Reachability.Public [] true)).2.2.2.2
    (by decide)
  refine ⟨?_, ?_, ?_⟩
  · rw [hU.1]
    rfl
  · have h2 := (hU.2.2 Reachability.Private (by decide)).2.1 true
    have h3 := (hU.2.2 Reachability.Private (by decide)).1
    have h4 : ({ CreateClient 1 Reachability.Unknown [] true with
        natActions := [Action.startClient 0] } : State) =
        { CreateClient 1 Reachability.Unknown [] true with
          natActions := (CreateClient 1 Reachability.Unknown [] true).natActions ++
            [Action.startClient 0] } := rfl
    rw [h4, h2, h3]
    rfl
  · rw [hP]
    rfl

/-! ## Discovery tags (C21, C22, C26) -/

theorem prefix_ne_direct_raw (p : String) : discoveryDirectPrefix ++ p ≠ direct p false := by
  intro h
  have h1 := congrArg String.length h
  simp [direct, discoveryDirectPrefix, String.length_append] at h1
  exact absurd h1 (by decide)

theorem indirect_ne_indirect_tag (p : String) (frames : Bool) :
    indirect p frames ≠ "indirect-" ++ p ∧ indirect p frames ≠ "raw-indirect-" ++ p := by
  constructor
  · intro h
    have h1 := congrArg String.data h
    cases frames <;> simp [indirect, discoveryDirectPrefix, String.data_append] at h1
  · intro h
    have h1 := congrArg String.data h
    cases frames <;> simp [indirect, discoveryDirectPrefix, String.data_append] at h1

theorem direct_eq (p : String) :
    direct p true = "libp2p-connection-direct-" ++ p ∧
      direct p false = "libp2p-connection-direct-raw-" ++ p := by
  constructor
  · rfl
  · show ("libp2p-connection-direct-" ++ "raw-") ++ p = _
    rfl

/-- C21, evaluated on the code: `indirect` starts from `discoveryDirectPrefix`, so for
every protocol and frames flag `indirect(p, frames)` equals `direct(p, frames)`; it is
neither `"indirect-" + p` nor `"raw-indirect-" + p`, and under Private `DiscoveryListen`
advertises the tag it advertises under Public. -/
theorem C21_indirect_equals_direct (p : String) (frames : Bool) (tr : List DiscoveryEvent) :
    indirect p frames = direct p frames ∧
    indirect p frames ≠ "indirect-" ++ p ∧
    indirect p frames ≠ "raw-indirect-" ++ p ∧
    (DiscoveryListen Reachability.Private frames p tr).2 =
      tr ++ [DiscoveryEvent.advertise (direct p frames)] ∧
    (DiscoveryListen Reachability.Public frames p tr).2 =
      tr ++ [DiscoveryEvent.listen p frames, DiscoveryEvent.advertise (direct p frames)] :=
  ⟨rfl, (indirect_ne_indirect_tag p frames).1, (indirect_ne_indirect_tag p frames).2, rfl, rfl⟩

/-- C22, the claim as stated fails: for the protocol `p` the tag of a public listener is
`libp2p-connection-direct-p` when framed and `libp2p-connection-direct-raw-p` when
unframed, not `direct-p` and `raw-direct-p`. -/
theorem C22_direct_tag_is_namespaced :
    direct "p" true = "libp2p-connection-direct-p" ∧
    direct "p" true ≠ "direct-p" ∧
    direct "p" false = "libp2p-connection-direct-raw-p" ∧
    direct "p" false ≠ "raw-direct-p" ∧
    (DiscoveryListen Reachability.Public false "p" []).2 =
      [DiscoveryEvent.listen "p" false,
        DiscoveryEvent.advertise "libp2p-connection-direct-raw-p"] := by
  decide

/-- C22, amended: for every protocol `p` the tag advertised for a public listener is
`direct(p, frames)`, which is exactly `"libp2p-connection-direct-" + p` when framed and
exactly `"libp2p-connection-direct-raw-" + p` when unframed: the `raw-` marker comes
after `direct-`. -/
theorem C22_direct_tag (p : String) (frames : Bool) (tr : List DiscoveryEvent) :
    direct p true = "libp2p-connection-direct-" ++ p ∧
    direct p false = "libp2p-connection-direct-raw-" ++ p ∧
    DiscoveryListen Reachability.Public frames p tr =
      (none, tr ++ [DiscoveryEvent.listen p frames,
        DiscoveryEvent.advertise (direct p frames)]) :=
  ⟨(direct_eq p).1, (direct_eq p).2, rfl⟩

theorem discoveryLoop_trace (d : Discovery) (prot : String) (frames : Bool)
    (arrivals : List Arrival) (ind : List String) (tr : List DiscoveryEvent) :
    ∃ rest, (discoveryLoop d prot frames arrivals ind tr).2 = tr ++ rest := by
  induction arrivals generalizing ind tr with
  | nil => exact ⟨[], by simp [discoveryLoop]⟩
  | cons a rest ih =>
    cases a with
    | direct peer =>
      cases peer with
      | none => exact ⟨[], by simp [discoveryLoop]⟩
      | some peer =>
        unfold discoveryLoop tryConnect
        cases hn : d.newStream peer with
        | none => exact ⟨_, rfl⟩
        | some err =>
          dsimp only
          obtain ⟨r, hr⟩ := ih ind (tr ++ [DiscoveryEvent.newStream peer prot])
          exact ⟨DiscoveryEvent.newStream peer prot :: r, by rw [hr]; simp⟩
    | indirect peer =>
      cases peer with
      | none => exact ⟨[], by simp [discoveryLoop]⟩
      | some peer =>
        unfold discoveryLoop
        exact ih _ tr

theorem attemptDiscoveryConnect_first_query (d : Discovery) (frames : Bool) (p : String)
    (tr : List DiscoveryEvent) :
    ∃ rest, (attemptDiscoveryConnect d frames p tr).2 =
      tr ++ DiscoveryEvent.findPeers (discoveryDirectPrefix ++ p) :: rest := by
  unfold attemptDiscoveryConnect
  cases d.findDirect with
  | some err => exact ⟨[], rfl⟩
  | none =>
    cases d.findIndirect with
    | some err =>
      exact ⟨[DiscoveryEvent.findPeers (discoveryIndirectPrefix ++ p)], by simp⟩
    | none =>
      obtain ⟨r, hr⟩ := discoveryLoop_trace d p frames d.arrivals []
        (tr ++ [DiscoveryEvent.findPeers (discoveryDirectPrefix ++ p)] ++
          [DiscoveryEvent.findPeers (discoveryIndirectPrefix ++ p)])
      exact ⟨DiscoveryEvent.findPeers (discoveryIndirectPrefix ++ p) :: r, by
        dsimp only
        rw [hr]
        simp⟩

/-- C26, evaluated on the code: whatever the network does, the first tag an unframed
`attemptDiscoveryConnect` queries is `discoveryDirectPrefix + p`, without the `raw-`
marker, while an unframed public `DiscoveryListen` advertises `direct(p, false)`; the two
tags differ for every protocol. The queried tag is `direct(p, true)`, the tag of the
framed listener. -/
theorem C26_query_tag_ignores_frames (d : Discovery) (p : String)
    (tr : List DiscoveryEvent) :
    (∃ rest, (attemptDiscoveryConnect d false p tr).2 =
      tr ++ DiscoveryEvent.findPeers (discoveryDirectPrefix ++ p) :: rest) ∧
    (DiscoveryListen Reachability.Public false p tr).2 =
      tr ++ [DiscoveryEvent.listen p false, DiscoveryEvent.advertise (direct p false)] ∧
    discoveryDirectPrefix ++ p ≠ direct p false ∧
    discoveryDirectPrefix ++ p = direct p true :=
  ⟨attemptDiscoveryConnect_first_query d false p tr, rfl, prefix_ne_direct_raw p, rfl⟩

/-! ## Discovery connect (C23, C24) -/

/-- C23: whatever the outcomes of the successive calls of `attemptDiscoveryConnect` are,
`DiscoveryConnect` makes at most three calls, stops at the first call that returns nil
and returns nil, and returns an error exactly when the three calls failed; the error is
then that of the third call. The second component of the result is the number of calls
made. -/
theorem C23_discovery_connect_retries (outcomes : Nat → Option String) (frames : Bool)
    (prot : String) :
    (DiscoveryConnect (attemptOutcome outcomes) frames prot 0).2 ≤ 3 ∧
    (outcomes 0 = none →
      DiscoveryConnect (attemptOutcome outcomes) frames prot 0 = (none, 1)) ∧
    (outcomes 0 ≠ none → outcomes 1 = none →
      DiscoveryConnect (attemptOutcome outcomes) frames prot 0 = (none, 2)) ∧
    (outcomes 0 ≠ none → outcomes 1 ≠ none → outcomes 2 = none →
      DiscoveryConnect (attemptOutcome outcomes) frames prot 0 = (none, 3)) ∧
    ((DiscoveryConnect (attemptOutcome outcomes) frames prot 0).1 ≠ none ↔
      outcomes 0 ≠ none ∧ outcomes 1 ≠ none ∧ outcomes 2 ≠ none) ∧
    ((DiscoveryConnect (attemptOutcome outcomes) frames prot 0).1 ≠ none →
      DiscoveryConnect (attemptOutcome outcomes) frames prot 0 = (outcomes 2, 3)) := by
  unfold DiscoveryConnect attemptOutcome
  cases h0 : outcomes 0 <;> cases h1 : outcomes 1 <;> cases h2 : outcomes 2 <;>
    simp [h0, h1, h2]

/-- C23 when the first attempt fails and the second succeeds: two calls, nil. -/
theorem C23_discovery_connect_retries_witness :
    DiscoveryConnect (attemptOutcome (fun n => if n = 0 then some "no peer" else none))
      true "p" 0 = (none, 2) :=
  (C23_discovery_connect_retries (fun n => if n = 0 then some "no peer" else none)
    true "p").2.2.1 (by decide) (by decide)

/-- C24, evaluated on the code: the indirect channel is found closed before the direct
peer `A` is received. The loop runs while both channels are open, so it ends there:
`attemptDiscoveryConnect` returns its failure error without a call of `tryConnect`,
although the direct channel was not closed and `A` would have connected (it does when it
arrives first). -/
theorem C24_indirect_close_ends_attempt :
    demoDiscovery.arrivals =
      [Arrival.indirect none, Arrival.direct (some "A"), Arrival.direct none] ∧
    demoDiscovery.newStream "A" = none ∧
    attemptDiscoveryConnect demoDiscovery true "p" [] =
      (some (some "Could not connect to discovery peer"),
        [DiscoveryEvent.findPeers "libp2p-connection-direct-p",
          DiscoveryEvent.findPeers "libp2p-connection-indirect-p"]) ∧
    attemptDiscoveryConnect
        { demoDiscovery with
          arrivals := [Arrival.direct (some "A"), Arrival.indirect none, Arrival.direct none] }
        true "p" [] =
      (some none,
        [DiscoveryEvent.findPeers "libp2p-connection-direct-p",
          DiscoveryEvent.findPeers "libp2p-connection-indirect-p",
          DiscoveryEvent.newStream "A" "p",
          DiscoveryEvent.newConnection "p" "A" true]) := by
  decide

/-! ## Version numbers (C27) -/

theorem splitChars_no_sep (sep : Char) (l : List Char) (h : sep ∉ l) :
    splitChars sep l = [l] := by
  induction l with
  | nil => rfl
  | cons c cs ih =>
    have hc : c ≠ sep := fun e => h (by rw [e]; exact List.mem_cons_self _ _)
    have hcs : sep ∉ cs := fun e => h (List.mem_cons_of_mem _ e)
    simp [splitChars, hc, ih hcs]

theorem splitChars_append (sep : Char) (l r : List Char) (h : sep ∉ l) :
    splitChars sep (l ++ sep :: r) = l :: splitChars sep r := by
  induction l with
  | nil => simp [splitChars]
  | cons c cs ih =>
    have hc : c ≠ sep := fun e => h (by rw [e]; exact List.mem_cons_self _ _)
    have hcs : sep ∉ cs := fun e => h (List.mem_cons_of_mem _ e)
    simp [splitChars, hc, ih hcs]

theorem versionNumbers_eq (seconds nanos : String) (hs : '.' ∉ seconds.data)
    (hn : '.' ∉ nanos.data) :
    versionNumbers (seconds ++ "." ++ nanos) =
      if nanos.utf8ByteSize < 9 then none
      else some (seconds,
        String.mk (List.replicate (nanos.utf8ByteSize - 9) '0') ++ nanos) := by
  have hdata : (seconds ++ "." ++ nanos).data = seconds.data ++ '.' :: nanos.data := by
    simp [String.data_append]
  have e1 : String.mk nanos.data = nanos := rfl
  have e2 : String.mk seconds.data = seconds := rfl
  unfold versionNumbers
  rw [hdata, splitChars_append _ _ _ hs, splitChars_no_sep _ _ hn]
  simp only [List.map_cons, List.map_nil, List.getElem?_cons_zero, List.getElem?_cons_succ,
    e1, e2]
  by_cases h : nanos.utf8ByteSize < 9
  · have h1 : (nanos.utf8ByteSize : Int) - 9 < 0 := by omega
    rw [if_pos h1, if_pos h]
  · have h1 : ¬ ((nanos.utf8ByteSize : Int) - 9 < 0) := by omega
    have h2 : ((nanos.utf8ByteSize : Int) - 9).toNat = nanos.utf8ByteSize - 9 := by omega
    rw [if_neg h1, if_neg h, h2]

/-- C27, evaluated on the code: the repeat count is `len(nanos) - 9`, negative for a
nanos part of fewer than 9 digits: `versionNumbers("1.5")` panics. It returns for 9
digits (nothing to pad) and pads a nanos part of 10 digits to 11. A version without a
dot panics at `times[1]`. -/
theorem C27_short_nanos_panic :
    versionNumbers "1.5" = none ∧
    versionNumbers "1600000000.12345678" = none ∧
    versionNumbers "1.123456789" = some ("1", "123456789") ∧
    versionNumbers "1.1234567890" = some ("1", "01234567890") ∧
    versionNumbers "15" = none := by
  decide

/-! ## Private addresses (C28, C29) -/

/-- C28, evaluated on the code: `isPrivateIPv6` tests the bytes 0..10 for 0 and the bytes
11 and 12 for 255, one byte too far: in the mapped form byte 10 is 255, so for every
`a.b.c.d` the mapped form is reported as not private, while `10.0.0.1` in its 4-byte form
is private. -/
theorem C28_mapped_form_never_private (a b c d : Nat) :
    isPrivateIPv6 (mapped a b c d) = some false ∧
    isPrivate (mapped a b c d) = some false ∧
    isPrivateIPv4 [10, 0, 0, 1] = some true ∧
    isPrivate [10, 0, 0, 1] = some true ∧
    isPrivate (mapped 10 0 0 1) = some false := by
  have h : isPrivateIPv6 (mapped a b c d) = some false := by
    cases hd : (d == 1) <;>
      simp [isPrivateIPv6, mapped, hasValues, hasValuesFrom, goOr, goAnd, hd]
  refine ⟨h, ?_, by decide, by decide, by decide⟩
  have hlen : (mapped a b c d).length = 16 := rfl
  unfold isPrivate
  rw [hlen, if_neg (by decide)]
  exact h

theorem inBlock_iff (base bits ip : Nat) :
    inBlock base bits ip = true ↔ ip / 2 ^ (32 - bits) = base / 2 ^ (32 - bits) := by
  simp [inBlock]

theorem blk8 (a b c d x : Nat) (hb : b < 256) (hc : c < 256) (hd : d < 256) :
    inBlock (ipv4 x 0 0 0) 8 (ipv4 a b c d) = true ↔ a = x := by
  rw [inBlock_iff]
  unfold ipv4
  have h : (2 : Nat) ^ (32 - 8) = 16777216 := by norm_num
  rw [h]
  omega

theorem blk16 (a b c d x y : Nat) (hb : b < 256) (hc : c < 256) (hd : d < 256)
    (hy : y < 256) :
    inBlock (ipv4 x y 0 0) 16 (ipv4 a b c d) = true ↔ a = x ∧ b = y := by
  rw [inBlock_iff]
  unfold ipv4
  have h : (2 : Nat) ^ (32 - 16) = 65536 := by norm_num
  rw [h]
  omega

theorem blk24 (a b c d x y z : Nat) (hb : b < 256) (hc : c < 256) (hd : d < 256)
    (hy : y < 256) (hz : z < 256) :
    inBlock (ipv4 x y z 0) 24 (ipv4 a b c d) = true ↔ a = x ∧ b = y ∧ c = z := by
  rw [inBlock_iff]
  unfold ipv4
  have h : (2 : Nat) ^ (32 - 24) = 256 := by norm_num
  rw [h]
  omega

theorem blk10 (a b c d : Nat) (hb : b < 256) (hc : c < 256) (hd : d < 256) :
    inBlock (ipv4 100 64 0 0) 10 (ipv4 a b c d) = true ↔ a = 100 ∧ 64 ≤ b ∧ b ≤ 127 := by
  rw [inBlock_iff]
  unfold ipv4
  have h : (2 : Nat) ^ (32 - 10) = 4194304 := by norm_num
  rw [h]
  omega

theorem blk12 (a b c d : Nat) (hb : b < 256) (hc : c < 256) (hd : d < 256) :
    inBlock (ipv4 172 16 0 0) 12 (ipv4 a b c d) = true ↔ a = 172 ∧ 16 ≤ b ∧ b ≤ 31 := by
  rw [inBlock_iff]
  unfold ipv4
  have h : (2 : Nat) ^ (32 - 12) = 1048576 := by norm_num
  rw [h]
  omega

theorem blk15 (a b c d : Nat) (hb : b < 256) (hc : c < 256) (hd : d < 256) :
    inBlock (ipv4 198 18 0 0) 15 (ipv4 a b c d) = true ↔ a = 198 ∧ 18 ≤ b ∧ b ≤ 19 := by
  rw [inBlock_iff]
  unfold ipv4
  have h : (2 : Nat) ^ (32 - 15) = 131072 := by norm_num
  rw [h]
  omega

theorem blk3 (a b c d : Nat) (ha : a < 256) (hb : b < 256) (hc : c < 256) (hd : d < 256) :
    inBlock (ipv4 224 0 0 0) 3 (ipv4 a b c d) = true ↔ 224 ≤ a := by
  rw [inBlock_iff]
  unfold ipv4
  have h : (2 : Nat) ^ (32 - 3) = 536870912 := by norm_num
  rw [h]
  omega
theorem isPrivateIPv4_eq (a b c d : Nat) :
    isPrivateIPv4 [a, b, c, d] = some (a == 10 ||
      (a == 100 && decide (b ≥ 64) && decide (b ≤ 127)) ||
      a == 127 ||
      (a == 172 && decide (b ≥ 16) && decide (b ≤ 31)) ||
      (a == 169 && b == 254) ||
      (a == 192 && b == 0) ||
      (a == 192 && b == 2) ||
      (a == 192 && b == 88 && c == 99) ||
      (a == 192 && b == 168) ||
      (a == 198 && decide (b ≥ 18) && decide (b ≤ 19)) ||
      (a == 198 && b == 51 && c == 100) ||
      (a == 203 && b == 0 && c == 113) ||
      decide (a ≥ 224)) := rfl

theorem inNonPublicBlock_iff (a b c d : Nat) (ha : a < 256) (hb : b < 256) (hc : c < 256) (hd : d < 256) :
    inNonPublicBlock a b c d = true ↔
      (a = 10 ∨ (a = 100 ∧ 64 ≤ b ∧ b ≤ 127) ∨ a = 127 ∨ (a = 169 ∧ b = 254) ∨
        (a = 172 ∧ 16 ≤ b ∧ b ≤ 31) ∨ (a = 192 ∧ b = 0 ∧ c = 0) ∨ (a = 192 ∧ b = 0 ∧ c = 2) ∨
        (a = 192 ∧ b = 88 ∧ c = 99) ∨ (a = 192 ∧ b = 168) ∨ (a = 198 ∧ 18 ≤ b ∧ b ≤ 19) ∨
        (a = 198 ∧ b = 51 ∧ c = 100) ∨ (a = 203 ∧ b = 0 ∧ c = 113) ∨ 224 ≤ a) := by
  have e : inNonPublicBlock a b c d =
      (inBlock (ipv4 10 0 0 0) 8 (ipv4 a b c d) || (inBlock (ipv4 100 64 0 0) 10 (ipv4 a b c d) ||
      (inBlock (ipv4 127 0 0 0) 8 (ipv4 a b c d) || (inBlock (ipv4 169 254 0 0) 16 (ipv4 a b c d) ||
      (inBlock (ipv4 172 16 0 0) 12 (ipv4 a b c d) || (inBlock (ipv4 192 0 0 0) 24 (ipv4 a b c d) ||
      (inBlock (ipv4 192 0 2 0) 24 (ipv4 a b c d) || (inBlock (ipv4 192 88 99 0) 24 (ipv4 a b c d) ||
      (inBlock (ipv4 192 168 0 0) 16 (ipv4 a b c d) || (inBlock (ipv4 198 18 0 0) 15 (ipv4 a b c d) ||
      (inBlock (ipv4 198 51 100 0) 24 (ipv4 a b c d) ||
      (inBlock (ipv4 203 0 113 0) 24 (ipv4 a b c d) ||
      (inBlock (ipv4 224 0 0 0) 3 (ipv4 a b c d) || false))))))))))))) := rfl
  rw [e]
  simp only [Bool.or_false, Bool.or_eq_true,
    blk8 a b c d 10 hb hc hd, blk8 a b c d 127 hb hc hd, blk10 a b c d hb hc hd,
    blk16 a b c d 169 254 hb hc hd (by decide), blk12 a b c d hb hc hd,
    blk24 a b c d 192 0 0 hb hc hd (by decide) (by decide),
    blk24 a b c d 192 0 2 hb hc hd (by decide) (by decide),
    blk24 a b c d 192 88 99 hb hc hd (by decide) (by decide),
    blk16 a b c d 192 168 hb hc hd (by decide), blk15 a b c d hb hc hd,
    blk24 a b c d 198 51 100 hb hc hd (by decide) (by decide),
    blk24 a b c d 203 0 113 hb hc hd (by decide) (by decide),
    blk3 a b c d ha hb hc hd]

theorem blocks_or_extra (a b c : Nat) (P : Prop)
    (hP : P ↔ (a = 10 ∨ (a = 100 ∧ 64 ≤ b ∧ b ≤ 127) ∨ a = 127 ∨ (a = 169 ∧ b = 254) ∨
        (a = 172 ∧ 16 ≤ b ∧ b ≤ 31) ∨ (a = 192 ∧ b = 0 ∧ c = 0) ∨ (a = 192 ∧ b = 0 ∧ c = 2) ∨
        (a = 192 ∧ b = 88 ∧ c = 99) ∨ (a = 192 ∧ b = 168) ∨ (a = 198 ∧ 18 ≤ b ∧ b ≤ 19) ∨
        (a = 198 ∧ b = 51 ∧ c = 100) ∨ (a = 203 ∧ b = 0 ∧ c = 113) ∨ 224 ≤ a)) :
    (a = 10 ∨ (a = 100 ∧ 64 ≤ b ∧ b ≤ 127) ∨ a = 127 ∨ (a = 172 ∧ 16 ≤ b ∧ b ≤ 31) ∨
      (a = 169 ∧ b = 254) ∨ (a = 192 ∧ b = 0) ∨ (a = 192 ∧ b = 2) ∨
      (a = 192 ∧ b = 88 ∧ c = 99) ∨ (a = 192 ∧ b = 168) ∨ (a = 198 ∧ 18 ≤ b ∧ b ≤ 19) ∨
      (a = 198 ∧ b = 51 ∧ c = 100) ∨ (a = 203 ∧ b = 0 ∧ c = 113) ∨ 224 ≤ a) ↔
    (P ∨ (a = 192 ∧ (b = 0 ∨ b = 2))) := by
  rw [hP]
  constructor
  · rintro (h | h | h | h | h | h | h | h | h | h | h | h | h)
    · exact Or.inl (Or.inl h)
    · exact Or.inl (Or.inr (Or.inl h))
    · exact Or.inl (Or.inr (Or.inr (Or.inl h)))
    · exact Or.inl (Or.inr (Or.inr (Or.inr (Or.inr (Or.inl h)))))
    · exact Or.inl (Or.inr (Or.inr (Or.inr (Or.inl h))))
    · exact Or.inr ⟨h.1, Or.inl h.2⟩
    · exact Or.inr ⟨h.1, Or.inr h.2⟩
    · exact Or.inl (Or.inr (Or.inr (Or.inr (Or.inr (Or.inr (Or.inr (Or.inr (Or.inl h))))))))
    · exact Or.inl (Or.inr (Or.inr (Or.inr (Or.inr (Or.inr (Or.inr (Or.inr (Or.inr
        (Or.inl h)))))))))
    · exact Or.inl (Or.inr (Or.inr (Or.inr (Or.inr (Or.inr (Or.inr (Or.inr (Or.inr
        (Or.inr (Or.inl h))))))))))
    · exact Or.inl (Or.inr (Or.inr (Or.inr (Or.inr (Or.inr (Or.inr (Or.inr (Or.inr
        (Or.inr (Or.inr (Or.inl h)))))))))))
    · exact Or.inl (Or.inr (Or.inr (Or.inr (Or.inr (Or.inr (Or.inr (Or.inr (Or.inr
        (Or.inr (Or.inr (Or.inr (Or.inl h))))))))))))
    · exact Or.inl (Or.inr (Or.inr (Or.inr (Or.inr (Or.inr (Or.inr (Or.inr (Or.inr
        (Or.inr (Or.inr (Or.inr (Or.inr h))))))))))))
  · rintro ((h | h | h | h | h | h | h | h | h | h | h | h | h) | ⟨h1, h2 | h2⟩)
    · exact Or.inl h
    · exact Or.inr (Or.inl h)
    · exact Or.inr (Or.inr (Or.inl h))
    · exact Or.inr (Or.inr (Or.inr (Or.inr (Or.inl h))))
    · exact Or.inr (Or.inr (Or.inr (Or.inl h)))
    · exact Or.inr (Or.inr (Or.inr (Or.inr (Or.inr (Or.inl ⟨h.1, h.2.1⟩)))))
    · exact Or.inr (Or.inr (Or.inr (Or.inr (Or.inr (Or.inl ⟨h.1, h.2.1⟩)))))
    · exact Or.inr (Or.inr (Or.inr (Or.inr (Or.inr (Or.inr (Or.inr (Or.inl h)))))))
    · exact Or.inr (Or.inr (Or.inr (Or.inr (Or.inr (Or.inr (Or.inr (Or.inr (Or.inl h))))))))
    · exact Or.inr (Or.inr (Or.inr (Or.inr (Or.inr (Or.inr (Or.inr (Or.inr (Or.inr
        (Or.inl h)))))))))
    · exact Or.inr (Or.inr (Or.inr (Or.inr (Or.inr (Or.inr (Or.inr (Or.inr (Or.inr
        (Or.inr (Or.inl h))))))))))
    · exact Or.inr (Or.inr (Or.inr (Or.inr (Or.inr (Or.inr (Or.inr (Or.inr (Or.inr
        (Or.inr (Or.inr (Or.inl h)))))))))))
    · exact Or.inr (Or.inr (Or.inr (Or.inr (Or.inr (Or.inr (Or.inr (Or.inr (Or.inr
        (Or.inr (Or.inr (Or.inr h)))))))))))
    · exact Or.inr (Or.inr (Or.inr (Or.inr (Or.inr (Or.inl ⟨h1, h2⟩)))))
    · exact Or.inr (Or.inr (Or.inr (Or.inr (Or.inr (Or.inr (Or.inl ⟨h1, h2⟩))))))

theorem isPrivateIPv4_blocks (a b c d : Nat) (ha : a < 256) (hb : b < 256) (hc : c < 256) (hd : d < 256) :
    isPrivateIPv4 [a, b, c, d] =
      some (inNonPublicBlock a b c d || (a == 192 && (b == 0 || b == 2))) := by
  rw [isPrivateIPv4_eq]
  congr 1
  rw [Bool.eq_iff_iff]
  simp only [Bool.or_eq_true, Bool.and_eq_true, beq_iff_eq, decide_eq_true_eq, ge_iff_le,
    or_assoc, and_assoc]
  exact blocks_or_extra a b c _ (inNonPublicBlock_iff a b c d ha hb hc hd)

/-- C29, evaluated on the code: the tests for 192.0.0.0/24 and 192.0.2.0/24 read
`a == 192 && b == 0` and `a == 192 && b == 2`, without the third byte: `192.2.0.1` and
`192.0.1.1`, which lie in none of the listed blocks, are reported as private. -/
theorem C29_extra_private_addresses :
    isPrivateIPv4 [192, 2, 0, 1] = some true ∧
    inNonPublicBlock 192 2 0 1 = false ∧
    isPrivateIPv4 [192, 0, 1, 1] = some true ∧
    inNonPublicBlock 192 0 1 1 = false ∧
    isPrivateIPv4 [192, 0, 2, 1] = some true ∧
    inNonPublicBlock 192 0 2 1 = true ∧
    isPrivateIPv4 [8, 8, 8, 8] = some false ∧
    inNonPublicBlock 8 8 8 8 = false := by
  decide

end P2PRelay
